import Mathlib

/-!
# Chess rules engine (`Chess.cpp`): shallow embedding and verified properties

The global variables of the program (`board`, `enPassantIdx`, `enPassantColor`, the six
"moved" flags and `legalMoves`) are collected in the record `Game`; the local variables of
the event loop of `main` (`dragging`, `held`, `heldIdx`, `turn`) in the record `Session`.
Functions that write a global return the new value next to their result.

A result `none` stands for an execution without a defined result: an array access outside
`0..63`, or a loop that never leaves its body.
-/

set_option autoImplicit false
set_option maxRecDepth 100000

namespace Chess

/-! ## Data model -/

/-- The enumeration `Piece` (line 8). -/
inductive Piece where
  | EMPTY | PAWN | ROOK | KNIGHT | BISHOP | QUEEN | KING
deriving DecidableEq, Repr

/-- The enumeration `Color` (line 9). -/
inductive Color where
  | NONE | WHITE | BLACK
deriving DecidableEq, Repr

/-- The record `Square` (lines 11-14). -/
structure Square where
  piece : Piece
  color : Color
deriving DecidableEq, Repr

/-- The record `Move` (lines 31-34). -/
structure Move where
  fromIdx : Int
  toIdx : Int
deriving DecidableEq, Repr

/-- The array `Square board[BOARD_SIZE]`, as the function from an index to the square stored
there. Only the indices `0..63` belong to the array: every access whose index is not a loop
counter bounded by `BOARD_SIZE` goes through `readSq` or `writeSq`. -/
abbrev Board := Int → Square

/-- The constant `BOARD_SIZE` (line 6). -/
abbrev BOARD_SIZE : Int := 64

/-- The value `{ EMPTY, NONE }` the program stores in a vacated square. -/
abbrev emptySquare : Square := ⟨Piece.EMPTY, Color.NONE⟩

/-- The global variables of the program (lines 17-36). -/
structure Game where
  board : Board
  enPassantIdx : Int
  enPassantColor : Color
  whiteKingMoved : Bool
  blackKingMoved : Bool
  whiteLeftRookMoved : Bool
  whiteRightRookMoved : Bool
  blackLeftRookMoved : Bool
  blackRightRookMoved : Bool
  legalMoves : List Move

/-- The globals together with the local variables of the event loop (lines 381-385). -/
structure Session where
  game : Game
  dragging : Bool
  held : Square
  heldIdx : Int
  turn : Color

/-- The loop counter values `0, 1, ..., 63` of `for (int i = 0; i < BOARD_SIZE; i++)`. -/
def squares : List Int := (List.range 64).map Int.ofNat

/-- The loop counter values `0, 1, ..., 7` of `for (int col = 0; col < 8; col++)`. -/
def columns : List Int := (List.range 8).map Int.ofNat

/-- A read `board[idx]`; outside the array it has no defined result. -/
def readSq (board : Board) (idx : Int) : Option Square :=
  if 0 ≤ idx ∧ idx < BOARD_SIZE then some (board idx) else none

/-- The board after the assignment `board[idx] = sq`, for an index inside the array. -/
def setSq (board : Board) (idx : Int) (sq : Square) : Board :=
  fun j => if j = idx then sq else board j

/-- An assignment `board[idx] = sq`; outside the array it has no defined result. -/
def writeSq (board : Board) (idx : Int) (sq : Square) : Option Board :=
  if 0 ≤ idx ∧ idx < BOARD_SIZE then some (setSq board idx sq) else none

/-- Integer division truncates in C++ (line 39). -/
def getRow (idx : Int) : Int := Int.tdiv idx 8

/-- The remainder of the truncating division (line 40). -/
def getCol (idx : Int) : Int := Int.tmod idx 8

/-- Index of the square in a row and a column (line 41). -/
def getIdx (row col : Int) : Int := row * 8 + col

/-! ## initializeBoard (lines 57-95) -/

/-- The back rank `order[8]` (line 74). -/
def order (col : Int) : Piece :=
  if col = 0 then Piece.ROOK else if col = 1 then Piece.KNIGHT else if col = 2 then Piece.BISHOP
  else if col = 3 then Piece.QUEEN else if col = 4 then Piece.KING else if col = 5 then Piece.BISHOP
  else if col = 6 then Piece.KNIGHT else Piece.ROOK

/-- The five loops of `initializeBoard`, run one after the other on the board. -/
def initialBoard (board : Board) : Board :=
  let b0 := squares.foldl (fun b i => setSq b i emptySquare) board
  let b1 := columns.foldl (fun b col => setSq b (getIdx 1 col) ⟨Piece.PAWN, Color.BLACK⟩) b0
  let b2 := columns.foldl (fun b col => setSq b (getIdx 6 col) ⟨Piece.PAWN, Color.WHITE⟩) b1
  let b3 := columns.foldl (fun b col => setSq b (getIdx 0 col) ⟨order col, Color.BLACK⟩) b2
  columns.foldl (fun b col => setSq b (getIdx 7 col) ⟨order col, Color.WHITE⟩) b3

/-- The function `initializeBoard`: it writes the board, the en-passant target and the six
flags, and leaves `legalMoves` alone. -/
def initializeBoard (g : Game) : Game :=
  { board := initialBoard g.board
    enPassantIdx := -1
    enPassantColor := Color.NONE
    whiteKingMoved := false
    blackKingMoved := false
    whiteLeftRookMoved := false
    whiteRightRookMoved := false
    blackLeftRookMoved := false
    blackRightRookMoved := false
    legalMoves := g.legalMoves }

/-! ## pathClear (lines 97-124) -/

/-- The `while` loop of `pathClear` (lines 115-121). The first argument bounds the number of
times the body runs; the body reads one square per run, at an index that moves by the same
non-zero amount every time, so that 64 runs cannot all stay inside the array. -/
def pathClearLoop (board : Board) (toRow toCol rowStep colStep : Int) :
    Nat → Int → Int → Option Bool
  | 0, _, _ => none
  | fuel + 1, currentRow, currentCol =>
    if currentRow ≠ toRow ∨ currentCol ≠ toCol then
      match readSq board (getIdx currentRow currentCol) with
      | none => none
      | some sq =>
        if sq.piece ≠ Piece.EMPTY then some false
        else pathClearLoop board toRow toCol rowStep colStep fuel
          (currentRow + rowStep) (currentCol + colStep)
    else some true

/-- The function `pathClear`. -/
def pathClear (board : Board) (fromIdx toIdx : Int) : Option Bool :=
  let fromRow := getRow fromIdx
  let fromCol := getCol fromIdx
  let toRow := getRow toIdx
  let toCol := getCol toIdx
  let rowStep : Int := if toRow > fromRow then 1 else if toRow < fromRow then -1 else 0
  let colStep : Int := if toCol > fromCol then 1 else if toCol < fromCol then -1 else 0
  pathClearLoop board toRow toCol rowStep colStep 64 (fromRow + rowStep) (fromCol + colStep)

/-! ## kingInCheck (lines 126-194) -/

/-- The first loop of `kingInCheck` (lines 128-134): index of the first king of colour `c`,
or `-1`. -/
def findKing (board : Board) (c : Color) : Int :=
  match squares.find? (fun i => (board i).piece = Piece.KING ∧ (board i).color = c) with
  | some i => i
  | none => -1

/-- The `switch` of `kingInCheck` (lines 153-188): the value of `isAttack` for a piece `p` of
colour `attackerColor` standing on square `i`, against the king on `kingIdx`. -/
def isAttack (board : Board) (p : Piece) (attackerColor : Color) (i kingIdx : Int) :
    Option Bool :=
  let kingRow := getRow kingIdx
  let kingCol := getCol kingIdx
  let fromRow := getRow i
  let fromCol := getCol i
  let rowDiff := kingRow - fromRow
  let colDiff := kingCol - fromCol
  match p with
  | Piece.PAWN =>
    let dir : Int := if attackerColor = Color.WHITE then -1 else 1
    some (decide (colDiff.natAbs = 1 ∧ rowDiff = dir))
  | Piece.ROOK =>
    if fromRow = kingRow ∨ fromCol = kingCol then pathClear board i kingIdx else some false
  | Piece.KNIGHT =>
    some (decide ((rowDiff.natAbs = 2 ∧ colDiff.natAbs = 1) ∨
      (rowDiff.natAbs = 1 ∧ colDiff.natAbs = 2)))
  | Piece.BISHOP =>
    if rowDiff.natAbs = colDiff.natAbs then pathClear board i kingIdx else some false
  | Piece.QUEEN =>
    match (if fromRow = kingRow ∨ fromCol = kingCol then pathClear board i kingIdx
           else some false) with
    | none => none
    | some true => some true
    | some false =>
      if rowDiff.natAbs = colDiff.natAbs then pathClear board i kingIdx else some false
  | Piece.KING => some (decide (rowDiff.natAbs ≤ 1 ∧ colDiff.natAbs ≤ 1))
  | Piece.EMPTY => some false

/-- The second loop of `kingInCheck` (lines 141-192) over the counter values still to come:
`some true` at the first square whose piece attacks the king. -/
def attackLoop (board : Board) (c : Color) (kingIdx : Int) : List Int → Option Bool
  | [] => some false
  | i :: rest =>
    if (board i).color ≠ Color.NONE ∧ (board i).color ≠ c then
      match isAttack board (board i).piece (board i).color i kingIdx with
      | none => none
      | some true => some true
      | some false => attackLoop board c kingIdx rest
    else attackLoop board c kingIdx rest

/-- The function `kingInCheck`. -/
def kingInCheck (board : Board) (c : Color) : Option Bool :=
  let kingIdx := findKing board c
  if kingIdx = -1 then some false
  else attackLoop board c kingIdx squares

/-! ## wouldCauseCheck (lines 196-211) -/

/-- The function `wouldCauseCheck`: its result and the board it leaves. The two writes go to
the indices that were read first. -/
def wouldCauseCheck (board : Board) (fromIdx toIdx : Int) : Option (Bool × Board) :=
  match readSq board fromIdx, readSq board toIdx with
  | some fromSquare, some toSquare =>
    let b1 := setSq board toIdx fromSquare
    let b2 := setSq b1 fromIdx emptySquare
    match kingInCheck b2 fromSquare.color with
    | none => none
    | some check =>
      let b3 := setSq b2 fromIdx fromSquare
      let b4 := setSq b3 toIdx toSquare
      some (check, b4)
  | _, _ => none

/-! ## isMoveLegal (lines 213-336) -/

/-- The safety loops of the castling branch (lines 288-301 and 312-325) over the columns still
to come: the king is put on each square in turn, with its own square emptied, and
`kingInCheck` is asked. The result `false` is the early `return false` (after both squares
are restored); `true` means that the loop ran to its end, and the caller then puts the king
back. -/
def castleLoop (c : Color) (fromIdx fromRow : Int) : List Int → Board → Option (Bool × Board)
  | [], board => some (true, board)
  | col :: rest, board =>
    let checkIdx := getIdx fromRow col
    match readSq board checkIdx with
    | none => none
    | some temp =>
      let b1 := setSq board checkIdx ⟨Piece.KING, c⟩
      let b2 := setSq b1 fromIdx emptySquare
      match kingInCheck b2 c with
      | none => none
      | some true => some (false, setSq (setSq b2 checkIdx temp) fromIdx ⟨Piece.KING, c⟩)
      | some false => castleLoop c fromIdx fromRow rest (setSq b2 checkIdx temp)

/-- The pawn case of `isMoveLegal` (lines 235-260); it only reads. -/
def pawnLegal (g : Game) (c : Color) (toSquare : Square)
    (fromRow fromCol rowDiff colDiff toIdx : Int) : Option Bool :=
  let dir : Int := if c = Color.WHITE then -1 else 1
  let startRow : Int := if c = Color.WHITE then 6 else 1
  if colDiff = 0 ∧ rowDiff = dir ∧ toSquare.piece = Piece.EMPTY then some true
  else
    match (if colDiff = 0 ∧ rowDiff = 2 * dir ∧ fromRow = startRow then
             match readSq g.board (getIdx (fromRow + dir) fromCol) with
             | none => none
             | some middle =>
               some (decide (middle.piece = Piece.EMPTY ∧ toSquare.piece = Piece.EMPTY))
           else some false) with
    | none => none
    | some true => some true
    | some false =>
      if colDiff.natAbs = 1 ∧ rowDiff = dir ∧ toSquare.color ≠ c ∧ toSquare.color ≠ Color.NONE
      then some true
      else if colDiff.natAbs = 1 ∧ rowDiff = dir ∧ toIdx = g.enPassantIdx ∧ g.enPassantColor ≠ c
      then some true
      else some false

/-- The king case of `isMoveLegal` (lines 271-332): its result and the board it leaves. -/
def kingLegal (g : Game) (c : Color) (fromIdx toIdx fromRow fromCol rowDiff colDiff : Int) :
    Option (Bool × Board) :=
  if rowDiff.natAbs ≤ 1 ∧ colDiff.natAbs ≤ 1 then
    match wouldCauseCheck g.board fromIdx toIdx with
    | none => none
    | some (check, board) => some (!check, board)
  else
    let kingHasMoved := if c = Color.WHITE then g.whiteKingMoved else g.blackKingMoved
    let leftRookMoved := if c = Color.WHITE then g.whiteLeftRookMoved else g.blackLeftRookMoved
    let rightRookMoved :=
      if c = Color.WHITE then g.whiteRightRookMoved else g.blackRightRookMoved
    if kingHasMoved = false ∧ rowDiff = 0 ∧ colDiff.natAbs = 2 then
      if colDiff > 0 then
        if rightRookMoved = true then some (false, g.board)
        else
          match pathClear g.board fromIdx (getIdx fromRow 7) with
          | none => none
          | some false => some (false, g.board)
          | some true =>
            match castleLoop c fromIdx fromRow [fromCol, fromCol + 1, fromCol + 2] g.board with
            | none => none
            | some (false, board) => some (false, board)
            | some (true, board) => some (true, setSq board fromIdx ⟨Piece.KING, c⟩)
      else
        if leftRookMoved = true then some (false, g.board)
        else
          match pathClear g.board fromIdx (getIdx fromRow 0) with
          | none => none
          | some false => some (false, g.board)
          | some true =>
            match castleLoop c fromIdx fromRow [fromCol, fromCol - 1, fromCol - 2] g.board with
            | none => none
            | some (false, board) => some (false, board)
            | some (true, board) => some (true, setSq board fromIdx ⟨Piece.KING, c⟩)
    else some (false, g.board)

/-- The function `isMoveLegal`: its result and the board it leaves. -/
def isMoveLegal (g : Game) (fromIdx toIdx : Int) : Option (Bool × Board) :=
  if fromIdx < 0 ∨ fromIdx ≥ BOARD_SIZE ∨ toIdx < 0 ∨ toIdx ≥ BOARD_SIZE then
    some (false, g.board)
  else
    match readSq g.board fromIdx, readSq g.board toIdx with
    | some fromSquare, some toSquare =>
      if fromSquare.piece = Piece.EMPTY ∨ fromSquare.color = Color.NONE then some (false, g.board)
      else if toSquare.color = fromSquare.color then some (false, g.board)
      else
        let fromRow := getRow fromIdx
        let fromCol := getCol fromIdx
        let toRow := getRow toIdx
        let toCol := getCol toIdx
        let rowDiff := toRow - fromRow
        let colDiff := toCol - fromCol
        let c := fromSquare.color
        match fromSquare.piece with
        | Piece.PAWN =>
          (pawnLegal g c toSquare fromRow fromCol rowDiff colDiff toIdx).map
            (fun r => (r, g.board))
        | Piece.ROOK =>
          if fromRow = toRow ∨ fromCol = toCol then
            (pathClear g.board fromIdx toIdx).map (fun r => (r, g.board))
          else some (false, g.board)
        | Piece.KNIGHT =>
          some (decide ((rowDiff.natAbs = 2 ∧ colDiff.natAbs = 1) ∨
            (rowDiff.natAbs = 1 ∧ colDiff.natAbs = 2)), g.board)
        | Piece.BISHOP =>
          if rowDiff.natAbs = colDiff.natAbs then
            (pathClear g.board fromIdx toIdx).map (fun r => (r, g.board))
          else some (false, g.board)
        | Piece.QUEEN =>
          if (fromRow = toRow ∨ fromCol = toCol) ∨ rowDiff.natAbs = colDiff.natAbs then
            (pathClear g.board fromIdx toIdx).map (fun r => (r, g.board))
          else some (false, g.board)
        | Piece.KING => kingLegal g c fromIdx toIdx fromRow fromCol rowDiff colDiff
        | Piece.EMPTY => some (false, g.board)
    | _, _ => none

/-! ## computeLegalMoves and hasLegalMoves (lines 338-362) -/

/-- The condition `isMoveLegal(fromIdx, toIdx) && !wouldCauseCheck(fromIdx, toIdx)` of lines
345 and 355, evaluated from left to right on the global board: its value and the board it
leaves. -/
def fullyLegal (g : Game) (fromIdx toIdx : Int) : Option (Bool × Board) :=
  match isMoveLegal g fromIdx toIdx with
  | none => none
  | some (false, board) => some (false, board)
  | some (true, board) =>
    match wouldCauseCheck board fromIdx toIdx with
    | none => none
    | some (check, board2) => some (!check, board2)

/-- The loop of `computeLegalMoves` (lines 344-348) over the destinations still to come. -/
def computeLoop (fromIdx : Int) : List Int → Game → Option Game
  | [], g => some g
  | toIdx :: rest, g =>
    match fullyLegal g fromIdx toIdx with
    | none => none
    | some (true, board) =>
      computeLoop fromIdx rest
        { g with board := board, legalMoves := g.legalMoves ++ [⟨fromIdx, toIdx⟩] }
    | some (false, board) => computeLoop fromIdx rest { g with board := board }

/-- The function `computeLegalMoves`. -/
def computeLegalMoves (g : Game) (fromIdx : Int) (turn : Color) : Option Game :=
  let g0 := { g with legalMoves := [] }
  if fromIdx < 0 ∨ fromIdx ≥ BOARD_SIZE then some g0
  else
    match readSq g0.board fromIdx with
    | none => none
    | some sq =>
      if sq.color ≠ turn then some g0
      else computeLoop fromIdx squares g0

/-- The inner loop of `hasLegalMoves` (lines 354-358): `true` is the early `return true`. -/
def hasLoopTo (fromIdx : Int) : List Int → Game → Option (Bool × Board)
  | [], g => some (false, g.board)
  | toIdx :: rest, g =>
    match fullyLegal g fromIdx toIdx with
    | none => none
    | some (true, board) => some (true, board)
    | some (false, board) => hasLoopTo fromIdx rest { g with board := board }

/-- The outer loop of `hasLegalMoves` (lines 352-360). -/
def hasLoopFrom (turn : Color) : List Int → Game → Option (Bool × Board)
  | [], g => some (false, g.board)
  | fromIdx :: rest, g =>
    if (g.board fromIdx).color = turn then
      match hasLoopTo fromIdx squares g with
      | none => none
      | some (true, board) => some (true, board)
      | some (false, board) => hasLoopFrom turn rest { g with board := board }
    else hasLoopFrom turn rest g

/-- The function `hasLegalMoves`: its result and the board it leaves. -/
def hasLegalMoves (g : Game) (turn : Color) : Option (Bool × Board) :=
  hasLoopFrom turn squares g

/-! ## The event loop of main (lines 394-525) -/

/-- The en-passant block of the move application (lines 444-458): the new target and the
removal of the pawn that was passed. -/
def applyPawn (g : Game) (held : Square) (row col fromRow fromCol targetIdx : Int) :
    Option Game :=
  if held.piece = Piece.PAWN then
    let g1 :=
      if (row - fromRow).natAbs = 2 then
        { g with enPassantIdx := getIdx (Int.tdiv (row + fromRow) 2) col,
                 enPassantColor := held.color }
      else g
    if col ≠ fromCol then
      match readSq g1.board targetIdx with
      | none => none
      | some target =>
        if target.piece = Piece.EMPTY then
          let capRow := if held.color = Color.WHITE then row + 1 else row - 1
          if capRow ≥ 0 ∧ capRow < 8 then
            (writeSq g1.board (getIdx capRow col) emptySquare).map
              (fun b => { g1 with board := b })
          else some g1
        else some g1
    else some g1
  else some g

/-- The castling block of the move application (lines 461-480): the rook is carried over and
its flag is set. -/
def applyCastle (g : Game) (held : Square) (row col fromCol : Int) : Option Game :=
  if held.piece = Piece.KING ∧ (col - fromCol).natAbs = 2 then
    if col > fromCol then
      let rookFromIdx := getIdx row 7
      let rookToIdx := getIdx row (col - 1)
      match readSq g.board rookFromIdx with
      | none => none
      | some rook =>
        match writeSq g.board rookToIdx rook with
        | none => none
        | some b1 =>
          let b2 := setSq b1 rookFromIdx emptySquare
          if held.color = Color.WHITE then some { g with board := b2, whiteRightRookMoved := true }
          else some { g with board := b2, blackRightRookMoved := true }
    else
      let rookFromIdx := getIdx row 0
      let rookToIdx := getIdx row (col + 1)
      match readSq g.board rookFromIdx with
      | none => none
      | some rook =>
        match writeSq g.board rookToIdx rook with
        | none => none
        | some b1 =>
          let b2 := setSq b1 rookFromIdx emptySquare
          if held.color = Color.WHITE then some { g with board := b2, whiteLeftRookMoved := true }
          else some { g with board := b2, blackLeftRookMoved := true }
  else some g

/-- The flag updates after the move (lines 486-500). -/
def applyFlags (g : Game) (held : Square) (fromCol : Int) : Game :=
  let g1 :=
    if held.piece = Piece.KING then
      if held.color = Color.WHITE then { g with whiteKingMoved := true }
      else { g with blackKingMoved := true }
    else g
  if held.piece = Piece.ROOK then
    if fromCol = 0 then
      if held.color = Color.WHITE then { g1 with whiteLeftRookMoved := true }
      else { g1 with blackLeftRookMoved := true }
    else if fromCol = 7 then
      if held.color = Color.WHITE then { g1 with whiteRightRookMoved := true }
      else { g1 with blackRightRookMoved := true }
    else g1
  else g1

/-- The promotion (lines 503-505): `board[targetIdx].piece = QUEEN`. -/
def applyPromotion (g : Game) (held : Square) (row targetIdx : Int) : Game :=
  if held.piece = Piece.PAWN ∧ (row = 0 ∨ row = 7) then
    { g with board := setSq g.board targetIdx ⟨Piece.QUEEN, (g.board targetIdx).color⟩ }
  else g

/-- The writes of the move application, the body of `if (valid)` up to the change of turn
(lines 437-508), for the piece `held` lifted from `heldIdx` and dropped on row `row` and
column `col`, both in `0..7`. -/
def applyMutations (s : Session) (row col : Int) : Option Session :=
  let targetIdx := getIdx row col
  let g0 := { s.game with enPassantIdx := -1, enPassantColor := Color.NONE }
  let fromRow := getRow s.heldIdx
  let fromCol := getCol s.heldIdx
  match applyPawn g0 s.held row col fromRow fromCol targetIdx with
  | none => none
  | some g1 =>
    match applyCastle g1 s.held row col fromCol with
    | none => none
    | some g2 =>
      match writeSq g2.board targetIdx s.held with
      | none => none
      | some b3 =>
        let g3 := applyFlags { g2 with board := b3 } s.held fromCol
        let g4 := applyPromotion g3 s.held row targetIdx
        some { s with game := g4,
                      turn := if s.turn = Color.WHITE then Color.BLACK else Color.WHITE }

/-- The move application, the whole body of `if (valid)` (lines 437-516): the writes, then the
two status checks for the new side to move (lines 511-516). The messages are not modelled,
but the calls that decide them are made. -/
def applyMove (s : Session) (row col : Int) : Option Session :=
  match applyMutations s row col with
  | none => none
  | some s1 =>
    match kingInCheck s1.game.board s1.turn with
    | none => none
    | some _ =>
      match hasLegalMoves s1.game s1.turn with
      | none => none
      | some (_, b5) => some { s1 with game := { s1.game with board := b5 } }

/-- The handler of a left mouse button press on row `row` and column `col` (lines 394-412):
a piece of the side to move is lifted, after its legal moves are computed. -/
def mousePressed (s : Session) (row col : Int) : Option Session :=
  if row < 0 ∨ row ≥ 8 ∨ col < 0 ∨ col ≥ 8 then some s
  else
    let idx := getIdx row col
    match readSq s.game.board idx with
    | none => none
    | some sq =>
      if sq.color = s.turn then
        match computeLegalMoves s.game idx s.turn with
        | none => none
        | some g1 =>
          match writeSq g1.board idx emptySquare with
          | none => none
          | some b2 =>
            some { s with game := { g1 with board := b2 }, dragging := true, held := sq,
                          heldIdx := idx }
      else some s

/-- The handler of a mouse button release on row `row` and column `col` (lines 414-525). -/
def mouseReleased (s : Session) (row col : Int) : Option Session :=
  if s.dragging = true then
    if row < 0 ∨ row ≥ 8 ∨ col < 0 ∨ col ≥ 8 then
      (writeSq s.game.board s.heldIdx s.held).map
        (fun b => { s with game := { s.game with board := b }, dragging := false, heldIdx := -1 })
    else
      let targetIdx := getIdx row col
      let valid := s.game.legalMoves.any (fun m => decide (m.toIdx = targetIdx))
      if valid = true then
        (applyMove s row col).map (fun s1 => { s1 with dragging := false, heldIdx := -1 })
      else
        (writeSq s.game.board s.heldIdx s.held).map
          (fun b => { s with game := { s.game with board := b }, dragging := false,
                             heldIdx := -1 })
  else some s

/-- A press on the square `fromIdx` followed by a release on the square `toIdx`. -/
def pressRelease (s : Session) (fromIdx toIdx : Int) : Option Session :=
  match mousePressed s (getRow fromIdx) (getCol fromIdx) with
  | none => none
  | some s1 => mouseReleased s1 (getRow toIdx) (getCol toIdx)

/-- The globals as their initialisers leave them when the program starts (lines 17-36). -/
def programStart : Game :=
  { board := fun _ => emptySquare
    enPassantIdx := -1
    enPassantColor := Color.NONE
    whiteKingMoved := false
    blackKingMoved := false
    whiteLeftRookMoved := false
    whiteRightRookMoved := false
    blackLeftRookMoved := false
    blackRightRookMoved := false
    legalMoves := [] }

/-- The session at the top of the event loop when it is first entered (lines 379-385); the
local `held` is default-constructed. -/
def initialSession : Session :=
  { game := initializeBoard programStart
    dragging := false
    held := emptySquare
    heldIdx := -1
    turn := Color.WHITE }

/-- Number of kings of colour `c` on the 64 squares. -/
def countKings (board : Board) (c : Color) : Nat :=
  (squares.filter (fun i => (board i).piece = Piece.KING ∧ (board i).color = c)).length

/-! ## Auxiliary definitions for the proofs -/

/-- The indices read by the loop of `pathClear` on a board without pieces, in the order of the
reads; `none` when the walk leaves the array or does not end. -/
def pathTraceLoop (toRow toCol rowStep colStep : Int) : Nat → Int → Int → Option (List Int)
  | 0, _, _ => none
  | fuel + 1, currentRow, currentCol =>
    if currentRow ≠ toRow ∨ currentCol ≠ toCol then
      if 0 ≤ getIdx currentRow currentCol ∧ getIdx currentRow currentCol < BOARD_SIZE then
        (pathTraceLoop toRow toCol rowStep colStep fuel
          (currentRow + rowStep) (currentCol + colStep)).map
          (fun l => getIdx currentRow currentCol :: l)
      else none
    else some []

/-- The squares `pathClear` looks at between two squares, when the walk ends inside the array. -/
def pathTrace (fromIdx toIdx : Int) : Option (List Int) :=
  let fromRow := getRow fromIdx
  let fromCol := getCol fromIdx
  let toRow := getRow toIdx
  let toCol := getCol toIdx
  let rowStep : Int := if toRow > fromRow then 1 else if toRow < fromRow then -1 else 0
  let colStep : Int := if toCol > fromCol then 1 else if toCol < fromCol then -1 else 0
  pathTraceLoop toRow toCol rowStep colStep 64 (fromRow + rowStep) (fromCol + colStep)

/-- Two squares on a common row, column or diagonal: the guards under which `isMoveLegal` and
`kingInCheck` call `pathClear`. -/
def aligned (a b : Int) : Prop :=
  getRow a = getRow b ∨ getCol a = getCol b ∨
    (getRow b - getRow a).natAbs = (getCol b - getCol a).natAbs

instance (a b : Int) : Decidable (aligned a b) := by unfold aligned; infer_instance

/-- The squares strictly between two aligned squares, as `pathClear` visits them. -/
def between (a b : Int) : List Int := (pathTrace a b).getD []

/-- The piece on square `i` is an enemy of the king of colour `c` and attacks square `k`
under the geometry of the `switch` of `kingInCheck`. -/
def Attacks (board : Board) (c : Color) (i k : Int) : Prop :=
  (board i).color ≠ Color.NONE ∧ (board i).color ≠ c ∧
    isAttack board (board i).piece (board i).color i k = some true

instance (board : Board) (c : Color) (i k : Int) : Decidable (Attacks board c i k) := by
  unfold Attacks; infer_instance

/-- Some piece on the 64 squares is an enemy of the king of colour `c` and attacks square
`k`. -/
def attacked (board : Board) (c : Color) (k : Int) : Prop :=
  ∃ i ∈ squares, Attacks board c i k

instance (board : Board) (c : Color) (k : Int) : Decidable (attacked board c k) := by
  unfold attacked; infer_instance

/-- The value `kingInCheck` computes: a king of colour `c` is found and its square is
attacked. -/
def inCheck (board : Board) (c : Color) : Bool :=
  decide (findKing board c ≠ -1 ∧ attacked board c (findKing board c))

/-- The board on which `wouldCauseCheck` asks `kingInCheck`: the occupant of `fromIdx` put on
`toIdx`, and `fromIdx` emptied. -/
def simBoard (board : Board) (fromIdx toIdx : Int) : Board :=
  setSq (setSq board toIdx (board fromIdx)) fromIdx emptySquare

/-- The board on which the castling loops ask `kingInCheck`: a king of colour `c` put on
`checkIdx`, and `fromIdx` emptied. -/
def kingAt (board : Board) (c : Color) (fromIdx checkIdx : Int) : Board :=
  setSq (setSq board checkIdx ⟨Piece.KING, c⟩) fromIdx emptySquare

/-- The result of `isMoveLegal`, `false` when it has none. -/
def isLegal (g : Game) (fromIdx toIdx : Int) : Bool :=
  match isMoveLegal g fromIdx toIdx with
  | some (r, _) => r
  | none => false

/-- The value of the condition `isMoveLegal(fromIdx, toIdx) && !wouldCauseCheck(fromIdx,
toIdx)`, `false` when it has none. -/
def isFullyLegal (g : Game) (fromIdx toIdx : Int) : Bool :=
  match fullyLegal g fromIdx toIdx with
  | some (r, _) => r
  | none => false

/-- The value of one castling branch of `isMoveLegal`: the rook flag is clear, the squares
between the king and the corner in column `rookCol` are empty, and on none of the squares in
the columns `cols` of the king's row is the king in check once it is put there. -/
def castleB (g : Game) (c : Color) (fromIdx : Int) (rookMoved : Bool) (rookCol : Int)
    (cols : List Int) : Bool :=
  !rookMoved &&
    ((between fromIdx (getIdx (getRow fromIdx) rookCol)).all
      (fun j => decide ((g.board j).piece = Piece.EMPTY)) &&
    cols.all (fun col => !inCheck (kingAt g.board c fromIdx (getIdx (getRow fromIdx) col)) c))

/-- The value of the king case of `isMoveLegal` for a king of colour `c` on `fromIdx`. -/
def kingLegalB (g : Game) (c : Color) (fromIdx toIdx : Int) : Bool :=
  let rowDiff := getRow toIdx - getRow fromIdx
  let colDiff := getCol toIdx - getCol fromIdx
  if rowDiff.natAbs ≤ 1 ∧ colDiff.natAbs ≤ 1 then !inCheck (simBoard g.board fromIdx toIdx) c
  else if (if c = Color.WHITE then g.whiteKingMoved else g.blackKingMoved) = false ∧
      rowDiff = 0 ∧ colDiff.natAbs = 2 then
    if colDiff > 0 then
      castleB g c fromIdx (if c = Color.WHITE then g.whiteRightRookMoved
        else g.blackRightRookMoved) 7
        [getCol fromIdx, getCol fromIdx + 1, getCol fromIdx + 2]
    else
      castleB g c fromIdx (if c = Color.WHITE then g.whiteLeftRookMoved
        else g.blackLeftRookMoved) 0
        [getCol fromIdx, getCol fromIdx - 1, getCol fromIdx - 2]
  else false

/-- The session between the press on `f` and the release. -/
def lifted (s : Session) (f : Int) : Session :=
  { s with
    game := { s.game with
      board := setSq s.game.board f emptySquare
      legalMoves := (squares.filter (fun t => isFullyLegal s.game f t)).map (fun t => ⟨f, t⟩) }
    dragging := true
    held := s.game.board f
    heldIdx := f }

/-- The move `(fromIdx, toIdx)` is in the list `computeLegalMoves(fromIdx, turn)` leaves in
`legalMoves`. -/
def returnsMove (g : Game) (turn : Color) (fromIdx toIdx : Int) : Prop :=
  (computeLegalMoves g fromIdx turn).map
    (fun g2 => decide ((⟨fromIdx, toIdx⟩ : Move) ∈ g2.legalMoves)) = some true

instance (g : Game) (turn : Color) (fromIdx toIdx : Int) :
    Decidable (returnsMove g turn fromIdx toIdx) := by
  unfold returnsMove; infer_instance

/-- The board that holds the listed squares and is empty elsewhere. -/
def boardOf (pieces : List (Int × Square)) : Board :=
  fun i =>
    match pieces.find? (fun p => decide (p.1 = i)) with
    | some p => p.2
    | none => emptySquare

/-- The globals with a given board and en-passant target, all six flags clear and no moves
listed. -/
def gameOf (board : Board) (enPassantIdx : Int) (enPassantColor : Color) : Game :=
  { board := board
    enPassantIdx := enPassantIdx
    enPassantColor := enPassantColor
    whiteKingMoved := false
    blackKingMoved := false
    whiteLeftRookMoved := false
    whiteRightRookMoved := false
    blackLeftRookMoved := false
    blackRightRookMoved := false
    legalMoves := [] }

/-- The session at the top of the event loop, nothing lifted, for given globals and side to
move. -/
def sessionOf (g : Game) (turn : Color) : Session :=
  { game := g
    dragging := false
    held := emptySquare
    heldIdx := -1
    turn := turn }

/-- A position with a White pawn on a7 (8): kings on e1 (60) and h8 (7). -/
def promotionBoard : Board :=
  boardOf [(8, ⟨Piece.PAWN, Color.WHITE⟩), (60, ⟨Piece.KING, Color.WHITE⟩),
    (7, ⟨Piece.KING, Color.BLACK⟩)]


/-- All moves `computeLegalMoves(from, turn)` returns, for `from = 0, 1, ..., 63` in turn. -/
def legalMovesOf (g : Game) (turn : Color) : Option (List Move) :=
  squares.foldl
    (fun acc fromIdx =>
      match acc, computeLegalMoves g fromIdx turn with
      | some l, some g2 => some (l ++ g2.legalMoves)
      | _, _ => none)
    (some [])

/-- A sequence of moves played through the event loop, each of which must be returned by
`computeLegalMoves` for the side to move. -/
def playLegal : Session → List (Int × Int) → Option Session
  | s, [] => some s
  | s, (fromIdx, toIdx) :: rest =>
    if returnsMove s.game s.turn fromIdx toIdx then
      match pressRelease s fromIdx toIdx with
      | none => none
      | some s2 => playLegal s2 rest
    else none

/-- White king a5 (24), White pawn e5 (28), Black pawn d5 (27), Black rook h5 (31), Black king
e8 (4). -/
def pinnedBoard : Board :=
  boardOf [(24, ⟨Piece.KING, Color.WHITE⟩), (28, ⟨Piece.PAWN, Color.WHITE⟩),
    (27, ⟨Piece.PAWN, Color.BLACK⟩), (31, ⟨Piece.ROOK, Color.BLACK⟩),
    (4, ⟨Piece.KING, Color.BLACK⟩)]

/-- The position of `pinnedBoard` right after the Black pawn advanced d7-d5: the en-passant
target is d6 (19). -/
def pinnedGame : Game := gameOf pinnedBoard 19 Color.BLACK

/-- White king e1 (60) and rook h1 (63), neither moved; Black rook e8 (4) on the open e-file,
Black king a8 (0). -/
def checkedBoard : Board :=
  boardOf [(60, ⟨Piece.KING, Color.WHITE⟩), (63, ⟨Piece.ROOK, Color.WHITE⟩),
    (4, ⟨Piece.ROOK, Color.BLACK⟩), (0, ⟨Piece.KING, Color.BLACK⟩)]

/-- The game 1. e4 a5 2. e5 Ra6 3. Ke2 Rb6 4. Kf3 Rb5 5. Kg4 Na6 6. Kh5 d5 7. exd6 (en
passant) Rxh5, as pairs of source and destination squares. -/
def kingCaptureLine : List (Int × Int) :=
  [(52, 36), (8, 24), (36, 28), (0, 16), (60, 52), (16, 17), (52, 45), (17, 25), (45, 38),
    (1, 16), (38, 31), (11, 27), (28, 19), (25, 31)]

/-- White king e1 (60) and rook h1 (63), Black king e8 (4). -/
def castleBoard : Board :=
  boardOf [(60, ⟨Piece.KING, Color.WHITE⟩), (63, ⟨Piece.ROOK, Color.WHITE⟩),
    (4, ⟨Piece.KING, Color.BLACK⟩)]

/-- White king e1 (60) and rook h1 (63), Black king e8 (4) and a Black rook on f8 (5) that
attacks f1 (61) down the open f-file. -/
def attackedBoard : Board :=
  boardOf [(60, ⟨Piece.KING, Color.WHITE⟩), (63, ⟨Piece.ROOK, Color.WHITE⟩),
    (4, ⟨Piece.KING, Color.BLACK⟩), (5, ⟨Piece.ROOK, Color.BLACK⟩)]

/-- The square a letter stands for: `P R N B Q K` are White's pawn, rook, knight, bishop,
queen and king, the small letters are Black's, anything else is an empty square. -/
def squareOfChar (ch : Char) : Square :=
  if ch = 'P' then ⟨Piece.PAWN, Color.WHITE⟩
  else if ch = 'R' then ⟨Piece.ROOK, Color.WHITE⟩
  else if ch = 'N' then ⟨Piece.KNIGHT, Color.WHITE⟩
  else if ch = 'B' then ⟨Piece.BISHOP, Color.WHITE⟩
  else if ch = 'Q' then ⟨Piece.QUEEN, Color.WHITE⟩
  else if ch = 'K' then ⟨Piece.KING, Color.WHITE⟩
  else if ch = 'p' then ⟨Piece.PAWN, Color.BLACK⟩
  else if ch = 'r' then ⟨Piece.ROOK, Color.BLACK⟩
  else if ch = 'n' then ⟨Piece.KNIGHT, Color.BLACK⟩
  else if ch = 'b' then ⟨Piece.BISHOP, Color.BLACK⟩
  else if ch = 'q' then ⟨Piece.QUEEN, Color.BLACK⟩
  else if ch = 'k' then ⟨Piece.KING, Color.BLACK⟩
  else emptySquare

/-- The board written as eight rows of eight letters, row 0 first. -/
def boardOfText (rows : List String) : Board :=
  fun i =>
    if 0 ≤ i ∧ i < 64 then
      squareOfChar (((rows.getD (i.toNat / 8) "").toList).getD (i.toNat % 8) '.')
    else emptySquare

/-- A position written out: the board as text, the en-passant target, the six moved flags
(White king, Black king, White left and right rook, Black left and right rook) and the side
to move. -/
structure Position where
  rows : List String
  enPassantIdx : Int
  enPassantColor : Color
  whiteKingMoved : Bool
  blackKingMoved : Bool
  whiteLeftRookMoved : Bool
  whiteRightRookMoved : Bool
  blackLeftRookMoved : Bool
  blackRightRookMoved : Bool
  turn : Color

/-- The session at the top of the event loop in a written-out position. -/
def positionSession (p : Position) : Session :=
  { game :=
      { board := boardOfText p.rows
        enPassantIdx := p.enPassantIdx
        enPassantColor := p.enPassantColor
        whiteKingMoved := p.whiteKingMoved
        blackKingMoved := p.blackKingMoved
        whiteLeftRookMoved := p.whiteLeftRookMoved
        whiteRightRookMoved := p.whiteRightRookMoved
        blackLeftRookMoved := p.blackLeftRookMoved
        blackRightRookMoved := p.blackRightRookMoved
        legalMoves := [] }
    dragging := false
    held := emptySquare
    heldIdx := -1
    turn := p.turn }

/-- The standard starting arrangement, White to move. -/
def startPosition : Position :=
  ⟨["rnbqkbnr", "pppppppp", "........", "........", "........", "........", "PPPPPPPP",
    "RNBQKBNR"], -1, Color.NONE, false, false, false, false, false, false, Color.WHITE⟩

/-- The positions after each of the fourteen moves of `kingCaptureLine`. -/
def kingCapturePositions : List Position :=
  [⟨["rnbqkbnr", "pppppppp", "........", "........", "....P...", "........", "PPPP.PPP",
      "RNBQKBNR"], 44, Color.WHITE, false, false, false, false, false, false, Color.BLACK⟩,
   ⟨["rnbqkbnr", ".ppppppp", "........", "p.......", "....P...", "........", "PPPP.PPP",
      "RNBQKBNR"], 16, Color.BLACK, false, false, false, false, false, false, Color.WHITE⟩,
   ⟨["rnbqkbnr", ".ppppppp", "........", "p...P...", "........", "........", "PPPP.PPP",
      "RNBQKBNR"], -1, Color.NONE, false, false, false, false, false, false, Color.BLACK⟩,
   ⟨[".nbqkbnr", ".ppppppp", "r.......", "p...P...", "........", "........", "PPPP.PPP",
      "RNBQKBNR"], -1, Color.NONE, false, false, false, false, true, false, Color.WHITE⟩,
   ⟨[".nbqkbnr", ".ppppppp", "r.......", "p...P...", "........", "........", "PPPPKPPP",
      "RNBQ.BNR"], -1, Color.NONE, true, false, false, false, true, false, Color.BLACK⟩,
   ⟨[".nbqkbnr", ".ppppppp", ".r......", "p...P...", "........", "........", "PPPPKPPP",
      "RNBQ.BNR"], -1, Color.NONE, true, false, false, false, true, false, Color.WHITE⟩,
   ⟨[".nbqkbnr", ".ppppppp", ".r......", "p...P...", "........", ".....K..", "PPPP.PPP",
      "RNBQ.BNR"], -1, Color.NONE, true, false, false, false, true, false, Color.BLACK⟩,
   ⟨[".nbqkbnr", ".ppppppp", "........", "pr..P...", "........", ".....K..", "PPPP.PPP",
      "RNBQ.BNR"], -1, Color.NONE, true, false, false, false, true, false, Color.WHITE⟩,
   ⟨[".nbqkbnr", ".ppppppp", "........", "pr..P...", "......K.", "........", "PPPP.PPP",
      "RNBQ.BNR"], -1, Color.NONE, true, false, false, false, true, false, Color.BLACK⟩,
   ⟨["..bqkbnr", ".ppppppp", "n.......", "pr..P...", "......K.", "........", "PPPP.PPP",
      "RNBQ.BNR"], -1, Color.NONE, true, false, false, false, true, false, Color.WHITE⟩,
   ⟨["..bqkbnr", ".ppppppp", "n.......", "pr..P..K", "........", "........", "PPPP.PPP",
      "RNBQ.BNR"], -1, Color.NONE, true, false, false, false, true, false, Color.BLACK⟩,
   ⟨["..bqkbnr", ".pp.pppp", "n.......", "pr.pP..K", "........", "........", "PPPP.PPP",
      "RNBQ.BNR"], 19, Color.BLACK, true, false, false, false, true, false, Color.WHITE⟩,
   ⟨["..bqkbnr", ".pp.pppp", "n..P....", "pr.....K", "........", "........", "PPPP.PPP",
      "RNBQ.BNR"], -1, Color.NONE, true, false, false, false, true, false, Color.BLACK⟩,
   ⟨["..bqkbnr", ".pp.pppp", "n..P....", "p......r", "........", "........", "PPPP.PPP",
      "RNBQ.BNR"], -1, Color.NONE, true, false, false, false, true, false, Color.WHITE⟩]

/-- A board that is empty at every index outside the array. -/
def tidy (board : Board) : Prop :=
  ∀ j, ¬ (0 ≤ j ∧ j < 64) → board j = emptySquare

/-- Two sessions with the same board, en-passant target, moved flags and side to move. -/
def sameCore (s s2 : Session) : Prop :=
  s.game.board = s2.game.board ∧
  s.game.enPassantIdx = s2.game.enPassantIdx ∧
  s.game.enPassantColor = s2.game.enPassantColor ∧
  s.game.whiteKingMoved = s2.game.whiteKingMoved ∧
  s.game.blackKingMoved = s2.game.blackKingMoved ∧
  s.game.whiteLeftRookMoved = s2.game.whiteLeftRookMoved ∧
  s.game.whiteRightRookMoved = s2.game.whiteRightRookMoved ∧
  s.game.blackLeftRookMoved = s2.game.blackLeftRookMoved ∧
  s.game.blackRightRookMoved = s2.game.blackRightRookMoved ∧
  s.turn = s2.turn

/-- The test that two sessions have the same 64 squares, en-passant target, moved flags and
side to move. -/
def coreEqB (s s2 : Session) : Bool :=
  squares.all (fun i => decide (s.game.board i = s2.game.board i)) &&
  decide (s.game.enPassantIdx = s2.game.enPassantIdx ∧
    s.game.enPassantColor = s2.game.enPassantColor ∧
    s.game.whiteKingMoved = s2.game.whiteKingMoved ∧
    s.game.blackKingMoved = s2.game.blackKingMoved ∧
    s.game.whiteLeftRookMoved = s2.game.whiteLeftRookMoved ∧
    s.game.whiteRightRookMoved = s2.game.whiteRightRookMoved ∧
    s.game.blackLeftRookMoved = s2.game.blackLeftRookMoved ∧
    s.game.blackRightRookMoved = s2.game.blackRightRookMoved ∧
    s.turn = s2.turn)

/-- The test that the move `(fromIdx, toIdx)` is fully legal for the side to move in session
`c` and that the writes of the move application lead from `c` to the core of `c2`. -/
def stepCheck (c : Session) (fromIdx toIdx : Int) (c2 : Session) : Bool :=
  decide (0 ≤ fromIdx ∧ fromIdx < 64 ∧ 0 ≤ toIdx ∧ toIdx < 64 ∧
    (c.game.board fromIdx).color = c.turn) &&
  (isFullyLegal c.game fromIdx toIdx &&
    match applyMutations (lifted c fromIdx) (getRow toIdx) (getCol toIdx) with
    | some s2 => coreEqB s2 c2
    | none => false)

/-- The test `stepCheck` along a sequence of moves and the positions they lead to. -/
def checkLine : Session → List (Int × Int) → List Position → Bool
  | _, [], [] => true
  | c, (fromIdx, toIdx) :: moves, p :: positions =>
    stepCheck c fromIdx toIdx (positionSession p) &&
      checkLine (positionSession p) moves positions
  | _, _, _ => false

/-- The session a checked line ends in. -/
def lineEnd (c : Session) (positions : List Position) : Session :=
  match positions.getLast? with
  | some p => positionSession p
  | none => c

/-- The board after successive calls `wouldCauseCheck(from, to)`, each made on the board the
call before it left. -/
def wouldCauseCheckCalls : Board → List (Int × Int) → Option Board
  | board, [] => some board
  | board, (fromIdx, toIdx) :: rest =>
    match wouldCauseCheck board fromIdx toIdx with
    | none => none
    | some (_, board2) => wouldCauseCheckCalls board2 rest

/-- The standard arrangement in the words of the specification, for a square `i` of `0..63`
in row `i / 8` and column `i % 8`: the back rank Rook, Knight, Bishop, Queen, King, Bishop,
Knight, Rook in columns `0..7`, in Black on row 0 and in White on row 7; Black pawns on row 1
and White pawns on row 6; rows 2 to 5 empty. -/
def standardSquare (i : Int) : Square :=
  let backRank : List Piece :=
    [Piece.ROOK, Piece.KNIGHT, Piece.BISHOP, Piece.QUEEN, Piece.KING, Piece.BISHOP,
      Piece.KNIGHT, Piece.ROOK]
  if i / 8 = 0 then ⟨backRank.getD (i % 8).toNat Piece.EMPTY, Color.BLACK⟩
  else if i / 8 = 1 then ⟨Piece.PAWN, Color.BLACK⟩
  else if i / 8 = 6 then ⟨Piece.PAWN, Color.WHITE⟩
  else if i / 8 = 7 then ⟨backRank.getD (i % 8).toNat Piece.EMPTY, Color.WHITE⟩
  else ⟨Piece.EMPTY, Color.NONE⟩

/-- The game 1. g4 b6 2. Bg2 Bb7 3. Nh3 Bxg2 4. a3 Bxh1, in which a Black bishop takes the
White rook on its home square h1 (63), followed by the White king move e1-g1 (60 to 62), as
pairs of source and destination squares. -/
def rookCaptureLine : List (Int × Int) :=
  [(54, 38), (9, 17), (61, 54), (2, 9), (62, 47), (9, 54), (48, 40), (54, 63), (60, 62)]

/-- The positions after each of the nine moves of `rookCaptureLine`. -/
def rookCapturePositions : List Position :=
  [⟨["rnbqkbnr", "pppppppp", "........", "........", "......P.", "........", "PPPPPP.P",
      "RNBQKBNR"], 46, Color.WHITE, false, false, false, false, false, false, Color.BLACK⟩,
   ⟨["rnbqkbnr", "p.pppppp", ".p......", "........", "......P.", "........", "PPPPPP.P",
      "RNBQKBNR"], -1, Color.NONE, false, false, false, false, false, false, Color.WHITE⟩,
   ⟨["rnbqkbnr", "p.pppppp", ".p......", "........", "......P.", "........", "PPPPPPBP",
      "RNBQK.NR"], -1, Color.NONE, false, false, false, false, false, false, Color.BLACK⟩,
   ⟨["rn.qkbnr", "pbpppppp", ".p......", "........", "......P.", "........", "PPPPPPBP",
      "RNBQK.NR"], -1, Color.NONE, false, false, false, false, false, false, Color.WHITE⟩,
   ⟨["rn.qkbnr", "pbpppppp", ".p......", "........", "......P.", ".......N", "PPPPPPBP",
      "RNBQK..R"], -1, Color.NONE, false, false, false, false, false, false, Color.BLACK⟩,
   ⟨["rn.qkbnr", "p.pppppp", ".p......", "........", "......P.", ".......N", "PPPPPPbP",
      "RNBQK..R"], -1, Color.NONE, false, false, false, false, false, false, Color.WHITE⟩,
   ⟨["rn.qkbnr", "p.pppppp", ".p......", "........", "......P.", "P......N", ".PPPPPbP",
      "RNBQK..R"], -1, Color.NONE, false, false, false, false, false, false, Color.BLACK⟩,
   ⟨["rn.qkbnr", "p.pppppp", ".p......", "........", "......P.", "P......N", ".PPPPP.P",
      "RNBQK..b"], -1, Color.NONE, false, false, false, false, false, false, Color.WHITE⟩,
   ⟨["rn.qkbnr", "p.pppppp", ".p......", "........", "......P.", "P......N", ".PPPPP.P",
      "RNBQ.bK."], -1, Color.NONE, true, false, false, true, false, false, Color.BLACK⟩]

/-- The game 1. h4 a6 2. Rh3 a5 3. Ra3 b6 4. Rb3, in which the White rook of h1 reaches a3
(40) and moves on from there while the rook on a1 (56) stays at home, as pairs of source and
destination squares. -/
def rookLiftLine : List (Int × Int) :=
  [(55, 39), (8, 16), (63, 47), (16, 24), (47, 40), (9, 17), (40, 41)]

/-- The positions after each of the seven moves of `rookLiftLine`. -/
def rookLiftPositions : List Position :=
  [⟨["rnbqkbnr", "pppppppp", "........", "........", ".......P", "........", "PPPPPPP.",
      "RNBQKBNR"], 47, Color.WHITE, false, false, false, false, false, false, Color.BLACK⟩,
   ⟨["rnbqkbnr", ".ppppppp", "p.......", "........", ".......P", "........", "PPPPPPP.",
      "RNBQKBNR"], -1, Color.NONE, false, false, false, false, false, false, Color.WHITE⟩,
   ⟨["rnbqkbnr", ".ppppppp", "p.......", "........", ".......P", ".......R", "PPPPPPP.",
      "RNBQKBN."], -1, Color.NONE, false, false, false, true, false, false, Color.BLACK⟩,
   ⟨["rnbqkbnr", ".ppppppp", "........", "p.......", ".......P", ".......R", "PPPPPPP.",
      "RNBQKBN."], -1, Color.NONE, false, false, false, true, false, false, Color.WHITE⟩,
   ⟨["rnbqkbnr", ".ppppppp", "........", "p.......", ".......P", "R.......", "PPPPPPP.",
      "RNBQKBN."], -1, Color.NONE, false, false, false, true, false, false, Color.BLACK⟩,
   ⟨["rnbqkbnr", "..pppppp", ".p......", "p.......", ".......P", "R.......", "PPPPPPP.",
      "RNBQKBN."], -1, Color.NONE, false, false, false, true, false, false, Color.WHITE⟩,
   ⟨["rnbqkbnr", "..pppppp", ".p......", "p.......", ".......P", ".R......", "PPPPPPP.",
      "RNBQKBN."], -1, Color.NONE, false, false, true, true, false, false, Color.BLACK⟩]

/-- The step `pathClear` takes along one coordinate, from `x` towards `y` (lines 103-110). -/
def stepTo (x y : Int) : Int := if y > x then 1 else if y < x then -1 else 0

/-- The square `j` lies strictly between the squares `a` and `b` on the row, the column or the
diagonal that `a` and `b` share, in the words of the specification: in their row with its
column strictly between theirs, or in their column, or on their diagonal (one value of row
minus column, or one value of row plus column), with its row strictly between theirs. -/
def strictlyBetween (a j b : Int) : Prop :=
  (0 ≤ j ∧ j < 64) ∧
  ((getRow a = getRow b ∧ getRow j = getRow a ∧
      ((getCol a < getCol j ∧ getCol j < getCol b) ∨
        (getCol b < getCol j ∧ getCol j < getCol a))) ∨
    (getCol a = getCol b ∧ getCol j = getCol a ∧
      ((getRow a < getRow j ∧ getRow j < getRow b) ∨
        (getRow b < getRow j ∧ getRow j < getRow a))) ∨
    (getRow a - getCol a = getRow b - getCol b ∧ getRow j - getCol j = getRow a - getCol a ∧
      ((getRow a < getRow j ∧ getRow j < getRow b) ∨
        (getRow b < getRow j ∧ getRow j < getRow a))) ∨
    (getRow a + getCol a = getRow b + getCol b ∧ getRow j + getCol j = getRow a + getCol a ∧
      ((getRow a < getRow j ∧ getRow j < getRow b) ∨
        (getRow b < getRow j ∧ getRow j < getRow a))))

instance (a j b : Int) : Decidable (strictlyBetween a j b) := by
  unfold strictlyBetween; infer_instance

/-- The colour of the other side. -/
def opposite : Color → Color
  | Color.WHITE => Color.BLACK
  | Color.BLACK => Color.WHITE
  | Color.NONE => Color.NONE

/-- Every square strictly between `a` and `b` on their common line has piece `EMPTY`. -/
def clearBetween (board : Board) (a b : Int) : Prop :=
  ∀ j ∈ squares, strictlyBetween a j b → (board j).piece = Piece.EMPTY

instance (board : Board) (a b : Int) : Decidable (clearBetween board a b) := by
  unfold clearBetween; infer_instance

/-- The piece on square `i` attacks square `k` by raw geometry, in the words of the
specification, with `drow` and `dcol` the row and the column of `k` minus those of `i`: a
pawn one row forward (`drow = -1` for a White pawn, `drow = 1` for a Black pawn) and one
column to either side; a knight at an offset of one and two; a king at most one row and one
column away; a rook on the same row or column, a bishop on a diagonal, a queen on either,
with the squares strictly between empty. -/
def attacksSquare (board : Board) (i k : Int) : Prop :=
  let drow := getRow k - getRow i
  let dcol := getCol k - getCol i
  match (board i).piece with
  | Piece.PAWN =>
    (((board i).color = Color.WHITE ∧ drow = -1) ∨ ((board i).color = Color.BLACK ∧ drow = 1)) ∧
      dcol.natAbs = 1
  | Piece.KNIGHT => (drow.natAbs = 1 ∧ dcol.natAbs = 2) ∨ (drow.natAbs = 2 ∧ dcol.natAbs = 1)
  | Piece.KING => drow.natAbs ≤ 1 ∧ dcol.natAbs ≤ 1
  | Piece.ROOK => (drow = 0 ∨ dcol = 0) ∧ clearBetween board i k
  | Piece.BISHOP => drow.natAbs = dcol.natAbs ∧ clearBetween board i k
  | Piece.QUEEN => (drow = 0 ∨ dcol = 0 ∨ drow.natAbs = dcol.natAbs) ∧ clearBetween board i k
  | Piece.EMPTY => False

instance (board : Board) (i k : Int) : Decidable (attacksSquare board i k) := by
  unfold attacksSquare
  simp only
  split <;> infer_instance

/-- The function `pathClear` with room for `fuel` tests of the loop condition, that is for
`fuel - 1` runs of the loop body. -/
def pathClearFuel (fuel : Nat) (board : Board) (fromIdx toIdx : Int) : Option Bool :=
  let fromRow := getRow fromIdx
  let fromCol := getCol fromIdx
  let toRow := getRow toIdx
  let toCol := getCol toIdx
  let rowStep : Int := if toRow > fromRow then 1 else if toRow < fromRow then -1 else 0
  let colStep : Int := if toCol > fromCol then 1 else if toCol < fromCol then -1 else 0
  pathClearLoop board toRow toCol rowStep colStep fuel (fromRow + rowStep) (fromCol + colStep)

/-- The function `pathClear` under watch: it has a result only when both squares are in
`0..63` and lie on a common row, column or diagonal, when the loop reaches its target within
six runs of its body, and when every index the loop reads is in `0..63`. -/
def pathClearChecked (board : Board) (fromIdx toIdx : Int) : Option Bool :=
  if 0 ≤ fromIdx ∧ fromIdx < 64 ∧ 0 ≤ toIdx ∧ toIdx < 64 ∧ aligned fromIdx toIdx then
    pathClearFuel 7 board fromIdx toIdx
  else none

/-- The `switch` of `kingInCheck` (`isAttack`), with `pc` called in the place of
`pathClear`. -/
def isAttackWith (pc : Board → Int → Int → Option Bool) (board : Board) (p : Piece)
    (attackerColor : Color) (i kingIdx : Int) : Option Bool :=
  let kingRow := getRow kingIdx
  let kingCol := getCol kingIdx
  let fromRow := getRow i
  let fromCol := getCol i
  let rowDiff := kingRow - fromRow
  let colDiff := kingCol - fromCol
  match p with
  | Piece.PAWN =>
    let dir : Int := if attackerColor = Color.WHITE then -1 else 1
    some (decide (colDiff.natAbs = 1 ∧ rowDiff = dir))
  | Piece.ROOK =>
    if fromRow = kingRow ∨ fromCol = kingCol then pc board i kingIdx else some false
  | Piece.KNIGHT =>
    some (decide ((rowDiff.natAbs = 2 ∧ colDiff.natAbs = 1) ∨
      (rowDiff.natAbs = 1 ∧ colDiff.natAbs = 2)))
  | Piece.BISHOP =>
    if rowDiff.natAbs = colDiff.natAbs then pc board i kingIdx else some false
  | Piece.QUEEN =>
    match (if fromRow = kingRow ∨ fromCol = kingCol then pc board i kingIdx
           else some false) with
    | none => none
    | some true => some true
    | some false =>
      if rowDiff.natAbs = colDiff.natAbs then pc board i kingIdx else some false
  | Piece.KING => some (decide (rowDiff.natAbs ≤ 1 ∧ colDiff.natAbs ≤ 1))
  | Piece.EMPTY => some false

/-- The second loop of `kingInCheck` (`attackLoop`), with `pc` called in the place of
`pathClear`. -/
def attackLoopWith (pc : Board → Int → Int → Option Bool) (board : Board) (c : Color)
    (kingIdx : Int) : List Int → Option Bool
  | [] => some false
  | i :: rest =>
    if (board i).color ≠ Color.NONE ∧ (board i).color ≠ c then
      match isAttackWith pc board (board i).piece (board i).color i kingIdx with
      | none => none
      | some true => some true
      | some false => attackLoopWith pc board c kingIdx rest
    else attackLoopWith pc board c kingIdx rest

/-- The function `kingInCheck`, with `pc` called in the place of `pathClear`. -/
def kingInCheckWith (pc : Board → Int → Int → Option Bool) (board : Board) (c : Color) :
    Option Bool :=
  let kingIdx := findKing board c
  if kingIdx = -1 then some false
  else attackLoopWith pc board c kingIdx squares

/-- The function `wouldCauseCheck`, with `pc` called in the place of `pathClear`. -/
def wouldCauseCheckWith (pc : Board → Int → Int → Option Bool) (board : Board)
    (fromIdx toIdx : Int) : Option (Bool × Board) :=
  match readSq board fromIdx, readSq board toIdx with
  | some fromSquare, some toSquare =>
    let b1 := setSq board toIdx fromSquare
    let b2 := setSq b1 fromIdx emptySquare
    match kingInCheckWith pc b2 fromSquare.color with
    | none => none
    | some check =>
      let b3 := setSq b2 fromIdx fromSquare
      let b4 := setSq b3 toIdx toSquare
      some (check, b4)
  | _, _ => none

/-- The safety loops of the castling branch (`castleLoop`), with `pc` called in the place of
`pathClear`. -/
def castleLoopWith (pc : Board → Int → Int → Option Bool) (c : Color) (fromIdx fromRow : Int) :
    List Int → Board → Option (Bool × Board)
  | [], board => some (true, board)
  | col :: rest, board =>
    let checkIdx := getIdx fromRow col
    match readSq board checkIdx with
    | none => none
    | some temp =>
      let b1 := setSq board checkIdx ⟨Piece.KING, c⟩
      let b2 := setSq b1 fromIdx emptySquare
      match kingInCheckWith pc b2 c with
      | none => none
      | some true => some (false, setSq (setSq b2 checkIdx temp) fromIdx ⟨Piece.KING, c⟩)
      | some false => castleLoopWith pc c fromIdx fromRow rest (setSq b2 checkIdx temp)

/-- The king case of `isMoveLegal` (`kingLegal`), with `pc` called in the place of
`pathClear`. -/
def kingLegalWith (pc : Board → Int → Int → Option Bool) (g : Game) (c : Color)
    (fromIdx toIdx fromRow fromCol rowDiff colDiff : Int) : Option (Bool × Board) :=
  if rowDiff.natAbs ≤ 1 ∧ colDiff.natAbs ≤ 1 then
    match wouldCauseCheckWith pc g.board fromIdx toIdx with
    | none => none
    | some (check, board) => some (!check, board)
  else
    let kingHasMoved := if c = Color.WHITE then g.whiteKingMoved else g.blackKingMoved
    let leftRookMoved := if c = Color.WHITE then g.whiteLeftRookMoved else g.blackLeftRookMoved
    let rightRookMoved :=
      if c = Color.WHITE then g.whiteRightRookMoved else g.blackRightRookMoved
    if kingHasMoved = false ∧ rowDiff = 0 ∧ colDiff.natAbs = 2 then
      if colDiff > 0 then
        if rightRookMoved = true then some (false, g.board)
        else
          match pc g.board fromIdx (getIdx fromRow 7) with
          | none => none
          | some false => some (false, g.board)
          | some true =>
            match castleLoopWith pc c fromIdx fromRow [fromCol, fromCol + 1, fromCol + 2]
                g.board with
            | none => none
            | some (false, board) => some (false, board)
            | some (true, board) => some (true, setSq board fromIdx ⟨Piece.KING, c⟩)
      else
        if leftRookMoved = true then some (false, g.board)
        else
          match pc g.board fromIdx (getIdx fromRow 0) with
          | none => none
          | some false => some (false, g.board)
          | some true =>
            match castleLoopWith pc c fromIdx fromRow [fromCol, fromCol - 1, fromCol - 2]
                g.board with
            | none => none
            | some (false, board) => some (false, board)
            | some (true, board) => some (true, setSq board fromIdx ⟨Piece.KING, c⟩)
    else some (false, g.board)

/-- The function `isMoveLegal`, with `pc` called in the place of `pathClear`. -/
def isMoveLegalWith (pc : Board → Int → Int → Option Bool) (g : Game) (fromIdx toIdx : Int) :
    Option (Bool × Board) :=
  if fromIdx < 0 ∨ fromIdx ≥ BOARD_SIZE ∨ toIdx < 0 ∨ toIdx ≥ BOARD_SIZE then
    some (false, g.board)
  else
    match readSq g.board fromIdx, readSq g.board toIdx with
    | some fromSquare, some toSquare =>
      if fromSquare.piece = Piece.EMPTY ∨ fromSquare.color = Color.NONE then some (false, g.board)
      else if toSquare.color = fromSquare.color then some (false, g.board)
      else
        let fromRow := getRow fromIdx
        let fromCol := getCol fromIdx
        let toRow := getRow toIdx
        let toCol := getCol toIdx
        let rowDiff := toRow - fromRow
        let colDiff := toCol - fromCol
        let c := fromSquare.color
        match fromSquare.piece with
        | Piece.PAWN =>
          (pawnLegal g c toSquare fromRow fromCol rowDiff colDiff toIdx).map
            (fun r => (r, g.board))
        | Piece.ROOK =>
          if fromRow = toRow ∨ fromCol = toCol then
            (pc g.board fromIdx toIdx).map (fun r => (r, g.board))
          else some (false, g.board)
        | Piece.KNIGHT =>
          some (decide ((rowDiff.natAbs = 2 ∧ colDiff.natAbs = 1) ∨
            (rowDiff.natAbs = 1 ∧ colDiff.natAbs = 2)), g.board)
        | Piece.BISHOP =>
          if rowDiff.natAbs = colDiff.natAbs then
            (pc g.board fromIdx toIdx).map (fun r => (r, g.board))
          else some (false, g.board)
        | Piece.QUEEN =>
          if (fromRow = toRow ∨ fromCol = toCol) ∨ rowDiff.natAbs = colDiff.natAbs then
            (pc g.board fromIdx toIdx).map (fun r => (r, g.board))
          else some (false, g.board)
        | Piece.KING => kingLegalWith pc g c fromIdx toIdx fromRow fromCol rowDiff colDiff
        | Piece.EMPTY => some (false, g.board)
    | _, _ => none

/-- A position with a Black pawn on d7 (11) and a White pawn on e5 (28), kings on e8 (4) and
e1 (60), Black to move. -/
def enPassantStart : Position :=
  ⟨["....k...", "...p....", "........", "....P...", "........", "........", "........",
    "....K..."], -1, Color.NONE, false, false, false, false, false, false, Color.BLACK⟩

/-- The session after the double step d7-d5 (11 to 27) is played in `enPassantStart`. -/
def enPassantAfter : Session :=
  (pressRelease (positionSession enPassantStart) 11 27).getD (positionSession enPassantStart)

/-- A position with a White rook on e4 (36) on the open e-file, the kings on their home
squares e1 (60) and e8 (4), no flag set, White to move. -/
def openFilePosition : Position :=
  ⟨["....k...", "........", "........", "........", "....R...", "........", "........",
    "....K..."], -1, Color.NONE, false, false, false, false, false, false, Color.WHITE⟩

/-! ## Theorems

### The walk of pathClear -/

/-- For all 64 x 64 pairs of aligned squares the walk of `pathClear` ends inside the array, and
it reads neither of its two end squares. -/
theorem pathTrace_aligned_fin : ∀ a b : Fin 64, aligned (Int.ofNat a.val) (Int.ofNat b.val) →
    (pathTrace (Int.ofNat a.val) (Int.ofNat b.val)).isSome = true ∧
    ∀ j ∈ between (Int.ofNat a.val) (Int.ofNat b.val),
      0 ≤ j ∧ j < 64 ∧ j ≠ Int.ofNat a.val ∧ j ≠ Int.ofNat b.val := by
  decide!

theorem mem_squares (i : Int) : i ∈ squares ↔ 0 ≤ i ∧ i < 64 := by
  unfold squares
  simp only [List.mem_map, List.mem_range]
  constructor
  · rintro ⟨n, hn, rfl⟩
    simp only [Int.ofNat_eq_coe]; omega
  · rintro ⟨h0, h1⟩
    exact ⟨i.toNat, by omega, by simp only [Int.ofNat_eq_coe]; omega⟩

theorem forall_square {P : Int → Prop} (h : ∀ a : Fin 64, P (Int.ofNat a.val)) {i : Int}
    (h0 : 0 ≤ i) (h1 : i < 64) : P i := by
  have h2 := h ⟨i.toNat, by omega⟩
  have h3 : Int.ofNat i.toNat = i := by simp only [Int.ofNat_eq_coe]; omega
  simpa only [h3] using h2

theorem forall_square2 {P : Int → Int → Prop}
    (h : ∀ a b : Fin 64, P (Int.ofNat a.val) (Int.ofNat b.val)) {i k : Int}
    (h0 : 0 ≤ i) (h1 : i < 64) (h2 : 0 ≤ k) (h3 : k < 64) : P i k :=
  forall_square (P := fun x => P x k)
    (fun a => forall_square (P := fun y => P (Int.ofNat a.val) y) (h a) h2 h3) h0 h1

theorem pathClearLoop_of_trace (board : Board) (toRow toCol rowStep colStep : Int) :
    ∀ (fuel : Nat) (currentRow currentCol : Int) (l : List Int),
      pathTraceLoop toRow toCol rowStep colStep fuel currentRow currentCol = some l →
      pathClearLoop board toRow toCol rowStep colStep fuel currentRow currentCol =
        some (l.all (fun j => decide ((board j).piece = Piece.EMPTY))) := by
  intro fuel
  induction fuel with
  | zero => intro cr cc l h; simp [pathTraceLoop] at h
  | succ n ih =>
    intro cr cc l h
    unfold pathTraceLoop at h
    unfold pathClearLoop
    by_cases hc : cr ≠ toRow ∨ cc ≠ toCol
    · rw [if_pos hc] at h
      rw [if_pos hc]
      by_cases hr : 0 ≤ getIdx cr cc ∧ getIdx cr cc < BOARD_SIZE
      · rw [if_pos hr] at h
        simp only [readSq, if_pos hr]
        cases ht : pathTraceLoop toRow toCol rowStep colStep n (cr + rowStep) (cc + colStep) with
        | none => simp [ht] at h
        | some l2 =>
          simp only [ht, Option.map_some', Option.some.injEq] at h
          subst h
          by_cases he : (board (getIdx cr cc)).piece = Piece.EMPTY
          · simp [he, ih _ _ _ ht]
          · simp [he]
      · rw [if_neg hr] at h; simp at h
    · rw [if_neg hc] at h
      rw [if_neg hc]
      simp only [Option.some.injEq] at h
      subst h; simp

theorem pathClear_aligned (board : Board) {a b : Int} (ha0 : 0 ≤ a) (ha1 : a < 64)
    (hb0 : 0 ≤ b) (hb1 : b < 64) (al : aligned a b) :
    pathClear board a b =
      some ((between a b).all (fun j => decide ((board j).piece = Piece.EMPTY))) := by
  have h := (forall_square2 (P := fun a b => aligned a b →
    (pathTrace a b).isSome = true ∧
    ∀ j ∈ between a b, 0 ≤ j ∧ j < 64 ∧ j ≠ a ∧ j ≠ b) pathTrace_aligned_fin ha0 ha1 hb0 hb1 al).1
  obtain ⟨l, hl⟩ := Option.isSome_iff_exists.mp h
  have h2 : between a b = l := by simp [between, hl]
  rw [h2]
  unfold pathTrace at hl
  unfold pathClear
  exact pathClearLoop_of_trace board _ _ _ _ _ _ _ l hl

theorem between_spec {a b : Int} (ha0 : 0 ≤ a) (ha1 : a < 64)
    (hb0 : 0 ≤ b) (hb1 : b < 64) (al : aligned a b) :
    ∀ j ∈ between a b, 0 ≤ j ∧ j < 64 ∧ j ≠ a ∧ j ≠ b :=
  (forall_square2 (P := fun a b => aligned a b →
    (pathTrace a b).isSome = true ∧
    ∀ j ∈ between a b, 0 ≤ j ∧ j < 64 ∧ j ≠ a ∧ j ≠ b) pathTrace_aligned_fin ha0 ha1 hb0 hb1 al).2

/-! ### kingInCheck -/

theorem getRow_eq {i : Int} (h : 0 ≤ i) : getRow i = i / 8 :=
  Int.tdiv_eq_ediv h (by decide)

theorem getCol_eq {i : Int} (h : 0 ≤ i) : getCol i = i % 8 := by
  unfold getCol
  exact Int.tmod_eq_emod h (by decide)

theorem isAttack_isSome (board : Board) (p : Piece) (col : Color) {i k : Int}
    (hi0 : 0 ≤ i) (hi1 : i < 64) (hk0 : 0 ≤ k) (hk1 : k < 64) :
    ∃ r, isAttack board p col i k = some r := by
  have hrow : getRow i = getRow k → ∃ r, pathClear board i k = some r := fun h =>
    ⟨_, pathClear_aligned board hi0 hi1 hk0 hk1 (Or.inl h)⟩
  have hcol : getCol i = getCol k → ∃ r, pathClear board i k = some r := fun h =>
    ⟨_, pathClear_aligned board hi0 hi1 hk0 hk1 (Or.inr (Or.inl h))⟩
  have hdia : (getRow k - getRow i).natAbs = (getCol k - getCol i).natAbs →
      ∃ r, pathClear board i k = some r := fun h =>
    ⟨_, pathClear_aligned board hi0 hi1 hk0 hk1 (Or.inr (Or.inr h))⟩
  unfold isAttack
  cases p with
  | EMPTY => exact ⟨_, rfl⟩
  | PAWN => exact ⟨_, rfl⟩
  | KNIGHT => exact ⟨_, rfl⟩
  | KING => exact ⟨_, rfl⟩
  | ROOK =>
    simp only
    split
    · rename_i h
      rcases h with h | h
      · exact hrow h
      · exact hcol h
    · exact ⟨_, rfl⟩
  | BISHOP =>
    simp only
    split
    · rename_i h; exact hdia h
    · exact ⟨_, rfl⟩
  | QUEEN =>
    simp only
    by_cases h1 : getRow i = getRow k ∨ getCol i = getCol k
    · rw [if_pos h1]
      have ⟨r, hr⟩ : ∃ r, pathClear board i k = some r := h1.elim hrow hcol
      rw [hr]
      cases r with
      | true => exact ⟨_, rfl⟩
      | false =>
        simp only
        split
        · exact ⟨_, rfl⟩
        · exact ⟨_, rfl⟩
    · rw [if_neg h1]
      simp only
      split
      · rename_i h; exact hdia h
      · exact ⟨_, rfl⟩

theorem attackLoop_eq (board : Board) (c : Color) {k : Int} (hk0 : 0 ≤ k) (hk1 : k < 64) :
    ∀ l : List Int, (∀ i ∈ l, 0 ≤ i ∧ i < 64) →
      attackLoop board c k l = some (decide (∃ i ∈ l, Attacks board c i k)) := by
  intro l
  induction l with
  | nil => intro _; simp [attackLoop]
  | cons i rest ih =>
    intro hl
    have hi := hl i (List.mem_cons_self _ _)
    have ih2 := ih (fun j hj => hl j (List.mem_cons_of_mem _ hj))
    unfold attackLoop
    by_cases he : (board i).color ≠ Color.NONE ∧ (board i).color ≠ c
    · rw [if_pos he]
      obtain ⟨r, hr⟩ := isAttack_isSome board (board i).piece (board i).color hi.1 hi.2 hk0 hk1
      rw [hr]
      cases r with
      | true =>
        have : Attacks board c i k := ⟨he.1, he.2, hr⟩
        simp [this]
      | false =>
        have : ¬ Attacks board c i k := fun h => by
          have := h.2.2; rw [hr] at this; cases this
        simp [this, ih2]
    · rw [if_neg he]
      have : ¬ Attacks board c i k := fun h => he ⟨h.1, h.2.1⟩
      simp [this, ih2]

theorem findKing_spec (board : Board) (c : Color) :
    (findKing board c = -1 ∧
      ∀ i, 0 ≤ i → i < 64 → ¬ ((board i).piece = Piece.KING ∧ (board i).color = c)) ∨
    (0 ≤ findKing board c ∧ findKing board c < 64 ∧
      (board (findKing board c)).piece = Piece.KING ∧ (board (findKing board c)).color = c) := by
  unfold findKing
  cases h : squares.find? (fun i => (board i).piece = Piece.KING ∧ (board i).color = c) with
  | none =>
    left
    refine ⟨rfl, fun i h0 h1 => ?_⟩
    have := List.find?_eq_none.mp h i ((mem_squares i).mpr ⟨h0, h1⟩)
    simpa using this
  | some x =>
    right
    have hm := (mem_squares x).mp (List.mem_of_find?_eq_some h)
    have hp := List.find?_some h
    simp only [decide_eq_true_eq] at hp
    exact ⟨hm.1, hm.2, hp.1, hp.2⟩

theorem kingInCheck_eq (board : Board) (c : Color) :
    kingInCheck board c =
      some (decide (findKing board c ≠ -1 ∧ attacked board c (findKing board c))) := by
  unfold kingInCheck
  rcases findKing_spec board c with ⟨h, _⟩ | ⟨h0, h1, _⟩
  · simp [h]
  · have hne : findKing board c ≠ -1 := by omega
    simp only [if_neg hne]
    rw [attackLoop_eq board c h0 h1 squares (fun i hi => (mem_squares i).mp hi)]
    simp [hne, attacked]

theorem kingInCheck_isSome (board : Board) (c : Color) : ∃ r, kingInCheck board c = some r :=
  ⟨_, kingInCheck_eq board c⟩

/-! ### Frame of wouldCauseCheck and isMoveLegal -/

theorem kingInCheck_inCheck (board : Board) (c : Color) :
    kingInCheck board c = some (inCheck board c) :=
  kingInCheck_eq board c

theorem setSq_same (board : Board) (i : Int) (sq : Square) : setSq board i sq i = sq := by
  simp [setSq]

theorem setSq_other (board : Board) {i j : Int} (sq : Square) (h : j ≠ i) :
    setSq board i sq j = board j := by
  simp [setSq, h]

theorem wouldCauseCheck_eq (board : Board) {f t : Int} (hf0 : 0 ≤ f) (hf1 : f < 64)
    (ht0 : 0 ≤ t) (ht1 : t < 64) :
    wouldCauseCheck board f t = some (inCheck (simBoard board f t) (board f).color, board) := by
  unfold wouldCauseCheck
  have hf : readSq board f = some (board f) := by simp [readSq, hf0, hf1]
  have ht : readSq board t = some (board t) := by simp [readSq, ht0, ht1]
  rw [hf, ht]
  simp only
  rw [kingInCheck_inCheck]
  simp only [Option.some.injEq, Prod.mk.injEq]
  refine ⟨rfl, ?_⟩
  funext j
  by_cases h1 : j = t
  · subst h1; simp [setSq]
  · by_cases h2 : j = f
    · subst h2; simp [setSq, h1]
    · simp [setSq, h1, h2]

theorem kingAt_off (board bcur : Board) (c : Color) (f k : Int)
    (h : ∀ j, j ≠ f → bcur j = board j) :
    setSq (setSq bcur k ⟨Piece.KING, c⟩) f emptySquare = kingAt board c f k := by
  funext j
  unfold kingAt
  by_cases h1 : j = f
  · simp [setSq, h1]
  · by_cases h2 : j = k
    · simp [setSq, h1, h2]
    · simp [setSq, h1, h2, h j h1]

theorem castleLoop_eq (board : Board) (c : Color) (f fromRow : Int) :
    ∀ (cols : List Int) (bcur : Board),
      (∀ col ∈ cols, 0 ≤ getIdx fromRow col ∧ getIdx fromRow col < 64) →
      (∀ j, j ≠ f → bcur j = board j) →
      ∃ b2, castleLoop c f fromRow cols bcur =
          some (cols.all (fun col => !inCheck (kingAt board c f (getIdx fromRow col)) c), b2) ∧
        (∀ j, j ≠ f → b2 j = board j) ∧
        (cols.all (fun col => !inCheck (kingAt board c f (getIdx fromRow col)) c) = false →
          b2 f = ⟨Piece.KING, c⟩) := by
  intro cols
  induction cols with
  | nil =>
    intro bcur _ hoff
    exact ⟨bcur, by simp [castleLoop], hoff, by simp⟩
  | cons col rest ih =>
    intro bcur hr hoff
    have hc := hr col (List.mem_cons_self _ _)
    unfold castleLoop
    have hread : readSq bcur (getIdx fromRow col) = some (bcur (getIdx fromRow col)) := by
      simp [readSq, hc.1, hc.2]
    simp only [hread]
    rw [kingAt_off board bcur c f (getIdx fromRow col) hoff, kingInCheck_inCheck]
    cases hchk : inCheck (kingAt board c f (getIdx fromRow col)) c with
    | true =>
      refine ⟨setSq (setSq (kingAt board c f (getIdx fromRow col)) (getIdx fromRow col)
        (bcur (getIdx fromRow col))) f ⟨Piece.KING, c⟩, by simp [hchk], ?_, ?_⟩
      · intro j hj
        by_cases h2 : j = getIdx fromRow col
        · subst h2
          simp only [setSq_other _ _ hj, setSq_same]
          exact hoff _ hj
        · simp only [setSq_other _ _ hj, setSq_other _ _ h2, kingAt]
      · intro _; simp [setSq]
    | false =>
      have hoff2 : ∀ j, j ≠ f →
          setSq (kingAt board c f (getIdx fromRow col)) (getIdx fromRow col)
            (bcur (getIdx fromRow col)) j = board j := by
        intro j hj
        by_cases h2 : j = getIdx fromRow col
        · subst h2
          simp only [setSq_same]
          exact hoff _ hj
        · simp only [setSq_other _ _ h2, kingAt, setSq_other _ _ hj]
      obtain ⟨b2, h1, h2, h3⟩ := ih _ (fun x hx => hr x (List.mem_cons_of_mem _ hx)) hoff2
      refine ⟨b2, ?_, h2, ?_⟩
      · simp only [h1, List.all_cons, hchk, Bool.not_false, Bool.true_and]
      · intro h
        apply h3
        simpa [hchk] using h

theorem getRow_range {i : Int} (h0 : 0 ≤ i) (h1 : i < 64) : 0 ≤ getRow i ∧ getRow i < 8 := by
  rw [getRow_eq h0]; omega

theorem getCol_range {i : Int} (h0 : 0 ≤ i) : 0 ≤ getCol i ∧ getCol i < 8 := by
  rw [getCol_eq h0]; omega

theorem getIdx_row_col {i : Int} (h0 : 0 ≤ i) : getIdx (getRow i) (getCol i) = i := by
  rw [getRow_eq h0, getCol_eq h0]; unfold getIdx; omega

theorem getRow_getIdx {r c : Int} (hr : 0 ≤ r) (hc0 : 0 ≤ c) (hc1 : c < 8) :
    getRow (getIdx r c) = r := by
  have h : 0 ≤ getIdx r c := by unfold getIdx; omega
  rw [getRow_eq h]; unfold getIdx; omega

theorem getCol_getIdx {r c : Int} (hr : 0 ≤ r) (hc0 : 0 ≤ c) (hc1 : c < 8) :
    getCol (getIdx r c) = c := by
  have h : 0 ≤ getIdx r c := by unfold getIdx; omega
  rw [getCol_eq h]; unfold getIdx; omega

theorem getIdx_range {r c : Int} (hr0 : 0 ≤ r) (hr1 : r < 8) (hc0 : 0 ≤ c) (hc1 : c < 8) :
    0 ≤ getIdx r c ∧ getIdx r c < 64 := by
  unfold getIdx; omega

theorem castle_tail (board b2 : Board) (c : Color) (f : Int) (r : Bool)
    (hk : board f = ⟨Piece.KING, c⟩)
    (hoff : ∀ j, j ≠ f → b2 j = board j) (hf : r = false → b2 f = ⟨Piece.KING, c⟩) :
    (match (some (r, b2) : Option (Bool × Board)) with
      | none => none
      | some (false, bd) => some (false, bd)
      | some (true, bd) => some (true, setSq bd f ⟨Piece.KING, c⟩)) = some (r, board) := by
  cases r with
  | false =>
    simp only [Option.some.injEq, Prod.mk.injEq, true_and]
    funext j
    by_cases h : j = f
    · subst h; rw [hf rfl, hk]
    · exact hoff j h
  | true =>
    simp only [Option.some.injEq, Prod.mk.injEq, true_and]
    funext j
    by_cases h : j = f
    · subst h; rw [setSq_same, hk]
    · rw [setSq_other _ _ h]; exact hoff j h

theorem kingLegal_eq (g : Game) (c : Color) {f t : Int} (hf0 : 0 ≤ f) (hf1 : f < 64)
    (ht0 : 0 ≤ t) (ht1 : t < 64) (hk : g.board f = ⟨Piece.KING, c⟩) :
    kingLegal g c f t (getRow f) (getCol f) (getRow t - getRow f) (getCol t - getCol f) =
      some (kingLegalB g c f t, g.board) := by
  have hfr := getRow_range hf0 hf1
  have hfc := getCol_range hf0
  have htc := getCol_range ht0
  have hcol : (g.board f).color = c := by rw [hk]
  unfold kingLegal kingLegalB
  by_cases hadj : (getRow t - getRow f).natAbs ≤ 1 ∧ (getCol t - getCol f).natAbs ≤ 1
  · simp only [if_pos hadj]
    rw [wouldCauseCheck_eq g.board hf0 hf1 ht0 ht1, hcol]
  · simp only [if_neg hadj]
    by_cases hcond : (if c = Color.WHITE then g.whiteKingMoved else g.blackKingMoved) = false ∧
        getRow t - getRow f = 0 ∧ (getCol t - getCol f).natAbs = 2
    · simp only [if_pos hcond]
      by_cases hdir : getCol t - getCol f > 0
      · simp only [if_pos hdir]
        unfold castleB
        cases hrm : (if c = Color.WHITE then g.whiteRightRookMoved else g.blackRightRookMoved)
        · simp only [Bool.false_eq_true, if_false, Bool.not_false, Bool.true_and]
          have hcr := getIdx_range hfr.1 hfr.2 (c := 7) (by omega) (by omega)
          have hal : aligned f (getIdx (getRow f) 7) :=
            Or.inl (getRow_getIdx hfr.1 (by omega) (by omega)).symm
          rw [pathClear_aligned g.board hf0 hf1 hcr.1 hcr.2 hal]
          cases hpath : (between f (getIdx (getRow f) 7)).all
              (fun j => decide ((g.board j).piece = Piece.EMPTY))
          · simp
          · simp only [Bool.true_and]
            obtain ⟨b2, h1, h2, h3⟩ := castleLoop_eq g.board c f (getRow f)
              [getCol f, getCol f + 1, getCol f + 2] g.board
              (by
                intro col hc
                simp only [List.mem_cons, List.mem_singleton, List.not_mem_nil, or_false] at hc
                apply getIdx_range hfr.1 hfr.2 <;> omega)
              (fun _ _ => rfl)
            rw [h1]
            exact castle_tail g.board b2 c f _ hk h2 h3
        · simp
      · simp only [if_neg hdir]
        unfold castleB
        cases hrm : (if c = Color.WHITE then g.whiteLeftRookMoved else g.blackLeftRookMoved)
        · simp only [Bool.false_eq_true, if_false, Bool.not_false, Bool.true_and]
          have hcr := getIdx_range hfr.1 hfr.2 (c := 0) (by omega) (by omega)
          have hal : aligned f (getIdx (getRow f) 0) :=
            Or.inl (getRow_getIdx hfr.1 (by omega) (by omega)).symm
          rw [pathClear_aligned g.board hf0 hf1 hcr.1 hcr.2 hal]
          cases hpath : (between f (getIdx (getRow f) 0)).all
              (fun j => decide ((g.board j).piece = Piece.EMPTY))
          · simp
          · simp only [Bool.true_and]
            obtain ⟨b2, h1, h2, h3⟩ := castleLoop_eq g.board c f (getRow f)
              [getCol f, getCol f - 1, getCol f - 2] g.board
              (by
                intro col hc
                simp only [List.mem_cons, List.mem_singleton, List.not_mem_nil, or_false] at hc
                apply getIdx_range hfr.1 hfr.2 <;> omega)
              (fun _ _ => rfl)
            rw [h1]
            exact castle_tail g.board b2 c f _ hk h2 h3
        · simp
    · simp only [if_neg hcond]

theorem pawnLegal_isSome (g : Game) (c : Color) (toSquare : Square) {f : Int}
    (hf0 : 0 ≤ f) (hf1 : f < 64) (rowDiff colDiff t : Int) :
    ∃ r, pawnLegal g c toSquare (getRow f) (getCol f) rowDiff colDiff t = some r := by
  have hfr := getRow_range hf0 hf1
  have hfc := getCol_range hf0
  unfold pawnLegal
  simp only
  by_cases hc : c = Color.WHITE
  · simp only [hc, ↓reduceIte]
    by_cases hA : colDiff = 0 ∧ rowDiff = -1 ∧ toSquare.piece = Piece.EMPTY
    · rw [if_pos hA]; exact ⟨_, rfl⟩
    · rw [if_neg hA]
      by_cases hB : colDiff = 0 ∧ rowDiff = 2 * -1 ∧ getRow f = 6
      · rw [if_pos hB]
        have hr : 0 ≤ getIdx (getRow f + -1) (getCol f) ∧
            getIdx (getRow f + -1) (getCol f) < 64 := by unfold getIdx; omega
        simp only [readSq, hr, and_self, if_true]
        cases decide ((g.board (getIdx (getRow f + -1) (getCol f))).piece = Piece.EMPTY ∧
          toSquare.piece = Piece.EMPTY)
        · simp only
          split
          · exact ⟨_, rfl⟩
          · split <;> exact ⟨_, rfl⟩
        · exact ⟨_, rfl⟩
      · rw [if_neg hB]
        simp only
        split
        · exact ⟨_, rfl⟩
        · split <;> exact ⟨_, rfl⟩
  · simp only [hc, ↓reduceIte]
    by_cases hA : colDiff = 0 ∧ rowDiff = 1 ∧ toSquare.piece = Piece.EMPTY
    · rw [if_pos hA]; exact ⟨_, rfl⟩
    · rw [if_neg hA]
      by_cases hB : colDiff = 0 ∧ rowDiff = 2 * 1 ∧ getRow f = 1
      · rw [if_pos hB]
        have hr : 0 ≤ getIdx (getRow f + 1) (getCol f) ∧
            getIdx (getRow f + 1) (getCol f) < 64 := by unfold getIdx; omega
        simp only [readSq, hr, and_self, if_true]
        cases decide ((g.board (getIdx (getRow f + 1) (getCol f))).piece = Piece.EMPTY ∧
          toSquare.piece = Piece.EMPTY)
        · simp only
          split
          · exact ⟨_, rfl⟩
          · split <;> exact ⟨_, rfl⟩
        · exact ⟨_, rfl⟩
      · rw [if_neg hB]
        simp only
        split
        · exact ⟨_, rfl⟩
        · split <;> exact ⟨_, rfl⟩

theorem isMoveLegal_frame (g : Game) (f t : Int) :
    ∃ r, isMoveLegal g f t = some (r, g.board) := by
  unfold isMoveLegal
  by_cases hr : f < 0 ∨ f ≥ BOARD_SIZE ∨ t < 0 ∨ t ≥ BOARD_SIZE
  · rw [if_pos hr]; exact ⟨_, rfl⟩
  · rw [if_neg hr]
    have hf0 : 0 ≤ f := by omega
    have hf1 : f < 64 := by simp only [BOARD_SIZE] at hr; omega
    have ht0 : 0 ≤ t := by omega
    have ht1 : t < 64 := by simp only [BOARD_SIZE] at hr; omega
    have hrf : readSq g.board f = some (g.board f) := by simp [readSq, hf0, hf1]
    have hrt : readSq g.board t = some (g.board t) := by simp [readSq, ht0, ht1]
    rw [hrf, hrt]
    simp only
    split
    · exact ⟨_, rfl⟩
    · split
      · exact ⟨_, rfl⟩
      · have hpc : ∀ (P : Prop) [Decidable P], (P → aligned f t) →
            ∃ r, (if P then (pathClear g.board f t).map (fun r => (r, g.board))
              else some (false, g.board)) = some (r, g.board) := by
          intro P _ hP
          by_cases hp : P
          · rw [if_pos hp, pathClear_aligned g.board hf0 hf1 ht0 ht1 (hP hp)]
            exact ⟨_, rfl⟩
          · rw [if_neg hp]; exact ⟨_, rfl⟩
        cases hp : (g.board f).piece with
        | EMPTY => exact ⟨_, rfl⟩
        | PAWN =>
          simp only
          obtain ⟨r, h⟩ := pawnLegal_isSome g (g.board f).color (g.board t) hf0 hf1
            (getRow t - getRow f) (getCol t - getCol f) t
          rw [h]; exact ⟨_, rfl⟩
        | ROOK =>
          simp only
          exact hpc _ (fun h => h.elim Or.inl (fun h => Or.inr (Or.inl h)))
        | KNIGHT => exact ⟨_, rfl⟩
        | BISHOP =>
          simp only
          exact hpc _ (fun h => Or.inr (Or.inr h))
        | QUEEN =>
          simp only
          exact hpc _ (fun h => h.elim (fun h => h.elim Or.inl (fun h => Or.inr (Or.inl h)))
            (fun h => Or.inr (Or.inr h)))
        | KING =>
          simp only
          have hk : g.board f = ⟨Piece.KING, (g.board f).color⟩ := by
            rw [← hp]
          exact ⟨_, kingLegal_eq g (g.board f).color hf0 hf1 ht0 ht1 hk⟩

theorem isMoveLegal_eq (g : Game) (f t : Int) :
    isMoveLegal g f t = some (isLegal g f t, g.board) := by
  obtain ⟨r, h⟩ := isMoveLegal_frame g f t
  unfold isLegal
  rw [h]

theorem isLegal_range {g : Game} {f t : Int} (h : isLegal g f t = true) :
    0 ≤ f ∧ f < 64 ∧ 0 ≤ t ∧ t < 64 := by
  by_contra hn
  have hr : f < 0 ∨ f ≥ BOARD_SIZE ∨ t < 0 ∨ t ≥ BOARD_SIZE := by
    simp only [BOARD_SIZE]; omega
  unfold isLegal isMoveLegal at h
  rw [if_pos hr] at h
  simp at h

theorem fullyLegal_eq (g : Game) (f t : Int) :
    fullyLegal g f t = some (isFullyLegal g f t, g.board) := by
  have key : ∃ r, fullyLegal g f t = some (r, g.board) := by
    unfold fullyLegal
    rw [isMoveLegal_eq]
    cases hl : isLegal g f t with
    | false => exact ⟨_, rfl⟩
    | true =>
      obtain ⟨hf0, hf1, ht0, ht1⟩ := isLegal_range hl
      simp only
      rw [wouldCauseCheck_eq g.board hf0 hf1 ht0 ht1]
      exact ⟨_, rfl⟩
  obtain ⟨r, h⟩ := key
  unfold isFullyLegal
  rw [h]

theorem isFullyLegal_iff (g : Game) (f t : Int) :
    isFullyLegal g f t = true ↔
      isLegal g f t = true ∧ inCheck (simBoard g.board f t) (g.board f).color = false := by
  unfold isFullyLegal fullyLegal
  rw [isMoveLegal_eq]
  cases hl : isLegal g f t with
  | false => simp
  | true =>
    obtain ⟨hf0, hf1, ht0, ht1⟩ := isLegal_range hl
    simp only
    rw [wouldCauseCheck_eq g.board hf0 hf1 ht0 ht1]
    simp

/-! ### computeLegalMoves and hasLegalMoves -/

theorem isFullyLegal_legalMoves (g : Game) (ms : List Move) (f t : Int) :
    isFullyLegal { g with legalMoves := ms } f t = isFullyLegal g f t := rfl

theorem isFullyLegal_upd (g : Game) (ms : List Move) (f t : Int) :
    isFullyLegal { g with board := g.board, legalMoves := ms } f t = isFullyLegal g f t := rfl

theorem isFullyLegal_board (g : Game) (f t : Int) :
    isFullyLegal { g with board := g.board } f t = isFullyLegal g f t := rfl

theorem computeLoop_eq (f : Int) : ∀ (l : List Int) (g : Game),
    computeLoop f l g = some { g with legalMoves :=
      g.legalMoves ++ (l.filter (fun t => isFullyLegal g f t)).map (fun t => ⟨f, t⟩) } := by
  intro l
  induction l with
  | nil => intro g; simp [computeLoop]
  | cons t rest ih =>
    intro g
    unfold computeLoop
    rw [fullyLegal_eq]
    cases h : isFullyLegal g f t with
    | true =>
      simp only
      rw [ih]
      simp [isFullyLegal_upd, h]
    | false =>
      simp only
      rw [ih]
      simp [isFullyLegal_board, h]

theorem computeLegalMoves_eq (g : Game) (f : Int) (turn : Color) :
    computeLegalMoves g f turn = some { g with legalMoves :=
      if 0 ≤ f ∧ f < 64 ∧ (g.board f).color = turn then
        (squares.filter (fun t => isFullyLegal g f t)).map (fun t => ⟨f, t⟩)
      else [] } := by
  unfold computeLegalMoves
  by_cases hr : f < 0 ∨ f ≥ BOARD_SIZE
  · have hn : ¬ (0 ≤ f ∧ f < 64 ∧ (g.board f).color = turn) := by
      simp only [BOARD_SIZE] at hr; omega
    simp only [if_pos hr, if_neg hn]
  · have h0 : 0 ≤ f := by omega
    have h1 : f < 64 := by simp only [BOARD_SIZE] at hr; omega
    simp only [if_neg hr, readSq, h0, h1, and_self, if_true]
    by_cases hc : (g.board f).color = turn
    · simp only [hc, ne_eq, not_true_eq_false, if_false, and_self, if_true]
      rw [computeLoop_eq]
      simp [isFullyLegal_legalMoves]
    · simp only [ne_eq, hc, not_false_eq_true, if_true, and_false, if_false]

theorem hasLoopTo_eq (f : Int) : ∀ (l : List Int) (g : Game),
    hasLoopTo f l g = some (l.any (fun t => isFullyLegal g f t), g.board) := by
  intro l
  induction l with
  | nil => intro g; simp [hasLoopTo]
  | cons t rest ih =>
    intro g
    unfold hasLoopTo
    rw [fullyLegal_eq]
    cases h : isFullyLegal g f t with
    | true => simp [h]
    | false =>
      simp only
      rw [ih]
      simp [isFullyLegal_board, h]

theorem hasLoopFrom_eq (turn : Color) : ∀ (l : List Int) (g : Game),
    hasLoopFrom turn l g =
      some (l.any (fun f => decide ((g.board f).color = turn) &&
        squares.any (fun t => isFullyLegal g f t)), g.board) := by
  intro l
  induction l with
  | nil => intro g; simp [hasLoopFrom]
  | cons f rest ih =>
    intro g
    unfold hasLoopFrom
    by_cases hc : (g.board f).color = turn
    · rw [if_pos hc, hasLoopTo_eq]
      cases h : squares.any (fun t => isFullyLegal g f t) with
      | true => simp [h, hc]
      | false =>
        simp only
        rw [ih]
        simp [h, hc]
    · rw [if_neg hc, ih]
      simp [hc]

theorem hasLegalMoves_eq (g : Game) (turn : Color) :
    hasLegalMoves g turn =
      some (squares.any (fun f => decide ((g.board f).color = turn) &&
        squares.any (fun t => isFullyLegal g f t)), g.board) :=
  hasLoopFrom_eq turn squares g

/-! ### The event loop -/

theorem setSq_restore (board : Board) (i : Int) (sq : Square) :
    setSq (setSq board i sq) i (board i) = board := by
  funext j
  by_cases h : j = i
  · subst h; simp [setSq]
  · simp [setSq, h]

theorem mousePressed_eq (s : Session) {f : Int} (hf0 : 0 ≤ f) (hf1 : f < 64)
    (hc : (s.game.board f).color = s.turn) :
    mousePressed s (getRow f) (getCol f) =
      some { s with
        game := { s.game with
          board := setSq s.game.board f emptySquare
          legalMoves := (squares.filter (fun t => isFullyLegal s.game f t)).map
            (fun t => ⟨f, t⟩) }
        dragging := true
        held := s.game.board f
        heldIdx := f } := by
  have hr := getRow_range hf0 hf1
  have hcl := getCol_range hf0
  have hn : ¬ (getRow f < 0 ∨ getRow f ≥ 8 ∨ getCol f < 0 ∨ getCol f ≥ 8) := by omega
  unfold mousePressed
  simp only [if_neg hn, getIdx_row_col hf0, readSq, hf0, hf1, and_self, if_true, hc,
    computeLegalMoves_eq, writeSq]

theorem any_toIdx (f t : Int) (l : List Int) :
    (l.map (fun x => (⟨f, x⟩ : Move))).any (fun m => decide (m.toIdx = t)) = decide (t ∈ l) := by
  induction l with
  | nil => simp
  | cons a rest ih =>
    simp only [List.map_cons, List.any_cons, ih, List.mem_cons]
    by_cases h : a = t
    · simp [h]
    · have h2 : ¬ t = a := fun e => h e.symm
      simp [h, h2]

theorem valid_iff (g : Game) {f t : Int} (ht0 : 0 ≤ t) (ht1 : t < 64) :
    ((squares.filter (fun x => isFullyLegal g f x)).map (fun x => (⟨f, x⟩ : Move))).any
      (fun m => decide (m.toIdx = t)) = isFullyLegal g f t := by
  rw [any_toIdx]
  cases h : isFullyLegal g f t with
  | true => simp [List.mem_filter, h, (mem_squares t).mpr ⟨ht0, ht1⟩]
  | false => simp [List.mem_filter, h]

theorem pressRelease_eq (s : Session) {f t : Int} (hf0 : 0 ≤ f) (hf1 : f < 64)
    (ht0 : 0 ≤ t) (ht1 : t < 64) (hc : (s.game.board f).color = s.turn) :
    pressRelease s f t =
      if isFullyLegal s.game f t = true then
        (applyMove (lifted s f) (getRow t) (getCol t)).map
          (fun s1 => { s1 with dragging := false, heldIdx := -1 })
      else
        some { s with
          game := { s.game with
            legalMoves := (squares.filter (fun x => isFullyLegal s.game f x)).map
              (fun x => ⟨f, x⟩) }
          dragging := false
          held := s.game.board f
          heldIdx := -1 } := by
  have hr := getRow_range ht0 ht1
  have hcl := getCol_range ht0
  have hn : ¬ (getRow t < 0 ∨ getRow t ≥ 8 ∨ getCol t < 0 ∨ getCol t ≥ 8) := by omega
  unfold pressRelease
  rw [mousePressed_eq s hf0 hf1 hc]
  simp only
  unfold mouseReleased
  simp only [if_true, if_neg hn, getIdx_row_col ht0, valid_iff s.game ht0 ht1]
  cases h : isFullyLegal s.game f t with
  | true => simp only [if_true, lifted]
  | false =>
    simp only [Bool.false_eq_true, if_false, writeSq, hf0, hf1, and_self, if_true,
      Option.map_some', setSq_restore]

/-! ### C10: the list computeLegalMoves produces -/

theorem squares_pairwise : List.Pairwise (fun a b : Int => a < b) squares := by
  unfold squares
  rw [List.pairwise_map]
  exact (List.pairwise_lt_range 64).imp (fun h => by simpa using h)

theorem isFullyLegal_iff_calls (g : Game) {f t : Int} (hf0 : 0 ≤ f) (hf1 : f < 64)
    (ht0 : 0 ≤ t) (ht1 : t < 64) :
    isFullyLegal g f t = true ↔
      ((isMoveLegal g f t).map Prod.fst = some true ∧
        (wouldCauseCheck g.board f t).map Prod.fst = some false) := by
  rw [isFullyLegal_iff, isMoveLegal_eq, wouldCauseCheck_eq g.board hf0 hf1 ht0 ht1]
  simp

/-- C10. For every game state, source index and side, `computeLegalMoves(from, side)` returns
and leaves in `legalMoves`: the empty list when `from` is outside `0..63` or the square at
`from` does not have colour `side`; otherwise the moves `(from, to)` for exactly those `to`
among `0, 1, ..., 63` (taken in this order, each once) for which `isMoveLegal(from, to)` is
true and `wouldCauseCheck(from, to)` is false, so that the destinations are strictly
ascending. -/
theorem computeLegalMoves_spec (g : Game) (fromIdx : Int) (side : Color) :
    ∃ g2, computeLegalMoves g fromIdx side = some g2 ∧
      g2.legalMoves =
        (if 0 ≤ fromIdx ∧ fromIdx < 64 ∧ (g.board fromIdx).color = side then
          (squares.filter (fun toIdx =>
            decide ((isMoveLegal g fromIdx toIdx).map Prod.fst = some true ∧
              (wouldCauseCheck g.board fromIdx toIdx).map Prod.fst = some false))).map
            (fun toIdx => ⟨fromIdx, toIdx⟩)
        else []) ∧
      List.Pairwise (fun a b : Move => a.toIdx < b.toIdx) g2.legalMoves := by
  refine ⟨_, computeLegalMoves_eq g fromIdx side, ?_, ?_⟩
  · by_cases h : 0 ≤ fromIdx ∧ fromIdx < 64 ∧ (g.board fromIdx).color = side
    · simp only [if_pos h]
      congr 1
      apply List.filter_congr
      intro t ht
      have hm := (mem_squares t).mp ht
      have := isFullyLegal_iff_calls g h.1 h.2.1 hm.1 hm.2
      cases hfl : isFullyLegal g fromIdx t with
      | true => rw [hfl] at this; simp [this.mp rfl]
      | false =>
        rw [hfl] at this
        symm
        rw [decide_eq_false_iff_not]
        intro hh
        exact Bool.false_ne_true (this.mpr hh)
    · simp only [if_neg h]
  · simp only
    split
    · rw [List.pairwise_map]
      exact (squares_pairwise.sublist (List.filter_sublist _)).imp (fun h => h)
    · exact List.Pairwise.nil

/-! ### C3: a drop on a square that is not a legal destination -/

/-- C3. For every session, every source square holding a piece of the side to move and every
destination square that is not among the destinations `computeLegalMoves(from, turn)`
returns, the press on the source followed by the release on the destination returns and
leaves the board, the six moved flags, the en-passant target and the side to move as they
were before the press. -/
theorem illegal_drop_restores (s : Session) (fromIdx toIdx : Int)
    (hf : 0 ≤ fromIdx ∧ fromIdx < 64) (ht : 0 ≤ toIdx ∧ toIdx < 64)
    (hc : (s.game.board fromIdx).color = s.turn)
    (hnot : ∀ g2, computeLegalMoves s.game fromIdx s.turn = some g2 →
      ∀ m ∈ g2.legalMoves, m.toIdx ≠ toIdx) :
    ∃ s2, pressRelease s fromIdx toIdx = some s2 ∧
      s2.game.board = s.game.board ∧
      s2.game.whiteKingMoved = s.game.whiteKingMoved ∧
      s2.game.blackKingMoved = s.game.blackKingMoved ∧
      s2.game.whiteLeftRookMoved = s.game.whiteLeftRookMoved ∧
      s2.game.whiteRightRookMoved = s.game.whiteRightRookMoved ∧
      s2.game.blackLeftRookMoved = s.game.blackLeftRookMoved ∧
      s2.game.blackRightRookMoved = s.game.blackRightRookMoved ∧
      s2.game.enPassantIdx = s.game.enPassantIdx ∧
      s2.game.enPassantColor = s.game.enPassantColor ∧
      s2.turn = s.turn := by
  have hfl : isFullyLegal s.game fromIdx toIdx = false := by
    cases h : isFullyLegal s.game fromIdx toIdx with
    | false => rfl
    | true =>
      exfalso
      have h2 := hnot _ (computeLegalMoves_eq s.game fromIdx s.turn) ⟨fromIdx, toIdx⟩
      simp only [hf.1, hf.2, hc, and_self, if_true] at h2
      apply h2 _ rfl
      simp only [List.mem_map, List.mem_filter]
      exact ⟨toIdx, ⟨(mem_squares toIdx).mpr ht, h⟩, rfl⟩
  rw [pressRelease_eq s hf.1 hf.2 ht.1 ht.2 hc, hfl]
  simp only [Bool.false_eq_true, if_false]
  exact ⟨_, rfl, rfl, rfl, rfl, rfl, rfl, rfl, rfl, rfl, rfl, rfl⟩

theorem initial_legalMoves_e2 :
    ∀ g2, computeLegalMoves (positionSession startPosition).game 52 (positionSession startPosition).turn = some g2 →
      ∀ m ∈ g2.legalMoves, m.toIdx ≠ 20 := by
  intro g2 h
  rw [computeLegalMoves_eq] at h
  simp only [Option.some.injEq] at h
  subst h
  simp only
  decide!

/-- Witness of C3: in the starting position the White pawn on e2 (52) is dropped on e6 (20). -/
theorem illegal_drop_restores_witness :
    ∃ s2, pressRelease (positionSession startPosition) 52 20 = some s2 ∧
      s2.game.board = (positionSession startPosition).game.board ∧
      s2.game.whiteKingMoved = (positionSession startPosition).game.whiteKingMoved ∧
      s2.game.blackKingMoved = (positionSession startPosition).game.blackKingMoved ∧
      s2.game.whiteLeftRookMoved = (positionSession startPosition).game.whiteLeftRookMoved ∧
      s2.game.whiteRightRookMoved = (positionSession startPosition).game.whiteRightRookMoved ∧
      s2.game.blackLeftRookMoved = (positionSession startPosition).game.blackLeftRookMoved ∧
      s2.game.blackRightRookMoved = (positionSession startPosition).game.blackRightRookMoved ∧
      s2.game.enPassantIdx = (positionSession startPosition).game.enPassantIdx ∧
      s2.game.enPassantColor = (positionSession startPosition).game.enPassantColor ∧
      s2.turn = (positionSession startPosition).turn :=
  illegal_drop_restores (positionSession startPosition) 52 20 (by decide) (by decide) (by decide!)
    initial_legalMoves_e2

/-! ### The move application -/

theorem applyPawn_spec (g : Game) (held : Square) {row col : Int} (fromRow fromCol : Int)
    (hr0 : 0 ≤ row) (hr1 : row < 8) (hc0 : 0 ≤ col) (hc1 : col < 8) :
    ∃ g1, applyPawn g held row col fromRow fromCol (getIdx row col) = some g1 ∧
      g1.enPassantIdx = (if held.piece = Piece.PAWN ∧ (row - fromRow).natAbs = 2
        then getIdx (Int.tdiv (row + fromRow) 2) col else g.enPassantIdx) ∧
      g1.enPassantColor = (if held.piece = Piece.PAWN ∧ (row - fromRow).natAbs = 2
        then held.color else g.enPassantColor) := by
  have ht := getIdx_range hr0 hr1 hc0 hc1
  have hw : ∀ (b : Board) (r : Int), r ≥ 0 ∧ r < 8 →
      writeSq b (getIdx r col) emptySquare = some (setSq b (getIdx r col) emptySquare) := by
    intro b r h
    have h6 := getIdx_range h.1 h.2 hc0 hc1
    simp only [writeSq, h6.1, h6.2, and_self, if_true]
  unfold applyPawn
  by_cases hp : held.piece = Piece.PAWN
  · by_cases h2 : (row - fromRow).natAbs = 2
    · simp only [hp, h2, and_self, if_true, readSq, ht.1, ht.2]
      split_ifs <;>
        first
        | exact ⟨_, rfl, rfl, rfl⟩
        | (rw [hw _ _ (by assumption)]; exact ⟨_, rfl, rfl, rfl⟩)
    · simp only [hp, h2, and_false, and_self, if_true, if_false, readSq, ht.1, ht.2]
      split_ifs <;>
        first
        | exact ⟨_, rfl, rfl, rfl⟩
        | (rw [hw _ _ (by assumption)]; exact ⟨_, rfl, rfl, rfl⟩)
  · simp only [hp, if_false, false_and]
    exact ⟨_, rfl, rfl, rfl⟩

theorem applyCastle_spec (g : Game) (held : Square) {row col fromCol : Int}
    (hr0 : 0 ≤ row) (hr1 : row < 8) (hc0 : 0 ≤ col) (hc1 : col < 8)
    (hf0 : 0 ≤ fromCol) (hf1 : fromCol < 8) :
    ∃ g2, applyCastle g held row col fromCol = some g2 ∧
      g2.enPassantIdx = g.enPassantIdx ∧ g2.enPassantColor = g.enPassantColor := by
  unfold applyCastle
  by_cases hk : held.piece = Piece.KING ∧ (col - fromCol).natAbs = 2
  · rw [if_pos hk]
    have h7 := getIdx_range hr0 hr1 (c := 7) (by omega) (by omega)
    have h0 := getIdx_range hr0 hr1 (c := 0) (by omega) (by omega)
    by_cases hd : col > fromCol
    · have h1 := getIdx_range hr0 hr1 (c := col - 1) (by omega) (by omega)
      simp only [if_pos hd, readSq, h7.1, h7.2, and_self, if_true, writeSq, h1.1, h1.2]
      split
      · exact ⟨_, rfl, rfl, rfl⟩
      · exact ⟨_, rfl, rfl, rfl⟩
    · have h1 := getIdx_range hr0 hr1 (c := col + 1) (by omega) (by omega)
      simp only [if_neg hd, readSq, h0.1, h0.2, and_self, if_true, writeSq, h1.1, h1.2]
      split
      · exact ⟨_, rfl, rfl, rfl⟩
      · exact ⟨_, rfl, rfl, rfl⟩
  · rw [if_neg hk]
    exact ⟨_, rfl, rfl, rfl⟩

theorem applyFlags_frame (g : Game) (held : Square) (fromCol : Int) :
    (applyFlags g held fromCol).board = g.board ∧
      (applyFlags g held fromCol).enPassantIdx = g.enPassantIdx ∧
      (applyFlags g held fromCol).enPassantColor = g.enPassantColor := by
  unfold applyFlags
  simp only
  split_ifs <;> exact ⟨rfl, rfl, rfl⟩

theorem applyMove_eq (s : Session) (row col : Int) :
    applyMove s row col = applyMutations s row col := by
  unfold applyMove
  cases applyMutations s row col with
  | none => rfl
  | some s1 => simp only [kingInCheck_inCheck, hasLegalMoves_eq]

theorem applyMove_spec (s : Session) {row col : Int}
    (hr0 : 0 ≤ row) (hr1 : row < 8) (hc0 : 0 ≤ col) (hc1 : col < 8)
    (hh0 : 0 ≤ s.heldIdx) :
    ∃ s2, applyMove s row col = some s2 ∧
      s2.turn = (if s.turn = Color.WHITE then Color.BLACK else Color.WHITE) ∧
      s2.game.enPassantIdx =
        (if s.held.piece = Piece.PAWN ∧ (row - getRow s.heldIdx).natAbs = 2
          then getIdx (Int.tdiv (row + getRow s.heldIdx) 2) col else -1) ∧
      s2.game.enPassantColor =
        (if s.held.piece = Piece.PAWN ∧ (row - getRow s.heldIdx).natAbs = 2
          then s.held.color else Color.NONE) ∧
      s2.game.board (getIdx row col) =
        (if s.held.piece = Piece.PAWN ∧ (row = 0 ∨ row = 7) then ⟨Piece.QUEEN, s.held.color⟩
          else s.held) := by
  have ht := getIdx_range hr0 hr1 hc0 hc1
  have hfc := getCol_range hh0
  rw [applyMove_eq]
  unfold applyMutations
  simp only
  obtain ⟨g1, e1, p1, p2⟩ := applyPawn_spec
    { s.game with enPassantIdx := -1, enPassantColor := Color.NONE } s.held
    (getRow s.heldIdx) (getCol s.heldIdx) hr0 hr1 hc0 hc1
  rw [e1]
  simp only
  obtain ⟨g2, e2, q1, q2⟩ := applyCastle_spec g1 s.held hr0 hr1 hc0 hc1 hfc.1 hfc.2
  rw [e2]
  simp only [writeSq, ht.1, ht.2, and_self, if_true, kingInCheck_inCheck, hasLegalMoves_eq]
  refine ⟨_, rfl, rfl, ?_, ?_, ?_⟩
  · simp only [applyPromotion]
    split <;> simp only [(applyFlags_frame _ _ _).2.1, q1, p1]
  · simp only [applyPromotion]
    split <;> simp only [(applyFlags_frame _ _ _).2.2, q2, p2]
  · simp only [applyPromotion]
    split
    · simp only [(applyFlags_frame _ _ _).1, setSq_same]
    · simp only [(applyFlags_frame _ _ _).1, setSq_same]

theorem returnsMove_iff (g : Game) (turn : Color) (f t : Int) :
    returnsMove g turn f t ↔
      (0 ≤ f ∧ f < 64 ∧ (g.board f).color = turn) ∧ (0 ≤ t ∧ t < 64) ∧
        isFullyLegal g f t = true := by
  unfold returnsMove
  rw [computeLegalMoves_eq]
  simp only [Option.map_some', Option.some.injEq, decide_eq_true_eq]
  by_cases h : 0 ≤ f ∧ f < 64 ∧ (g.board f).color = turn
  · simp only [if_pos h, List.mem_map, List.mem_filter, mem_squares, Move.mk.injEq]
    constructor
    · rintro ⟨x, ⟨hx, hl⟩, _, rfl⟩
      exact ⟨h, hx, hl⟩
    · rintro ⟨_, ht, hl⟩
      exact ⟨t, ⟨ht, hl⟩, by simp⟩
  · simp only [if_neg h, List.not_mem_nil, false_iff]
    intro hh
    exact h hh.1

theorem pawnLegal_true {g : Game} {c : Color} {toSquare : Square}
    {fromRow fromCol rowDiff colDiff t : Int}
    (h : pawnLegal g c toSquare fromRow fromCol rowDiff colDiff t = some true) :
    (colDiff = 0 ∧ rowDiff.natAbs = 1) ∨ (colDiff = 0 ∧ rowDiff.natAbs = 2) ∨
      (colDiff.natAbs = 1 ∧ rowDiff.natAbs = 1) := by
  unfold pawnLegal at h
  simp only at h
  by_cases hA : colDiff = 0 ∧ rowDiff = (if c = Color.WHITE then -1 else 1) ∧
      toSquare.piece = Piece.EMPTY
  · left
    refine ⟨hA.1, ?_⟩
    have := hA.2.1
    split at this <;> omega
  · rw [if_neg hA] at h
    by_cases hB : colDiff = 0 ∧ rowDiff = 2 * (if c = Color.WHITE then -1 else 1) ∧
        fromRow = (if c = Color.WHITE then 6 else 1)
    · right; left
      refine ⟨hB.1, ?_⟩
      have := hB.2.1
      split at this <;> omega
    · rw [if_neg hB] at h
      simp only at h
      right; right
      by_cases hC : colDiff.natAbs = 1 ∧ rowDiff = (if c = Color.WHITE then -1 else 1) ∧
          toSquare.color ≠ c ∧ toSquare.color ≠ Color.NONE
      · refine ⟨hC.1, ?_⟩
        have := hC.2.1
        split at this <;> omega
      · rw [if_neg hC] at h
        by_cases hD : colDiff.natAbs = 1 ∧ rowDiff = (if c = Color.WHITE then -1 else 1) ∧
            t = g.enPassantIdx ∧ g.enPassantColor ≠ c
        · refine ⟨hD.1, ?_⟩
          have := hD.2.1
          split at this <;> omega
        · rw [if_neg hD] at h
          simp at h

theorem isLegal_pawn {g : Game} {f t : Int} (h : isLegal g f t = true)
    (hp : (g.board f).piece = Piece.PAWN) :
    pawnLegal g (g.board f).color (g.board t) (getRow f) (getCol f)
      (getRow t - getRow f) (getCol t - getCol f) t = some true := by
  obtain ⟨hf0, hf1, ht0, ht1⟩ := isLegal_range h
  have hr : ¬ (f < 0 ∨ f ≥ BOARD_SIZE ∨ t < 0 ∨ t ≥ BOARD_SIZE) := by
    simp only [BOARD_SIZE]; omega
  have h3 : isMoveLegal g f t = some (true, g.board) := by rw [isMoveLegal_eq, h]
  unfold isMoveLegal at h3
  simp only [if_neg hr, readSq, hf0, hf1, ht0, ht1, and_self, if_true] at h3
  by_cases h1 : (g.board f).piece = Piece.EMPTY ∨ (g.board f).color = Color.NONE
  · rw [if_pos h1] at h3; simp at h3
  · rw [if_neg h1] at h3
    by_cases h2 : (g.board t).color = (g.board f).color
    · rw [if_pos h2] at h3; simp at h3
    · rw [if_neg h2] at h3
      simp only [hp] at h3
      cases hpl : pawnLegal g (g.board f).color (g.board t) (getRow f) (getCol f)
          (getRow t - getRow f) (getCol t - getCol f) t with
      | none => rw [hpl] at h3; simp at h3
      | some r =>
        rw [hpl] at h3
        simp only [Option.map_some', Option.some.injEq, Prod.mk.injEq, and_true] at h3
        rw [h3]

theorem pressRelease_legal (s : Session) {f t : Int} (h : returnsMove s.game s.turn f t) :
    (0 ≤ f ∧ f < 64) ∧ (0 ≤ t ∧ t < 64) ∧ isFullyLegal s.game f t = true ∧
      pressRelease s f t = (applyMove (lifted s f) (getRow t) (getCol t)).map
        (fun s1 => { s1 with dragging := false, heldIdx := -1 }) := by
  obtain ⟨⟨hf0, hf1, hc⟩, ⟨ht0, ht1⟩, hl⟩ := (returnsMove_iff _ _ _ _).mp h
  refine ⟨⟨hf0, hf1⟩, ⟨ht0, ht1⟩, hl, ?_⟩
  rw [pressRelease_eq s hf0 hf1 ht0 ht1 hc, if_pos hl]

/-! ### C8: the en-passant target after a move -/

/-- C8. For every session, whatever its en-passant target, and every move that
`computeLegalMoves` returns for the side to move: the press on the source and the release on
the destination return, and afterwards, if the moved piece is a pawn whose destination row
differs from its source row by 2, `enPassantIdx` is the square in the source column in the
row between (the midpoint of source and destination, which lie in one column) and
`enPassantColor` is the mover's colour; in every other case `enPassantIdx` is `-1` and
`enPassantColor` is `NONE`. -/
theorem enPassant_after_move (s : Session) (fromIdx toIdx : Int)
    (h : returnsMove s.game s.turn fromIdx toIdx) :
    ∃ s2, pressRelease s fromIdx toIdx = some s2 ∧
      (if (s.game.board fromIdx).piece = Piece.PAWN ∧
          (getRow toIdx - getRow fromIdx).natAbs = 2 then
        s2.game.enPassantIdx = getIdx ((getRow fromIdx + getRow toIdx) / 2) (getCol fromIdx) ∧
          s2.game.enPassantIdx + s2.game.enPassantIdx = fromIdx + toIdx ∧
          getCol toIdx = getCol fromIdx ∧
          s2.game.enPassantColor = (s.game.board fromIdx).color ∧
          s2.game.enPassantColor = s.turn
      else s2.game.enPassantIdx = -1 ∧ s2.game.enPassantColor = Color.NONE) := by
  obtain ⟨⟨hf0, hf1⟩, ⟨ht0, ht1⟩, hl, he⟩ := pressRelease_legal s h
  have hc : (s.game.board fromIdx).color = s.turn := ((returnsMove_iff _ _ _ _).mp h).1.2.2
  have hr := getRow_range ht0 ht1
  have hcl := getCol_range ht0
  obtain ⟨s2, e2, _, p1, p2, _⟩ := applyMove_spec (lifted s fromIdx) hr.1 hr.2 hcl.1 hcl.2
    (by simpa [lifted] using hf0)
  rw [he, e2]
  refine ⟨_, rfl, ?_⟩
  simp only [lifted] at p1 p2
  simp only [p1, p2]
  by_cases hp : (s.game.board fromIdx).piece = Piece.PAWN ∧
      (getRow toIdx - getRow fromIdx).natAbs = 2
  · simp only [if_pos hp]
    have hleg := ((isFullyLegal_iff s.game fromIdx toIdx).mp hl).1
    have hcd : getCol toIdx - getCol fromIdx = 0 := by
      rcases pawnLegal_true (isLegal_pawn hleg hp.1) with h1 | h1 | h1
      · exact h1.1
      · exact h1.1
      · have := hp.2; omega
    have hfr := getRow_range hf0 hf1
    have hdiv : Int.tdiv (getRow toIdx + getRow fromIdx) 2 =
        (getRow fromIdx + getRow toIdx) / 2 := by
      rw [Int.tdiv_eq_ediv (by omega) (by decide), Int.add_comm]
    have hcol : getCol toIdx = getCol fromIdx := by omega
    refine ⟨by rw [hdiv, hcol], ?_, hcol, trivial, hc⟩
    rw [hdiv, hcol]
    have e1 := getIdx_row_col hf0
    have e3 := getIdx_row_col ht0
    have hp2 := hp.2
    unfold getIdx at *
    omega
  · simp only [if_neg hp, and_self]

/-- Witness of C8: the double step e2-e4 (52 to 36) in the initial position. -/
theorem enPassant_after_move_witness :
    returnsMove (positionSession startPosition).game (positionSession startPosition).turn 52 36 ∧
    ∃ s2, pressRelease (positionSession startPosition) 52 36 = some s2 ∧
      (if ((positionSession startPosition).game.board 52).piece = Piece.PAWN ∧
          (getRow 36 - getRow 52).natAbs = 2 then
        s2.game.enPassantIdx = getIdx ((getRow 52 + getRow 36) / 2) (getCol 52) ∧
          s2.game.enPassantIdx + s2.game.enPassantIdx = 52 + 36 ∧
          getCol 36 = getCol 52 ∧
          s2.game.enPassantColor = ((positionSession startPosition).game.board 52).color ∧
          s2.game.enPassantColor = (positionSession startPosition).turn
      else s2.game.enPassantIdx = -1 ∧ s2.game.enPassantColor = Color.NONE) :=
  ⟨by decide!, enPassant_after_move (positionSession startPosition) 52 36 (by decide!)⟩

/-! ### C9: what stands on the destination after a move -/

/-- C9. For every session and every move that `computeLegalMoves` returns for the side to
move: the press on the source and the release on the destination return, and afterwards the
destination holds a queen of the mover's colour if the moved piece is a pawn and the
destination lies on row 0 or row 7, and in every other case exactly the piece and colour
that stood on the source. -/
theorem destination_after_move (s : Session) (fromIdx toIdx : Int)
    (h : returnsMove s.game s.turn fromIdx toIdx) :
    ∃ s2, pressRelease s fromIdx toIdx = some s2 ∧
      s2.game.board toIdx =
        (if (s.game.board fromIdx).piece = Piece.PAWN ∧ (getRow toIdx = 0 ∨ getRow toIdx = 7)
          then ⟨Piece.QUEEN, (s.game.board fromIdx).color⟩
          else s.game.board fromIdx) := by
  obtain ⟨⟨hf0, hf1⟩, ⟨ht0, ht1⟩, hl, he⟩ := pressRelease_legal s h
  have hr := getRow_range ht0 ht1
  have hcl := getCol_range ht0
  obtain ⟨s2, e2, _, _, _, p3⟩ := applyMove_spec (lifted s fromIdx) hr.1 hr.2 hcl.1 hcl.2
    (by simpa [lifted] using hf0)
  rw [he, e2]
  refine ⟨_, rfl, ?_⟩
  rw [getIdx_row_col ht0] at p3
  simpa only [lifted] using p3

/-- Witness of C9: the White pawn on a7 (8) moves to a8 (0) and becomes a queen. -/
theorem destination_after_move_witness :
    returnsMove (gameOf promotionBoard (-1) Color.NONE) Color.WHITE 8 0 ∧
    ∃ s2, pressRelease (sessionOf (gameOf promotionBoard (-1) Color.NONE) Color.WHITE) 8 0 =
        some s2 ∧
      s2.game.board 0 = ⟨Piece.QUEEN, Color.WHITE⟩ :=
  ⟨by decide!, destination_after_move
    (sessionOf (gameOf promotionBoard (-1) Color.NONE) Color.WHITE) 8 0 (by decide!)⟩

/-! ### Attacks on two boards that differ in a few squares -/

theorem pathClear_mono (b1 b2 : Board) {i k : Int} (hi0 : 0 ≤ i) (hi1 : i < 64)
    (hk0 : 0 ≤ k) (hk1 : k < 64) (al : aligned i k)
    (h : ∀ j ∈ between i k, (b1 j).piece = Piece.EMPTY → (b2 j).piece = Piece.EMPTY) :
    pathClear b1 i k = some true → pathClear b2 i k = some true := by
  rw [pathClear_aligned b1 hi0 hi1 hk0 hk1 al, pathClear_aligned b2 hi0 hi1 hk0 hk1 al]
  simp only [Option.some.injEq, List.all_eq_true, decide_eq_true_eq]
  intro h1 j hj
  exact h j hj (h1 j hj)

theorem isAttack_mono (b1 b2 : Board) (p : Piece) (col : Color) {i k : Int}
    (hi0 : 0 ≤ i) (hi1 : i < 64) (hk0 : 0 ≤ k) (hk1 : k < 64)
    (h : aligned i k → pathClear b1 i k = some true → pathClear b2 i k = some true) :
    isAttack b1 p col i k = some true → isAttack b2 p col i k = some true := by
  have tot : ∀ b : Board, aligned i k → ∃ r, pathClear b i k = some r := fun b al =>
    ⟨_, pathClear_aligned b hi0 hi1 hk0 hk1 al⟩
  unfold isAttack
  cases p with
  | EMPTY => exact id
  | PAWN => exact id
  | KNIGHT => exact id
  | KING => exact id
  | ROOK =>
    simp only
    by_cases h1 : getRow i = getRow k ∨ getCol i = getCol k
    · rw [if_pos h1, if_pos h1]
      exact h (h1.elim Or.inl (fun e => Or.inr (Or.inl e)))
    · rw [if_neg h1, if_neg h1]; exact id
  | BISHOP =>
    simp only
    by_cases h1 : (getRow k - getRow i).natAbs = (getCol k - getCol i).natAbs
    · rw [if_pos h1, if_pos h1]
      exact h (Or.inr (Or.inr h1))
    · rw [if_neg h1, if_neg h1]; exact id
  | QUEEN =>
    simp only
    by_cases h1 : getRow i = getRow k ∨ getCol i = getCol k
    · have al : aligned i k := h1.elim Or.inl (fun e => Or.inr (Or.inl e))
      rw [if_pos h1, if_pos h1]
      obtain ⟨r1, e1⟩ := tot b1 al
      obtain ⟨r2, e2⟩ := tot b2 al
      rw [e1, e2]
      cases r1 with
      | true =>
        have := h al e1
        rw [e2] at this
        cases this
        intro _; rfl
      | false =>
        cases r2 with
        | true => intro _; rfl
        | false =>
          simp only
          exact id
    · rw [if_neg h1, if_neg h1]
      simp only
      by_cases h2 : (getRow k - getRow i).natAbs = (getCol k - getCol i).natAbs
      · rw [if_pos h2, if_pos h2]
        exact h (Or.inr (Or.inr h2))
      · rw [if_neg h2, if_neg h2]; exact id

theorem isAttack_empty (b : Board) (col : Color) (i k : Int) :
    isAttack b Piece.EMPTY col i k = some false := rfl

theorem findKing_unique (b : Board) (c : Color) {k : Int} (hk0 : 0 ≤ k) (hk1 : k < 64)
    (hking : (b k).piece = Piece.KING ∧ (b k).color = c)
    (huniq : ∀ j, 0 ≤ j → j < 64 → (b j).piece = Piece.KING ∧ (b j).color = c → j = k) :
    findKing b c = k := by
  rcases findKing_spec b c with ⟨_, hn⟩ | ⟨h0, h1, hp⟩
  · exact absurd hking (hn k hk0 hk1)
  · exact huniq _ h0 h1 hp

theorem unique_of_count (b : Board) (c : Color) {home : Int} (h0 : 0 ≤ home) (h1 : home < 64)
    (hk : (b home).piece = Piece.KING ∧ (b home).color = c) (hcount : countKings b c = 1) :
    ∀ j, 0 ≤ j → j < 64 → (b j).piece = Piece.KING ∧ (b j).color = c → j = home := by
  intro j hj0 hj1 hj
  unfold countKings at hcount
  obtain ⟨a, ha⟩ := List.length_eq_one.mp hcount
  have m1 : home ∈ squares.filter
      (fun i => decide ((b i).piece = Piece.KING ∧ (b i).color = c)) := by
    simp only [List.mem_filter, mem_squares, decide_eq_true_eq]
    exact ⟨⟨h0, h1⟩, hk⟩
  have m2 : j ∈ squares.filter
      (fun i => decide ((b i).piece = Piece.KING ∧ (b i).color = c)) := by
    simp only [List.mem_filter, mem_squares, decide_eq_true_eq]
    exact ⟨⟨hj0, hj1⟩, hj⟩
  rw [ha] at m1 m2
  simp only [List.mem_singleton] at m1 m2
  rw [m1, m2]

theorem findKing_kingAt (b : Board) (c : Color) {home k : Int}
    (hk0 : 0 ≤ k) (hk1 : k < 64) (hne : k ≠ home)
    (huniq : ∀ j, 0 ≤ j → j < 64 → (b j).piece = Piece.KING ∧ (b j).color = c → j = home) :
    findKing (kingAt b c home k) c = k := by
  apply findKing_unique _ _ hk0 hk1
  · simp [kingAt, setSq, hne]
  · intro j hj0 hj1 hj
    by_contra hjk
    by_cases hjh : j = home
    · subst hjh
      simp [kingAt, setSq] at hj
    · have : kingAt b c home k j = b j := by simp [kingAt, setSq, hjh, hjk]
      rw [this] at hj
      exact hjh (huniq j hj0 hj1 hj)

theorem inCheck_kingAt_home (b : Board) (c : Color) {home : Int}
    (huniq : ∀ j, 0 ≤ j → j < 64 → (b j).piece = Piece.KING ∧ (b j).color = c → j = home) :
    inCheck (kingAt b c home home) c = false := by
  have hnone : findKing (kingAt b c home home) c = -1 := by
    rcases findKing_spec (kingAt b c home home) c with ⟨h, _⟩ | ⟨h0, h1, hp⟩
    · exact h
    · exfalso
      generalize findKing (kingAt b c home home) c = x at h0 h1 hp
      by_cases hjh : x = home
      · rw [hjh] at hp
        simp [kingAt, setSq] at hp
      · have : kingAt b c home home x = b x := by
          simp [kingAt, setSq, hjh]
        rw [this] at hp
        exact hjh (huniq _ h0 h1 hp)
  simp [inCheck, hnone]

theorem kingAt_other (b : Board) (c : Color) {home k j : Int} (h1 : j ≠ home) (h2 : j ≠ k) :
    kingAt b c home k j = b j := by
  simp [kingAt, setSq, h1, h2]

theorem kingAt_home (b : Board) (c : Color) (home k : Int) :
    kingAt b c home k home = emptySquare := by
  simp [kingAt, setSq]

theorem kingAt_king (b : Board) (c : Color) {home k : Int} (h : k ≠ home) :
    kingAt b c home k k = ⟨Piece.KING, c⟩ := by
  simp [kingAt, setSq, h]

theorem inCheck_kingAt_of_attacked (b : Board) (c : Color) {home k : Int}
    (hk0 : 0 ≤ k) (hk1 : k < 64) (hne : k ≠ home) (hhome : (b home).color = c)
    (hempty : (b k).piece = Piece.EMPTY)
    (huniq : ∀ j, 0 ≤ j → j < 64 → (b j).piece = Piece.KING ∧ (b j).color = c → j = home)
    (hatt : attacked b c k) : inCheck (kingAt b c home k) c = true := by
  unfold inCheck
  rw [findKing_kingAt b c hk0 hk1 hne huniq]
  simp only [decide_eq_true_eq]
  refine ⟨by omega, ?_⟩
  obtain ⟨i, hi, hc1, hc2, hat⟩ := hatt
  have hir := (mem_squares i).mp hi
  have hih : i ≠ home := fun e => hc2 (e ▸ hhome)
  have hik : i ≠ k := by
    intro e
    rw [e, hempty, isAttack_empty] at hat
    cases hat
  have hb : kingAt b c home k i = b i := kingAt_other b c hih hik
  refine ⟨i, hi, by rw [hb]; exact hc1, by rw [hb]; exact hc2, ?_⟩
  rw [hb]
  apply isAttack_mono b (kingAt b c home k) _ _ hir.1 hir.2 hk0 hk1 _ hat
  intro al
  apply pathClear_mono b (kingAt b c home k) hir.1 hir.2 hk0 hk1 al
  intro j hj hej
  have hjs := between_spec hir.1 hir.2 hk0 hk1 al j hj
  by_cases hjh : j = home
  · rw [hjh, kingAt_home]
  · rw [kingAt_other b c hjh hjs.2.2.2]; exact hej

theorem isAttack_path {b : Board} {p : Piece} {col : Color} {i k : Int}
    (hp : p = Piece.ROOK ∨ p = Piece.BISHOP ∨ p = Piece.QUEEN)
    (h : isAttack b p col i k = some true) :
    pathClear b i k = some true ∧
      (p = Piece.BISHOP → (getRow k - getRow i).natAbs = (getCol k - getCol i).natAbs) := by
  unfold isAttack at h
  rcases hp with rfl | rfl | rfl
  · simp only at h
    split at h
    · exact ⟨h, fun e => by cases e⟩
    · cases h
  · simp only at h
    split at h
    · rename_i hd; exact ⟨h, fun _ => hd⟩
    · cases h
  · simp only at h
    refine ⟨?_, fun e => by cases e⟩
    by_cases h1 : getRow i = getRow k ∨ getCol i = getCol k
    · rw [if_pos h1] at h
      cases hpc : pathClear b i k with
      | none => rw [hpc] at h; simp at h
      | some r =>
        cases r with
        | true => rfl
        | false =>
          rw [hpc] at h
          simp only at h
          split at h
          · exact h
          · cases h
    · rw [if_neg h1] at h
      simp only at h
      split at h
      · exact h
      · cases h

theorem isAttack_row {b : Board} {p : Piece} (col : Color) {i k : Int}
    (hp : p = Piece.ROOK ∨ p = Piece.QUEEN) (hrow : getRow i = getRow k)
    (h : pathClear b i k = some true) : isAttack b p col i k = some true := by
  unfold isAttack
  rcases hp with rfl | rfl
  · simp only [hrow, true_or, if_true, h]
  · simp only [hrow, true_or, if_true, h]

theorem isAttack_board (b1 b2 : Board) {p : Piece} (col : Color) (i k : Int)
    (hp : ¬ (p = Piece.ROOK ∨ p = Piece.BISHOP ∨ p = Piece.QUEEN)) :
    isAttack b1 p col i k = isAttack b2 p col i k := by
  cases p with
  | ROOK => exact absurd (Or.inl rfl) hp
  | BISHOP => exact absurd (Or.inr (Or.inl rfl)) hp
  | QUEEN => exact absurd (Or.inr (Or.inr rfl)) hp
  | EMPTY => rfl
  | PAWN => rfl
  | KNIGHT => rfl
  | KING => rfl

/-- On White's first rank, a walk of `pathClear` to f1 (61) or g1 (62) that passes e1 (60)
comes along the rank from the left, and what it reads before e1 it also reads as a walk to
e1. -/
theorem between_e1_fin : ∀ i : Fin 64, ∀ k : Fin 64, (k.val = 61 ∨ k.val = 62) →
    (60 : Int) ∈ between (Int.ofNat i.val) (Int.ofNat k.val) →
    getRow (Int.ofNat i.val) = getRow 60 ∧
      (getRow (Int.ofNat k.val) - getRow (Int.ofNat i.val)).natAbs ≠
        (getCol (Int.ofNat k.val) - getCol (Int.ofNat i.val)).natAbs ∧
      aligned (Int.ofNat i.val) 60 ∧
      ∀ j ∈ between (Int.ofNat i.val) 60, j ∈ between (Int.ofNat i.val) (Int.ofNat k.val) := by
  decide!

theorem not_inCheck_kingAt (b : Board) {k : Int} (hk : k = 61 ∨ k = 62)
    (huniq : ∀ j, 0 ≤ j → j < 64 →
      (b j).piece = Piece.KING ∧ (b j).color = Color.WHITE → j = 60)
    (hn60 : ¬ attacked b Color.WHITE 60) (hnk : ¬ attacked b Color.WHITE k) :
    inCheck (kingAt b Color.WHITE 60 k) Color.WHITE = false := by
  have hk0 : 0 ≤ k := by omega
  have hk1 : k < 64 := by omega
  have hne : k ≠ 60 := by omega
  cases hchk : inCheck (kingAt b Color.WHITE 60 k) Color.WHITE with
  | false => rfl
  | true =>
    exfalso
    unfold inCheck at hchk
    rw [findKing_kingAt b Color.WHITE hk0 hk1 hne huniq] at hchk
    simp only [decide_eq_true_eq] at hchk
    obtain ⟨i, hi, hc1, hc2, hat⟩ := hchk.2
    have hir := (mem_squares i).mp hi
    have hih : i ≠ 60 := by
      intro e; rw [e, kingAt_home] at hc1; exact hc1 rfl
    have hik : i ≠ k := by
      intro e; rw [e, kingAt_king b Color.WHITE hne] at hc2; exact hc2 rfl
    have hb : kingAt b Color.WHITE 60 k i = b i := kingAt_other b Color.WHITE hih hik
    rw [hb] at hc1 hc2 hat
    by_cases hmem : (60 : Int) ∈ between i k
    · have hF := forall_square2 (P := fun i k => (k = 61 ∨ k = 62) → (60 : Int) ∈ between i k →
          getRow i = getRow 60 ∧
          (getRow k - getRow i).natAbs ≠ (getCol k - getCol i).natAbs ∧ aligned i 60 ∧
          ∀ j ∈ between i 60, j ∈ between i k)
        (fun a c h => between_e1_fin a c (by
          simp only [Int.ofNat_eq_coe] at h
          omega))
        hir.1 hir.2 hk0 hk1 hk hmem
      obtain ⟨hrow, hndiag, hal60, hsub⟩ := hF
      by_cases hp : (b i).piece = Piece.ROOK ∨ (b i).piece = Piece.BISHOP ∨
          (b i).piece = Piece.QUEEN
      · obtain ⟨hpath, hbish⟩ := isAttack_path hp hat
        have hrq : (b i).piece = Piece.ROOK ∨ (b i).piece = Piece.QUEEN := by
          rcases hp with h | h | h
          · exact Or.inl h
          · exact absurd (hbish h) hndiag
          · exact Or.inr h
        have hrowk : getRow i = getRow k := by
          rw [hrow]; rcases hk with rfl | rfl <;> decide
        have halk : aligned i k := Or.inl hrowk
        rw [pathClear_aligned _ hir.1 hir.2 hk0 hk1 halk] at hpath
        simp only [Option.some.injEq, List.all_eq_true, decide_eq_true_eq] at hpath
        have hp60 : pathClear b i 60 = some true := by
          rw [pathClear_aligned b hir.1 hir.2 (by omega) (by omega) hal60]
          simp only [Option.some.injEq, List.all_eq_true, decide_eq_true_eq]
          intro j hj
          have hj1 := between_spec hir.1 hir.2 (by omega) (by omega) hal60 j hj
          have hj2 := between_spec hir.1 hir.2 hk0 hk1 halk j (hsub j hj)
          have := hpath j (hsub j hj)
          rwa [kingAt_other b Color.WHITE hj1.2.2.2 hj2.2.2.2] at this
        exact hn60 ⟨i, hi, hc1, hc2, isAttack_row _ hrq hrow hp60⟩
      · apply hnk
        refine ⟨i, hi, hc1, hc2, ?_⟩
        rw [isAttack_board b (kingAt b Color.WHITE 60 k) _ i k hp]
        exact hat
    · apply hnk
      refine ⟨i, hi, hc1, hc2, ?_⟩
      apply isAttack_mono (kingAt b Color.WHITE 60 k) b _ _ hir.1 hir.2 hk0 hk1 _ hat
      intro al
      apply pathClear_mono (kingAt b Color.WHITE 60 k) b hir.1 hir.2 hk0 hk1 al
      intro j hj hej
      have hjs := between_spec hir.1 hir.2 hk0 hk1 al j hj
      have hj60 : j ≠ 60 := fun e => hmem (e ▸ hj)
      rwa [kingAt_other b Color.WHITE hj60 hjs.2.2.2] at hej

theorem isLegal_king (g : Game) (c : Color) {f t : Int} (hf0 : 0 ≤ f) (hf1 : f < 64)
    (ht0 : 0 ≤ t) (ht1 : t < 64) (hk : g.board f = ⟨Piece.KING, c⟩) (hc : c ≠ Color.NONE)
    (ht : (g.board t).color ≠ c) : isLegal g f t = kingLegalB g c f t := by
  have hr : ¬ (f < 0 ∨ f ≥ BOARD_SIZE ∨ t < 0 ∨ t ≥ BOARD_SIZE) := by
    simp only [BOARD_SIZE]; omega
  have h1 : ¬ ((g.board f).piece = Piece.EMPTY ∨ (g.board f).color = Color.NONE) := by
    rw [hk]; simp [hc]
  have h2 : ¬ (g.board t).color = (g.board f).color := by rw [hk]; exact ht
  unfold isLegal isMoveLegal
  simp only [if_neg hr, readSq, hf0, hf1, ht0, ht1, and_self, if_true, if_neg h1, if_neg h2]
  rw [hk]
  simp only
  rw [kingLegal_eq g c hf0 hf1 ht0 ht1 hk]

theorem simBoard_king (b : Board) (c : Color) (f t : Int) (hk : b f = ⟨Piece.KING, c⟩) :
    simBoard b f t = kingAt b c f t := by
  unfold simBoard kingAt
  rw [hk]

/-! ### C4: White castles king-side -/

/-- C4. For every session with White to move in which the White king stands on e1 (60), a
White rook on h1 (63), `whiteKingMoved` and `whiteRightRookMoved` are false, f1 (61) and
g1 (62) are empty, there is exactly one White king, and no enemy piece attacks e1, f1 or g1
under the geometry of `kingInCheck`: the move 60 to 62 is returned by
`computeLegalMoves(60, WHITE)`, and the press on 60 followed by the release on 62 returns
with the king on 62, the rook on 61, the squares 60 and 63 empty and both flags true. -/
theorem white_castles_kingside (s : Session) (hturn : s.turn = Color.WHITE)
    (hking : s.game.board 60 = ⟨Piece.KING, Color.WHITE⟩)
    (hrook : s.game.board 63 = ⟨Piece.ROOK, Color.WHITE⟩)
    (hkm : s.game.whiteKingMoved = false) (hrm : s.game.whiteRightRookMoved = false)
    (h61 : s.game.board 61 = emptySquare) (h62 : s.game.board 62 = emptySquare)
    (hone : countKings s.game.board Color.WHITE = 1)
    (hsafe : ¬ attacked s.game.board Color.WHITE 60 ∧ ¬ attacked s.game.board Color.WHITE 61 ∧
      ¬ attacked s.game.board Color.WHITE 62) :
    returnsMove s.game Color.WHITE 60 62 ∧
    ∃ s2, pressRelease s 60 62 = some s2 ∧
      s2.game.board 62 = ⟨Piece.KING, Color.WHITE⟩ ∧
      s2.game.board 61 = ⟨Piece.ROOK, Color.WHITE⟩ ∧
      s2.game.board 60 = emptySquare ∧ s2.game.board 63 = emptySquare ∧
      s2.game.whiteKingMoved = true ∧ s2.game.whiteRightRookMoved = true := by
  have huniq := @unique_of_count s.game.board Color.WHITE 60 (by decide) (by decide)
    (by rw [hking]; exact ⟨rfl, rfl⟩) hone
  have r60 : getRow 60 = 7 := by decide
  have c60 : getCol 60 = 4 := by decide
  have r62 : getRow 62 = 7 := by decide
  have c62 : getCol 62 = 6 := by decide
  have i60 : getIdx 7 4 = 60 := by decide
  have i61 : getIdx 7 (4 + 1) = 61 := by decide
  have i62 : getIdx 7 (4 + 2) = 62 := by decide
  have i63 : getIdx 7 7 = 63 := by decide
  have hbtw : between 60 63 = [61, 62] := by decide
  have hs1 := not_inCheck_kingAt s.game.board (Or.inl rfl) huniq hsafe.1 hsafe.2.1
  have hs2 := not_inCheck_kingAt s.game.board (Or.inr rfl) huniq hsafe.1 hsafe.2.2
  have hs0 := inCheck_kingAt_home s.game.board Color.WHITE huniq
  have hlegal : isLegal s.game 60 62 = true := by
    rw [isLegal_king s.game Color.WHITE (by decide) (by decide) (by decide) (by decide) hking
      (by decide) (by rw [h62]; decide)]
    unfold kingLegalB castleB
    have i61b : getIdx 7 5 = 61 := by decide
    have i62b : getIdx 7 6 = 62 := by decide
    simp [r60, c60, r62, c62, i60, i61b, i62b, i63, hbtw, hkm, hrm, h61, h62, hs0, hs1, hs2]
  have hfull : isFullyLegal s.game 60 62 = true := by
    rw [isFullyLegal_iff]
    refine ⟨hlegal, ?_⟩
    rw [simBoard_king s.game.board Color.WHITE 60 62 hking, hking]
    exact hs2
  have hret : returnsMove s.game Color.WHITE 60 62 := by
    rw [returnsMove_iff]
    exact ⟨⟨by decide, by decide, by rw [hking]⟩, ⟨by decide, by decide⟩, hfull⟩
  refine ⟨hret, ?_⟩
  have hret2 : returnsMove s.game s.turn 60 62 := by rw [hturn]; exact hret
  obtain ⟨_, _, _, he⟩ := pressRelease_legal s hret2
  rw [he, r62, c62]
  have i76 : getIdx 7 6 = 62 := by decide
  have i75 : getIdx 7 (6 - 1) = 61 := by decide
  rw [applyMove_eq]
  unfold applyMutations applyPawn applyCastle
  simp only [lifted, hking, r60, c60, i76, i75, i63, readSq, writeSq, applyFlags,
    applyPromotion, kingInCheck_inCheck, hasLegalMoves_eq, hturn, BOARD_SIZE]
  simp [setSq, hrook]

/-- Witness of C4: `castleBoard`, all flags clear, White to move. -/
theorem white_castles_kingside_witness :
    returnsMove (gameOf castleBoard (-1) Color.NONE) Color.WHITE 60 62 ∧
    ∃ s2, pressRelease (sessionOf (gameOf castleBoard (-1) Color.NONE) Color.WHITE) 60 62 =
        some s2 ∧
      s2.game.board 62 = ⟨Piece.KING, Color.WHITE⟩ ∧
      s2.game.board 61 = ⟨Piece.ROOK, Color.WHITE⟩ ∧
      s2.game.board 60 = emptySquare ∧ s2.game.board 63 = emptySquare ∧
      s2.game.whiteKingMoved = true ∧ s2.game.whiteRightRookMoved = true :=
  white_castles_kingside (sessionOf (gameOf castleBoard (-1) Color.NONE) Color.WHITE) rfl
    (by decide) (by decide) rfl rfl (by decide) (by decide) (by decide!) (by decide!)

/-! ### C5: castling through or onto an attacked square -/

theorem isLegal_same_color (g : Game) {f t : Int}
    (h : (g.board t).color = (g.board f).color) : isLegal g f t = false := by
  unfold isLegal isMoveLegal
  by_cases hr : f < 0 ∨ f ≥ BOARD_SIZE ∨ t < 0 ∨ t ≥ BOARD_SIZE
  · rw [if_pos hr]
  · rw [if_neg hr]
    have hf0 : 0 ≤ f := by omega
    have hf1 : f < 64 := by simp only [BOARD_SIZE] at hr; omega
    have ht0 : 0 ≤ t := by omega
    have ht1 : t < 64 := by simp only [BOARD_SIZE] at hr; omega
    simp only [readSq, hf0, hf1, ht0, ht1, and_self, if_true, h]
    by_cases h1 : (g.board f).piece = Piece.EMPTY ∨ (g.board f).color = Color.NONE
    · rw [if_pos h1]
    · rw [if_neg h1]

theorem castle_blocked (g : Game) (c : Color) {home pass land : Int}
    (hh0 : 0 ≤ home) (hh1 : home < 64) (hp0 : 0 ≤ pass) (hp1 : pass < 64)
    (hl0 : 0 ≤ land) (hl1 : land < 64) (hph : pass ≠ home) (hlh : land ≠ home)
    (hking : g.board home = ⟨Piece.KING, c⟩) (hc : c ≠ Color.NONE)
    (huniq : ∀ j, 0 ≤ j → j < 64 →
      (g.board j).piece = Piece.KING ∧ (g.board j).color = c → j = home)
    (hgeo : (getCol land - getCol home = 2 ∧
        pass = getIdx (getRow home) (getCol home + 1) ∧
        land = getIdx (getRow home) (getCol home + 2)) ∨
      (getCol land - getCol home = -2 ∧
        pass = getIdx (getRow home) (getCol home - 1) ∧
        land = getIdx (getRow home) (getCol home - 2)))
    (hpe : (g.board pass).piece = Piece.EMPTY) (hle : (g.board land).piece = Piece.EMPTY)
    (hatt : attacked g.board c pass ∨ attacked g.board c land) :
    isLegal g home land = false := by
  by_cases hcl : (g.board land).color = c
  · exact isLegal_same_color g (by rw [hking]; exact hcl)
  · rw [isLegal_king g c hh0 hh1 hl0 hl1 hking hc hcl]
    have hcol : (g.board home).color = c := by rw [hking]
    have hchk : inCheck (kingAt g.board c home pass) c = true ∨
        inCheck (kingAt g.board c home land) c = true := by
      rcases hatt with h | h
      · exact Or.inl (inCheck_kingAt_of_attacked g.board c hp0 hp1 hph hcol hpe huniq h)
      · exact Or.inr (inCheck_kingAt_of_attacked g.board c hl0 hl1 hlh hcol hle huniq h)
    have hna : ¬ ((getRow land - getRow home).natAbs ≤ 1 ∧
        (getCol land - getCol home).natAbs ≤ 1) := by
      intro h
      have := h.2
      rcases hgeo with ⟨h1, _, _⟩ | ⟨h1, _, _⟩ <;> omega
    unfold kingLegalB castleB
    simp only [if_neg hna]
    by_cases hcond : (if c = Color.WHITE then g.whiteKingMoved else g.blackKingMoved) = false ∧
        getRow land - getRow home = 0 ∧ (getCol land - getCol home).natAbs = 2
    · rw [if_pos hcond]
      rcases hgeo with ⟨h1, h2, h3⟩ | ⟨h1, h2, h3⟩
      · have hpos : getCol land - getCol home > 0 := by omega
        simp only [if_pos hpos, List.all_cons, ← h2, ← h3]
        rcases hchk with h | h <;> simp [h]
      · have hpos : ¬ getCol land - getCol home > 0 := by omega
        simp only [if_neg hpos, List.all_cons, ← h2, ← h3]
        rcases hchk with h | h <;> simp [h]
    · rw [if_neg hcond]

/-- C5. For every game state with exactly one king of each colour in which a king whose
moved flag is clear stands on its home square (60 for White, 4 for Black) and the squares
between it and the corner are empty: if an enemy piece attacks the square the king would
pass over or the square it would land on, king-side (home + 1, home + 2) or queen-side
(home - 1, home - 2), then the two-column king move is not among the moves
`computeLegalMoves` returns. -/
theorem castle_through_attack (g : Game) (c : Color) (home : Int) (kingside : Bool)
    (hhome : (c = Color.WHITE ∧ home = 60) ∨ (c = Color.BLACK ∧ home = 4))
    (hking : g.board home = ⟨Piece.KING, c⟩)
    (hflag : (if c = Color.WHITE then g.whiteKingMoved else g.blackKingMoved) = false)
    (hone : countKings g.board Color.WHITE = 1 ∧ countKings g.board Color.BLACK = 1)
    (hempty : ∀ j, (if kingside = true then home < j ∧ j < home + 3
      else home - 4 < j ∧ j < home) → (g.board j).piece = Piece.EMPTY)
    (hatt : attacked g.board c (if kingside = true then home + 1 else home - 1) ∨
      attacked g.board c (if kingside = true then home + 2 else home - 2)) :
    ¬ returnsMove g c home (if kingside = true then home + 2 else home - 2) := by
  intro hret
  have hfull := ((returnsMove_iff _ _ _ _).mp hret).2.2
  have hlegal := ((isFullyLegal_iff _ _ _).mp hfull).1
  have hcount : countKings g.board c = 1 := by
    rcases hhome with ⟨rfl, _⟩ | ⟨rfl, _⟩
    · exact hone.1
    · exact hone.2
  have hcne : c ≠ Color.NONE := by
    rcases hhome with ⟨rfl, _⟩ | ⟨rfl, _⟩ <;> decide
  have hhr : 0 ≤ home ∧ home < 64 := by
    rcases hhome with ⟨_, rfl⟩ | ⟨_, rfl⟩ <;> decide
  have huniq := unique_of_count g.board c hhr.1 hhr.2 (by rw [hking]; exact ⟨rfl, rfl⟩) hcount
  have hfalse : isLegal g home (if kingside = true then home + 2 else home - 2) = false := by
    cases kingside with
    | true =>
      simp only [if_true] at hatt hempty ⊢
      apply @castle_blocked g c home (home + 1) (home + 2) hhr.1 hhr.2 (by omega)
        (by rcases hhome with ⟨_, rfl⟩ | ⟨_, rfl⟩ <;> decide) (by omega)
        (by rcases hhome with ⟨_, rfl⟩ | ⟨_, rfl⟩ <;> decide) (by omega) (by omega)
        hking hcne huniq _ (hempty _ (by omega)) (hempty _ (by omega)) hatt
      left
      rcases hhome with ⟨_, rfl⟩ | ⟨_, rfl⟩ <;> decide
    | false =>
      simp only [Bool.false_eq_true, if_false] at hatt hempty ⊢
      apply @castle_blocked g c home (home - 1) (home - 2) hhr.1 hhr.2
        (by rcases hhome with ⟨_, rfl⟩ | ⟨_, rfl⟩ <;> decide) (by omega)
        (by rcases hhome with ⟨_, rfl⟩ | ⟨_, rfl⟩ <;> decide) (by omega) (by omega) (by omega)
        hking hcne huniq _ (hempty _ (by omega)) (hempty _ (by omega)) hatt
      right
      rcases hhome with ⟨_, rfl⟩ | ⟨_, rfl⟩ <;> decide
  rw [hfalse] at hlegal
  cases hlegal

/-- Witness of C5: on `attackedBoard` the Black rook on f8 attacks f1, and White's e1-g1 is
not returned. -/
theorem castle_through_attack_witness :
    attacked attackedBoard Color.WHITE 61 ∧
    ¬ returnsMove (gameOf attackedBoard (-1) Color.NONE) Color.WHITE 60 62 :=
  ⟨by decide!, castle_through_attack (gameOf attackedBoard (-1) Color.NONE) Color.WHITE 60 true
    (Or.inl ⟨rfl, rfl⟩) (by decide) rfl (by decide!)
    (by
      intro j hj
      simp only [if_true] at hj
      have : j = 61 ∨ j = 62 := by omega
      rcases this with rfl | rfl <;> decide)
    (Or.inl (by decide!))⟩

/-! ### Written-out positions -/

theorem tidy_boardOfText (rows : List String) : tidy (boardOfText rows) := by
  intro j hj
  simp only [boardOfText, if_neg hj]

theorem tidy_setSq {b : Board} (h : tidy b) {i : Int} (hi : 0 ≤ i ∧ i < 64) (sq : Square) :
    tidy (setSq b i sq) := by
  intro j hj
  have hne : j ≠ i := fun e => hj (e ▸ hi)
  rw [setSq_other _ _ hne]
  exact h j hj

theorem tidy_writeSq {b b2 : Board} (h : tidy b) {i : Int} {sq : Square}
    (hw : writeSq b i sq = some b2) : tidy b2 := by
  unfold writeSq at hw
  by_cases hi : 0 ≤ i ∧ i < BOARD_SIZE
  · rw [if_pos hi] at hw
    simp only [Option.some.injEq] at hw
    rw [← hw]
    exact tidy_setSq h hi sq
  · rw [if_neg hi] at hw
    cases hw

theorem tidy_ext {b b2 : Board} (h : tidy b) (h2 : tidy b2)
    (he : squares.all (fun i => decide (b i = b2 i)) = true) : b = b2 := by
  funext j
  by_cases hj : 0 ≤ j ∧ j < 64
  · simp only [List.all_eq_true, decide_eq_true_eq] at he
    exact he j ((mem_squares j).mpr hj)
  · rw [h j hj, h2 j hj]

theorem tidy_foldl (idx : Int → Int) (sq : Int → Square) :
    ∀ (l : List Int) (b : Board), (∀ x ∈ l, 0 ≤ idx x ∧ idx x < 64) → tidy b →
      tidy (l.foldl (fun bd x => setSq bd (idx x) (sq x)) b) := by
  intro l
  induction l with
  | nil => intro b _ hb; exact hb
  | cons x rest ih =>
    intro b hl hb
    simp only [List.foldl_cons]
    exact ih _ (fun y hy => hl y (List.mem_cons_of_mem _ hy))
      (tidy_setSq hb (hl x (List.mem_cons_self _ _)) _)

theorem mem_columns (i : Int) : i ∈ columns ↔ 0 ≤ i ∧ i < 8 := by
  unfold columns
  simp only [List.mem_map, List.mem_range]
  constructor
  · rintro ⟨n, hn, rfl⟩
    simp only [Int.ofNat_eq_coe]; omega
  · rintro ⟨h0, h1⟩
    exact ⟨i.toNat, by omega, by simp only [Int.ofNat_eq_coe]; omega⟩

theorem tidy_initialBoard {b : Board} (h : tidy b) : tidy (initialBoard b) := by
  unfold initialBoard
  have hc : ∀ r : Int, 0 ≤ r → r < 8 →
      ∀ x ∈ columns, 0 ≤ getIdx r x ∧ getIdx r x < 64 := by
    intro r h0 h1 x hx
    have := (mem_columns x).mp hx
    exact getIdx_range h0 h1 this.1 this.2
  exact tidy_foldl _ _ _ _ (hc 7 (by decide) (by decide))
    (tidy_foldl _ _ _ _ (hc 0 (by decide) (by decide))
      (tidy_foldl _ _ _ _ (hc 6 (by decide) (by decide))
        (tidy_foldl _ _ _ _ (hc 1 (by decide) (by decide))
          (tidy_foldl (fun x => x) _ _ _ (fun x hx => (mem_squares x).mp hx) h))))

/-- The position `initializeBoard` produces at program start is the standard arrangement,
written out. -/
theorem initialSession_eq : initialSession = positionSession startPosition := by
  have hb : initialBoard programStart.board = boardOfText startPosition.rows := by
    apply tidy_ext (tidy_initialBoard (fun _ _ => rfl)) (tidy_boardOfText _)
    decide!
  unfold initialSession initializeBoard positionSession
  rw [hb]
  rfl

theorem applyPawn_tidy {g g1 : Game} {held : Square} {row col fromRow fromCol targetIdx : Int}
    (he : applyPawn g held row col fromRow fromCol targetIdx = some g1) (h : tidy g.board) :
    tidy g1.board := by
  unfold applyPawn at he
  simp only at he
  split_ifs at he
  all_goals
    first
    | (simp only [Option.some.injEq] at he; rw [← he]; exact h)
    | (cases hr : readSq _ targetIdx with
       | none => rw [hr] at he; cases he
       | some target =>
         rw [hr] at he
         simp only at he
         split_ifs at he
         all_goals
           first
           | (simp only [Option.some.injEq] at he; rw [← he]; exact h)
           | (simp only [Option.map_eq_some'] at he
              obtain ⟨b, hb, hg⟩ := he
              rw [← hg]
              exact tidy_writeSq h hb))

theorem readSq_range {b : Board} {i : Int} {sq : Square} (h : readSq b i = some sq) :
    0 ≤ i ∧ i < 64 := by
  unfold readSq at h
  by_cases hi : 0 ≤ i ∧ i < BOARD_SIZE
  · exact hi
  · rw [if_neg hi] at h; cases h

theorem applyCastle_tidy {g g2 : Game} {held : Square} {row col fromCol : Int}
    (h : tidy g.board) (he : applyCastle g held row col fromCol = some g2) :
    tidy g2.board := by
  unfold applyCastle at he
  simp only at he
  split_ifs at he
  all_goals
    first
    | (simp only [Option.some.injEq] at he; rw [← he]; exact h)
    | (cases hr : readSq g.board (getIdx row 7) with
       | none => rw [hr] at he; cases he
       | some rook =>
         rw [hr] at he
         simp only at he
         cases hw : writeSq g.board (getIdx row (col - 1)) rook with
         | none => rw [hw] at he; cases he
         | some b1 =>
           rw [hw] at he
           simp only [Option.some.injEq] at he
           rw [← he]
           exact tidy_setSq (tidy_writeSq h hw) (readSq_range hr) _)
    | (cases hr : readSq g.board (getIdx row 0) with
       | none => rw [hr] at he; cases he
       | some rook =>
         rw [hr] at he
         simp only at he
         cases hw : writeSq g.board (getIdx row (col + 1)) rook with
         | none => rw [hw] at he; cases he
         | some b1 =>
           rw [hw] at he
           simp only [Option.some.injEq] at he
           rw [← he]
           exact tidy_setSq (tidy_writeSq h hw) (readSq_range hr) _)

theorem writeSq_range {b b2 : Board} {i : Int} {sq : Square} (h : writeSq b i sq = some b2) :
    (0 ≤ i ∧ i < 64) ∧ b2 = setSq b i sq := by
  unfold writeSq at h
  by_cases hi : 0 ≤ i ∧ i < BOARD_SIZE
  · rw [if_pos hi] at h
    simp only [Option.some.injEq] at h
    exact ⟨hi, h.symm⟩
  · rw [if_neg hi] at h; cases h

theorem applyMutations_tidy {s s1 : Session} {row col : Int} (h : tidy s.game.board)
    (he : applyMutations s row col = some s1) : tidy s1.game.board := by
  unfold applyMutations at he
  simp only at he
  cases h1 : applyPawn { s.game with enPassantIdx := -1, enPassantColor := Color.NONE } s.held
      row col (getRow s.heldIdx) (getCol s.heldIdx) (getIdx row col) with
  | none => rw [h1] at he; cases he
  | some g1 =>
    rw [h1] at he
    simp only at he
    have t1 : tidy g1.board := applyPawn_tidy h1 h
    cases h2 : applyCastle g1 s.held row col (getCol s.heldIdx) with
    | none => rw [h2] at he; cases he
    | some g2 =>
      rw [h2] at he
      simp only at he
      have t2 : tidy g2.board := applyCastle_tidy t1 h2
      cases h3 : writeSq g2.board (getIdx row col) s.held with
      | none => rw [h3] at he; cases he
      | some b3 =>
        rw [h3] at he
        simp only [Option.some.injEq] at he
        have t3 : tidy b3 := tidy_writeSq t2 h3
        have hr := (writeSq_range h3).1
        rw [← he]
        simp only [applyPromotion]
        split
        · simp only [(applyFlags_frame _ _ _).1]
          exact tidy_setSq t3 hr _
        · simp only [(applyFlags_frame _ _ _).1]
          exact t3

theorem sameCore_of_coreEqB {s s2 : Session} (h1 : tidy s.game.board)
    (h2 : tidy s2.game.board) (h : coreEqB s s2 = true) : sameCore s s2 := by
  unfold coreEqB at h
  simp only [Bool.and_eq_true, decide_eq_true_eq] at h
  exact ⟨tidy_ext h1 h2 h.1, h.2⟩

theorem isFullyLegal_core {g g2 : Game} (hb : g.board = g2.board)
    (h1 : g.enPassantIdx = g2.enPassantIdx) (h2 : g.enPassantColor = g2.enPassantColor)
    (h3 : g.whiteKingMoved = g2.whiteKingMoved) (h4 : g.blackKingMoved = g2.blackKingMoved)
    (h5 : g.whiteLeftRookMoved = g2.whiteLeftRookMoved)
    (h6 : g.whiteRightRookMoved = g2.whiteRightRookMoved)
    (h7 : g.blackLeftRookMoved = g2.blackLeftRookMoved)
    (h8 : g.blackRightRookMoved = g2.blackRightRookMoved) (f t : Int) :
    isFullyLegal g f t = isFullyLegal g2 f t := by
  cases g
  cases g2
  simp only at hb h1 h2 h3 h4 h5 h6 h7 h8
  subst hb h1 h2 h3 h4 h5 h6 h7 h8
  rfl

theorem lifted_core {s s2 : Session} (h : sameCore s s2) (f : Int) :
    lifted s f = lifted s2 f := by
  obtain ⟨hb, h1, h2, h3, h4, h5, h6, h7, h8, ht⟩ := h
  have hl : ∀ x, isFullyLegal s.game f x = isFullyLegal s2.game f x :=
    isFullyLegal_core hb h1 h2 h3 h4 h5 h6 h7 h8 f
  unfold lifted
  simp only [hb, h1, h2, h3, h4, h5, h6, h7, h8, ht, hl]

theorem returnsMove_core {s s2 : Session} (h : sameCore s s2) (f t : Int) :
    returnsMove s.game s.turn f t ↔ returnsMove s2.game s2.turn f t := by
  rw [returnsMove_iff, returnsMove_iff]
  obtain ⟨hb, h1, h2, h3, h4, h5, h6, h7, h8, ht⟩ := h
  rw [isFullyLegal_core hb h1 h2 h3 h4 h5 h6 h7 h8 f t, hb, ht]

theorem pressRelease_core {s s2 : Session} (h : sameCore s s2) {f t : Int}
    (hr : returnsMove s.game s.turn f t) : pressRelease s f t = pressRelease s2 f t := by
  have hr2 := (returnsMove_core h f t).mp hr
  rw [(pressRelease_legal s hr).2.2.2, (pressRelease_legal s2 hr2).2.2.2, lifted_core h f]

theorem playLegal_core {α : Type} (obs : Session → α)
    (hobs : ∀ s s2, sameCore s s2 → obs s = obs s2) {s s2 : Session} (h : sameCore s s2)
    (moves : List (Int × Int)) :
    (playLegal s moves).map obs = (playLegal s2 moves).map obs := by
  cases moves with
  | nil => simp only [playLegal, Option.map_some', hobs s s2 h]
  | cons m rest =>
    obtain ⟨f, t⟩ := m
    unfold playLegal
    by_cases hr : returnsMove s.game s.turn f t
    · have hr2 := (returnsMove_core h f t).mp hr
      rw [if_pos hr, if_pos hr2, pressRelease_core h hr]
    · have hr2 : ¬ returnsMove s2.game s2.turn f t := fun e => hr ((returnsMove_core h f t).mpr e)
      rw [if_neg hr, if_neg hr2]

theorem stepCheck_sound {c c2 : Session} {f t : Int} (h1 : tidy c.game.board)
    (h2 : tidy c2.game.board) (h : stepCheck c f t c2 = true) :
    returnsMove c.game c.turn f t ∧ ∃ s2, pressRelease c f t = some s2 ∧ sameCore s2 c2 := by
  unfold stepCheck at h
  simp only [Bool.and_eq_true, decide_eq_true_eq] at h
  obtain ⟨⟨hf0, hf1, ht0, ht1, hc⟩, hl, hm⟩ := h
  have hr : returnsMove c.game c.turn f t :=
    (returnsMove_iff _ _ _ _).mpr ⟨⟨hf0, hf1, hc⟩, ⟨ht0, ht1⟩, hl⟩
  refine ⟨hr, ?_⟩
  rw [(pressRelease_legal c hr).2.2.2, applyMove_eq]
  cases ha : applyMutations (lifted c f) (getRow t) (getCol t) with
  | none => rw [ha] at hm; cases hm
  | some s1 =>
    rw [ha] at hm
    simp only at hm
    have ht1 : tidy s1.game.board :=
      applyMutations_tidy (s := lifted c f) (tidy_setSq h1 ⟨hf0, hf1⟩ _) ha
    have hs := sameCore_of_coreEqB ht1 h2 hm
    exact ⟨_, rfl, hs⟩

theorem checkLine_sound {α : Type} (obs : Session → α)
    (hobs : ∀ s s2, sameCore s s2 → obs s = obs s2) :
    ∀ (moves : List (Int × Int)) (positions : List Position) (c : Session),
      tidy c.game.board → checkLine c moves positions = true →
      (playLegal c moves).map obs = some (obs (lineEnd c positions)) := by
  intro moves
  induction moves with
  | nil =>
    intro positions c _ h
    cases positions with
    | nil => rfl
    | cons p ps => simp [checkLine] at h
  | cons m rest ih =>
    intro positions c hc h
    obtain ⟨f, t⟩ := m
    cases positions with
    | nil => simp [checkLine] at h
    | cons p ps =>
      simp only [checkLine, Bool.and_eq_true] at h
      have hp : tidy (positionSession p).game.board := tidy_boardOfText _
      obtain ⟨hr, s2, hs2, hcore⟩ := stepCheck_sound hc hp h.1
      have e1 : playLegal c ((f, t) :: rest) = playLegal s2 rest := by
        rw [playLegal, if_pos hr, hs2]
      rw [e1, playLegal_core obs hobs hcore rest, ih ps (positionSession p) hp h.2]
      congr 1
      cases ps with
      | nil => rfl
      | cons q qs => simp [lineEnd, List.getLast?]

/-! ### C2: the initial position -/

/-- C2. On the position `initializeBoard` produces when the program starts:
`hasLegalMoves(WHITE)` is true, `kingInCheck(WHITE)` and `kingInCheck(BLACK)` are false, and
the moves `computeLegalMoves(from, WHITE)` returns over all 64 sources number 20, of which 16
start from a pawn and 4 from a knight. -/
theorem initial_position :
    (hasLegalMoves initialSession.game Color.WHITE).map Prod.fst = some true ∧
    kingInCheck initialSession.game.board Color.WHITE = some false ∧
    kingInCheck initialSession.game.board Color.BLACK = some false ∧
    (legalMovesOf initialSession.game Color.WHITE).map (fun l =>
      (l.length,
       (l.filter (fun m => decide ((initialSession.game.board m.fromIdx).piece =
          Piece.PAWN))).length,
       (l.filter (fun m => decide ((initialSession.game.board m.fromIdx).piece =
          Piece.KNIGHT))).length)) = some (20, 16, 4) := by
  rw [initialSession_eq]
  decide!

/-! ### C1, C6, C7: positions on which the code leaves or puts a king in check -/

/-- C1 fails on `pinnedGame`, White to move: the en-passant capture e5xd6 (28 to 19) is
returned by `computeLegalMoves`, and on the board after the move application (which removes
the pawn on d5) `kingInCheck(WHITE)` is true. Each colour has one king before and after. -/
theorem enPassant_exposes_king :
    countKings pinnedGame.board Color.WHITE = 1 ∧
    countKings pinnedGame.board Color.BLACK = 1 ∧
    kingInCheck pinnedGame.board Color.WHITE = some false ∧
    returnsMove pinnedGame Color.WHITE 28 19 ∧
    (pressRelease (sessionOf pinnedGame Color.WHITE) 28 19).map
      (fun s2 => (kingInCheck s2.game.board Color.WHITE, s2.turn,
        (s2.game.board 27).piece)) =
      some (some true, Color.BLACK, Piece.EMPTY) := by
  decide!

/-- C6 fails on `checkedBoard` with all flags clear: the White king on e1 is in check from
the rook on e8, and `isMoveLegal` accepts the castling move e1-g1 (60 to 62), which
`computeLegalMoves` then returns. -/
theorem castling_out_of_check :
    countKings checkedBoard Color.WHITE = 1 ∧
    countKings checkedBoard Color.BLACK = 1 ∧
    kingInCheck checkedBoard Color.WHITE = some true ∧
    (getRow 62 - getRow 60 = 0 ∧ (getCol 62 - getCol 60).natAbs = 2) ∧
    (isMoveLegal (gameOf checkedBoard (-1) Color.NONE) 60 62).map Prod.fst = some true ∧
    returnsMove (gameOf checkedBoard (-1) Color.NONE) Color.WHITE 60 62 := by
  decide!

/-- C7 fails after the fourteen moves of `kingCaptureLine`, played from the initial position
through the event loop, each returned by `computeLegalMoves` for the side to move in the
position it is played in: the thirteenth is an en-passant capture that opens the fifth rank
between the Black rook and the White king, the fourteenth takes the king, and no White king
is left on the board. -/
theorem king_captured :
    (playLegal initialSession kingCaptureLine).map
      (fun s => (countKings s.game.board Color.WHITE, countKings s.game.board Color.BLACK,
        s.turn)) =
      some (0, 1, Color.WHITE) := by
  rw [initialSession_eq,
    checkLine_sound _ (fun s s2 h => by simp only [h.1, h.2.2.2.2.2.2.2.2.2])
      kingCaptureLine kingCapturePositions _ (tidy_boardOfText _) (by decide!)]
  decide!

/-! ### C11: hasLegalMoves against computeLegalMoves -/

/-- C11. For every game state and every colour `side` (WHITE and BLACK among them):
`hasLegalMoves(side)` returns, `computeLegalMoves(from, side)` returns for every `from`, and
`hasLegalMoves(side)` is true exactly when there is a source square `from` in `0..63` for
which `computeLegalMoves(from, side)` leaves a non-empty `legalMoves` list. -/
theorem hasLegalMoves_iff_computeLegalMoves (g : Game) (side : Color) :
    ∃ r board, hasLegalMoves g side = some (r, board) ∧
      (∀ fromIdx, ∃ g2, computeLegalMoves g fromIdx side = some g2) ∧
      (r = true ↔ ∃ fromIdx, 0 ≤ fromIdx ∧ fromIdx < 64 ∧
        ∃ g2, computeLegalMoves g fromIdx side = some g2 ∧ g2.legalMoves ≠ []) := by
  refine ⟨_, _, hasLegalMoves_eq g side, fun f => ⟨_, computeLegalMoves_eq g f side⟩, ?_⟩
  simp only [List.any_eq_true, Bool.and_eq_true, decide_eq_true_eq, mem_squares]
  constructor
  · rintro ⟨f, hf, hc, t, ht, hl⟩
    refine ⟨f, hf.1, hf.2, _, computeLegalMoves_eq g f side, ?_⟩
    simp only [if_pos (And.intro hf.1 (And.intro hf.2 hc))]
    intro h
    have hm : (⟨f, t⟩ : Move) ∈
        (squares.filter (fun t => isFullyLegal g f t)).map (fun t => (⟨f, t⟩ : Move)) :=
      List.mem_map.mpr ⟨t, List.mem_filter.mpr ⟨(mem_squares t).mpr ht, hl⟩, rfl⟩
    rw [h] at hm
    exact List.not_mem_nil _ hm
  · rintro ⟨f, hf0, hf1, g2, e, hne⟩
    rw [computeLegalMoves_eq] at e
    have e2 := (Option.some.inj e).symm
    subst e2
    by_cases hc : 0 ≤ f ∧ f < 64 ∧ (g.board f).color = side
    · simp only [if_pos hc] at hne
      obtain ⟨m, hm⟩ := List.exists_mem_of_ne_nil _ hne
      obtain ⟨t, ht, _⟩ := List.mem_map.mp hm
      obtain ⟨ht1, ht2⟩ := List.mem_filter.mp ht
      exact ⟨f, ⟨hf0, hf1⟩, hc.2.2, t, (mem_squares t).mp ht1, ht2⟩
    · simp only [if_neg hc] at hne
      exact absurd rfl hne

/-! ### C12: wouldCauseCheck restores the board -/

/-- C12. For every board and every list of calls `wouldCauseCheck(from, to)` with `from` and
`to` in `0..63` (equal or not, whatever stands on the source, with or without a king): each
call returns and leaves the board it was made on, and the whole sequence of calls, each made
on the board the call before left, returns and leaves the board it started from. -/
theorem wouldCauseCheck_restores (board : Board) (calls : List (Int × Int))
    (h : ∀ p ∈ calls, 0 ≤ p.1 ∧ p.1 < 64 ∧ 0 ≤ p.2 ∧ p.2 < 64) :
    (∀ p ∈ calls, ∃ r, wouldCauseCheck board p.1 p.2 = some (r, board)) ∧
      wouldCauseCheckCalls board calls = some board := by
  constructor
  · intro p hp
    obtain ⟨h1, h2, h3, h4⟩ := h p hp
    exact ⟨_, wouldCauseCheck_eq board h1 h2 h3 h4⟩
  · induction calls with
    | nil => rfl
    | cons p rest ih =>
      obtain ⟨f, t⟩ := p
      obtain ⟨h1, h2, h3, h4⟩ := h (f, t) (List.mem_cons_self _ _)
      rw [wouldCauseCheckCalls, wouldCauseCheck_eq board h1 h2 h3 h4]
      exact ih (fun q hq => h q (List.mem_cons_of_mem _ hq))

/-- Witness of C12 on `castleBoard`, which has no Black rook and whose a1 (56) is empty: a
call with source and destination both e1 (60), a call from the empty a1, a call that takes
the Black king (60 to 4) and a call that moves the White king next to it. -/
theorem wouldCauseCheck_restores_witness :
    (∀ p ∈ [((60 : Int), (60 : Int)), (56, 0), (60, 4), (60, 12)],
      0 ≤ p.1 ∧ p.1 < 64 ∧ 0 ≤ p.2 ∧ p.2 < 64) ∧
    (∀ p ∈ [((60 : Int), (60 : Int)), (56, 0), (60, 4), (60, 12)],
      ∃ r, wouldCauseCheck castleBoard p.1 p.2 = some (r, castleBoard)) ∧
    wouldCauseCheckCalls castleBoard [(60, 60), (56, 0), (60, 4), (60, 12)] =
      some castleBoard :=
  ⟨by decide, wouldCauseCheck_restores castleBoard [(60, 60), (56, 0), (60, 4), (60, 12)]
    (by decide)⟩

/-! ### C13: initializeBoard -/

theorem foldl_setSq_congr (idx : Int → Int) (sq : Int → Square) (i : Int) :
    ∀ (l : List Int) (b1 b2 : Board), b1 i = b2 i →
      (l.foldl (fun bd x => setSq bd (idx x) (sq x)) b1) i =
        (l.foldl (fun bd x => setSq bd (idx x) (sq x)) b2) i := by
  intro l
  induction l with
  | nil => intro b1 b2 h; exact h
  | cons x rest ih =>
    intro b1 b2 h
    simp only [List.foldl_cons]
    apply ih
    unfold setSq
    simp only [h]

theorem foldl_setSq_mem (sq : Square) (i : Int) :
    ∀ (l : List Int) (b : Board), i ∈ l →
      (l.foldl (fun bd x => setSq bd x sq) b) i = sq := by
  intro l
  induction l with
  | nil => intro b h; cases h
  | cons x rest ih =>
    intro b h
    simp only [List.foldl_cons]
    by_cases hr : i ∈ rest
    · exact ih _ hr
    · have hx : i = x := by
        rcases List.mem_cons.mp h with e | e
        · exact e
        · exact absurd e hr
      subst hx
      rw [foldl_setSq_congr (fun x => x) (fun _ => sq) i rest (setSq b i sq)
        (fun _ => sq) (setSq_same _ _ _)]
      clear ih h hr
      induction rest with
      | nil => rfl
      | cons y r ih2 =>
        simp only [List.foldl_cons]
        rw [foldl_setSq_congr (fun x => x) (fun _ => sq) i r _ (fun _ => sq)]
        · exact ih2
        · unfold setSq; simp only [ite_self]

theorem initialBoard_prior (b1 b2 : Board) {i : Int} (h0 : 0 ≤ i) (h1 : i < 64) :
    initialBoard b1 i = initialBoard b2 i := by
  unfold initialBoard
  apply foldl_setSq_congr
  apply foldl_setSq_congr
  apply foldl_setSq_congr
  apply foldl_setSq_congr
  have hm := (mem_squares i).mpr ⟨h0, h1⟩
  rw [foldl_setSq_mem emptySquare i squares b1 hm, foldl_setSq_mem emptySquare i squares b2 hm]

theorem startPosition_standard :
    ∀ a : Fin 64, boardOfText startPosition.rows (Int.ofNat a.val) =
      standardSquare (Int.ofNat a.val) := by
  decide!

/-- C13. For every prior game state, after `initializeBoard` each of the 64 squares holds
what the standard arrangement puts there (`standardSquare`), `enPassantIdx` is `-1`,
`enPassantColor` is `NONE` and the six moved flags are false; none of this depends on the
prior state. -/
theorem initializeBoard_standard (g : Game) :
    squares.map (initializeBoard g).board = squares.map standardSquare ∧
    (initializeBoard g).enPassantIdx = -1 ∧
    (initializeBoard g).enPassantColor = Color.NONE ∧
    (initializeBoard g).whiteKingMoved = false ∧
    (initializeBoard g).blackKingMoved = false ∧
    (initializeBoard g).whiteLeftRookMoved = false ∧
    (initializeBoard g).whiteRightRookMoved = false ∧
    (initializeBoard g).blackLeftRookMoved = false ∧
    (initializeBoard g).blackRightRookMoved = false := by
  refine ⟨?_, rfl, rfl, rfl, rfl, rfl, rfl, rfl, rfl⟩
  apply List.map_congr_left
  intro i hi
  obtain ⟨h0, h1⟩ := (mem_squares i).mp hi
  have hb : initialBoard programStart.board = boardOfText startPosition.rows :=
    congrArg (fun s => s.game.board) initialSession_eq
  show initialBoard g.board i = standardSquare i
  rw [initialBoard_prior g.board programStart.board h0 h1, hb]
  exact forall_square (P := fun i => boardOfText startPosition.rows i = standardSquare i)
    startPosition_standard h0 h1

/-! ### C14: castling after the rook was taken on its home square -/

/-- C14 fails after the first eight moves of `rookCaptureLine`, played from the initial
position through the event loop, each returned by `computeLegalMoves` for the side to move:
a Black bishop then stands on h1 (63), the White king and right-rook flags are still clear,
and the ninth move, the White king move e1-g1 (60 to 62), is returned by `computeLegalMoves`
as well. After it is applied the king stands on g1, the square f1 (61) it passed over holds
the Black bishop and no White rook, and h1 is empty. -/
theorem castling_without_rook :
    (playLegal initialSession (rookCaptureLine.take 8)).map
      (fun s => (s.turn, s.game.board 60, s.game.board 63, s.game.whiteKingMoved,
        s.game.whiteRightRookMoved)) =
      some (Color.WHITE, ⟨Piece.KING, Color.WHITE⟩, ⟨Piece.BISHOP, Color.BLACK⟩, false, false) ∧
    (playLegal initialSession rookCaptureLine).map
      (fun s => (s.game.board 62, s.game.board 61, s.game.board 63)) =
      some (⟨Piece.KING, Color.WHITE⟩, ⟨Piece.BISHOP, Color.BLACK⟩, emptySquare) := by
  rw [initialSession_eq,
    checkLine_sound _ (fun s s2 h => by simp only [h.1, h.2.2.2.1, h.2.2.2.2.2.2.1,
        h.2.2.2.2.2.2.2.2.2])
      (rookCaptureLine.take 8) (rookCapturePositions.take 8) _ (tidy_boardOfText _)
      (by decide!),
    checkLine_sound _ (fun s s2 h => by simp only [h.1])
      rookCaptureLine rookCapturePositions _ (tidy_boardOfText _) (by decide!)]
  decide!

/-! ### C15: a rook that moves from the a-file away from its corner -/

/-- C15 fails after the first six moves of `rookLiftLine`, played from the initial position
through the event loop, each returned by `computeLegalMoves` for the side to move: a White
rook then stands on a3 (40), which is no home corner, the rook on a1 (56) has not moved and
`whiteLeftRookMoved` is false. The seventh move, the rook move a3-b3 (40 to 41), is returned
by `computeLegalMoves` as well, and after it is applied `whiteLeftRookMoved` is true, with
the rook on a1 still at home. The flags are listed in the order White king, Black king,
White left rook, White right rook, Black left rook, Black right rook. -/
theorem rook_flag_off_corner :
    (playLegal initialSession (rookLiftLine.take 6)).map
      (fun s => (s.turn, s.game.board 40, s.game.board 56,
        [s.game.whiteKingMoved, s.game.blackKingMoved, s.game.whiteLeftRookMoved,
          s.game.whiteRightRookMoved, s.game.blackLeftRookMoved,
          s.game.blackRightRookMoved])) =
      some (Color.WHITE, ⟨Piece.ROOK, Color.WHITE⟩, ⟨Piece.ROOK, Color.WHITE⟩,
        [false, false, false, true, false, false]) ∧
    (playLegal initialSession rookLiftLine).map
      (fun s => (s.game.board 41, s.game.board 56,
        [s.game.whiteKingMoved, s.game.blackKingMoved, s.game.whiteLeftRookMoved,
          s.game.whiteRightRookMoved, s.game.blackLeftRookMoved,
          s.game.blackRightRookMoved])) =
      some (⟨Piece.ROOK, Color.WHITE⟩, ⟨Piece.ROOK, Color.WHITE⟩,
        [false, false, true, true, false, false]) := by
  rw [initialSession_eq,
    checkLine_sound _
      (fun s s2 h => by
        obtain ⟨h1, _, _, h4, h5, h6, h7, h8, h9, h10⟩ := h
        simp only [h1, h4, h5, h6, h7, h8, h9, h10])
      (rookLiftLine.take 6) (rookLiftPositions.take 6) _ (tidy_boardOfText _) (by decide!),
    checkLine_sound _
      (fun s s2 h => by
        obtain ⟨h1, _, _, h4, h5, h6, h7, h8, h9, _⟩ := h
        simp only [h1, h4, h5, h6, h7, h8, h9])
      rookLiftLine rookLiftPositions _ (tidy_boardOfText _) (by decide!)]
  decide!

/-! ### C16: the legality queries leave the game state alone -/

/-- C16. For every game state and every pair of integers `(from, to)`, in range or not:
`isMoveLegal(from, to)` returns, with either result and through whichever exit of its castling
loops, and leaves the board it was called on (it assigns to no other global);
`computeLegalMoves` returns and changes nothing but the `legalMoves` list; `hasLegalMoves`
returns and leaves the board it was called on; `kingInCheck` returns, and only reads. -/
theorem legality_queries_frame (g : Game) (fromIdx toIdx : Int) (side : Color) :
    (∃ r, isMoveLegal g fromIdx toIdx = some (r, g.board)) ∧
    (∃ moves, computeLegalMoves g fromIdx side = some { g with legalMoves := moves }) ∧
    (∃ r, hasLegalMoves g side = some (r, g.board)) ∧
    (∃ r, kingInCheck g.board side = some r) :=
  ⟨isMoveLegal_frame g fromIdx toIdx, ⟨_, computeLegalMoves_eq g fromIdx side⟩,
    ⟨_, hasLegalMoves_eq g side⟩, kingInCheck_isSome g.board side⟩

/-! ### The walk of pathClear, step by step -/

theorem pathClearLoop_walk (board : Board) (tr tc rs cs : Int) (hstep : rs ≠ 0 ∨ cs ≠ 0) :
    ∀ (m fuel : Nat), m < fuel →
      (∀ k : Nat, 1 ≤ k → k ≤ m →
        0 ≤ getIdx (tr - k * rs) (tc - k * cs) ∧ getIdx (tr - k * rs) (tc - k * cs) < 64) →
      ∃ r, pathClearLoop board tr tc rs cs fuel (tr - m * rs) (tc - m * cs) = some r ∧
        (r = true ↔ ∀ k : Nat, 1 ≤ k → k ≤ m →
          (board (getIdx (tr - k * rs) (tc - k * cs))).piece = Piece.EMPTY) := by
  intro m
  induction m with
  | zero =>
    intro fuel hf _
    obtain ⟨n, rfl⟩ : ∃ n, fuel = n + 1 := ⟨fuel - 1, by omega⟩
    refine ⟨true, ?_, ?_⟩
    · simp [pathClearLoop]
    · simp only [true_iff]
      intro k h1 h2
      omega
  | succ m ih =>
    intro fuel hf hr
    obtain ⟨n, rfl⟩ : ∃ n, fuel = n + 1 := ⟨fuel - 1, by omega⟩
    have hm : ((m + 1 : Nat) : Int) ≠ 0 := by omega
    have hne : tr - ((m + 1 : Nat) : Int) * rs ≠ tr ∨ tc - ((m + 1 : Nat) : Int) * cs ≠ tc := by
      rcases hstep with h | h
      · left
        intro e
        have : ((m + 1 : Nat) : Int) * rs = 0 := by omega
        rcases mul_eq_zero.mp this with h2 | h2
        · exact hm h2
        · exact h h2
      · right
        intro e
        have : ((m + 1 : Nat) : Int) * cs = 0 := by omega
        rcases mul_eq_zero.mp this with h2 | h2
        · exact hm h2
        · exact h h2
    have hin := hr (m + 1) (by omega) (le_refl _)
    have e1 : tr - ((m + 1 : Nat) : Int) * rs + rs = tr - (m : Int) * rs := by
      push_cast; ring
    have e2 : tc - ((m + 1 : Nat) : Int) * cs + cs = tc - (m : Int) * cs := by
      push_cast; ring
    obtain ⟨r, hr1, hr2⟩ := ih n (by omega) (fun k h1 h2 => hr k h1 (by omega))
    unfold pathClearLoop
    rw [if_pos hne]
    simp only [readSq, BOARD_SIZE, hin.1, hin.2, and_self, if_true]
    by_cases he : (board (getIdx (tr - ((m + 1 : Nat) : Int) * rs)
        (tc - ((m + 1 : Nat) : Int) * cs))).piece = Piece.EMPTY
    · rw [if_neg (not_not.mpr he), e1, e2]
      refine ⟨r, hr1, ?_⟩
      rw [hr2]
      constructor
      · intro h k h1 h2
        by_cases hk : k = m + 1
        · subst hk; exact he
        · exact h k h1 (by omega)
      · intro h k h1 h2
        exact h k h1 (by omega)
    · rw [if_pos he]
      refine ⟨false, rfl, ?_⟩
      simp only [Bool.false_eq_true, false_iff]
      intro h
      exact he (h (m + 1) (by omega) (le_refl _))

theorem stepTo_cases (x y : Int) :
    (stepTo x y = 1 ∧ x < y) ∨ (stepTo x y = -1 ∧ y < x) ∨ (stepTo x y = 0 ∧ x = y) := by
  unfold stepTo
  split_ifs <;> omega

theorem coords_steps {ra ca rb cb : Int}
    (al : ra = rb ∨ ca = cb ∨ (rb - ra).natAbs = (cb - ca).natAbs)
    (hne : ra ≠ rb ∨ ca ≠ cb) (hr0 : 0 ≤ ra) (hr1 : ra < 8) (hc0 : 0 ≤ ca) (hc1 : ca < 8)
    (hs0 : 0 ≤ rb) (hs1 : rb < 8) (hd0 : 0 ≤ cb) (hd1 : cb < 8) :
    ∃ n : Nat, 1 ≤ n ∧ n ≤ 7 ∧ rb = ra + n * stepTo ra rb ∧ cb = ca + n * stepTo ca cb := by
  rcases stepTo_cases ra rb with ⟨e1, h1⟩ | ⟨e1, h1⟩ | ⟨e1, h1⟩ <;>
  rcases stepTo_cases ca cb with ⟨e2, h2⟩ | ⟨e2, h2⟩ | ⟨e2, h2⟩ <;>
  rw [e1, e2] <;>
  first
  | (exfalso; omega)
  | exact ⟨(rb - ra).natAbs, by omega, by omega, by omega, by omega⟩
  | exact ⟨(cb - ca).natAbs, by omega, by omega, by omega, by omega⟩

theorem coords_between {ra ca rb cb : Int} {n : Nat} (hn1 : 1 ≤ n)
    (hr : rb = ra + n * stepTo ra rb) (hc : cb = ca + n * stepTo ca cb)
    (hne : ra ≠ rb ∨ ca ≠ cb) (rj cj : Int) :
    ((ra = rb ∧ rj = ra ∧ ((ca < cj ∧ cj < cb) ∨ (cb < cj ∧ cj < ca))) ∨
      (ca = cb ∧ cj = ca ∧ ((ra < rj ∧ rj < rb) ∨ (rb < rj ∧ rj < ra))) ∨
      (ra - ca = rb - cb ∧ rj - cj = ra - ca ∧
        ((ra < rj ∧ rj < rb) ∨ (rb < rj ∧ rj < ra))) ∨
      (ra + ca = rb + cb ∧ rj + cj = ra + ca ∧
        ((ra < rj ∧ rj < rb) ∨ (rb < rj ∧ rj < ra)))) ↔
    ∃ k : Nat, 1 ≤ k ∧ k ≤ n - 1 ∧ rj = rb - k * stepTo ra rb ∧ cj = cb - k * stepTo ca cb := by
  rcases stepTo_cases ra rb with ⟨e1, h1⟩ | ⟨e1, h1⟩ | ⟨e1, h1⟩ <;>
  rcases stepTo_cases ca cb with ⟨e2, h2⟩ | ⟨e2, h2⟩ | ⟨e2, h2⟩ <;>
  simp only [e1, e2] at hr hc ⊢ <;>
  first
  | (exfalso; omega)
  | (constructor
     · intro h
       rcases h with h | h | h | h <;>
       first
       | (exfalso; omega)
       | (refine ⟨(rb - rj).toNat, ?_, ?_, ?_, ?_⟩ <;> omega)
       | (refine ⟨(rj - rb).toNat, ?_, ?_, ?_, ?_⟩ <;> omega)
       | (refine ⟨(cb - cj).toNat, ?_, ?_, ?_, ?_⟩ <;> omega)
       | (refine ⟨(cj - cb).toNat, ?_, ?_, ?_, ?_⟩ <;> omega)
     · rintro ⟨k, h3, h4, h5, h6⟩
       first
       | (left; refine ⟨by omega, by omega, by omega⟩)
       | (right; left; refine ⟨by omega, by omega, by omega⟩)
       | (right; right; left; refine ⟨by omega, by omega, by omega⟩)
       | (right; right; right; refine ⟨by omega, by omega, by omega⟩))

theorem coords_range {ra ca rb cb : Int} {n : Nat}
    (hr : rb = ra + n * stepTo ra rb) (hc : cb = ca + n * stepTo ca cb)
    (hr0 : 0 ≤ ra) (hr1 : ra < 8) (hc0 : 0 ≤ ca) (hc1 : ca < 8)
    (hs0 : 0 ≤ rb) (hs1 : rb < 8) (hd0 : 0 ≤ cb) (hd1 : cb < 8)
    (k : Nat) (hk : k ≤ n) :
    (0 ≤ rb - k * stepTo ra rb ∧ rb - k * stepTo ra rb < 8) ∧
      (0 ≤ cb - k * stepTo ca cb ∧ cb - k * stepTo ca cb < 8) := by
  rcases stepTo_cases ra rb with ⟨e1, h1⟩ | ⟨e1, h1⟩ | ⟨e1, h1⟩ <;>
  rcases stepTo_cases ca cb with ⟨e2, h2⟩ | ⟨e2, h2⟩ | ⟨e2, h2⟩ <;>
  simp only [e1, e2] at hr hc ⊢ <;>
  omega

theorem strictlyBetween_self (a j : Int) : ¬ strictlyBetween a j a := by
  unfold strictlyBetween
  omega

/-- The loop of `pathClear` between two aligned squares of the board, run with room for at
least seven tests of its condition: it returns, and it returns true exactly when every
square strictly between the two is empty. -/
theorem pathClearLoop_between (board : Board) {a b : Int} (ha0 : 0 ≤ a) (ha1 : a < 64)
    (hb0 : 0 ≤ b) (hb1 : b < 64) (al : aligned a b) (fuel : Nat) (hf : 7 ≤ fuel) :
    ∃ r, pathClearLoop board (getRow b) (getCol b) (stepTo (getRow a) (getRow b))
        (stepTo (getCol a) (getCol b)) fuel (getRow a + stepTo (getRow a) (getRow b))
        (getCol a + stepTo (getCol a) (getCol b)) = some r ∧
      (r = true ↔ ∀ j, strictlyBetween a j b → (board j).piece = Piece.EMPTY) := by
  obtain ⟨n0, rfl⟩ : ∃ n0, fuel = n0 + 1 := ⟨fuel - 1, by omega⟩
  by_cases hab : a = b
  · subst hab
    refine ⟨true, ?_, ?_⟩
    · simp [pathClearLoop, stepTo]
    · simp only [true_iff]
      intro j hj
      exact absurd hj (strictlyBetween_self a j)
  · have hra := getRow_range ha0 ha1
    have hca := getCol_range ha0
    have hrb := getRow_range hb0 hb1
    have hcb := getCol_range hb0
    have hne : getRow a ≠ getRow b ∨ getCol a ≠ getCol b := by
      rw [getRow_eq ha0, getRow_eq hb0, getCol_eq ha0, getCol_eq hb0]
      omega
    obtain ⟨n, hn1, hn7, hr, hc⟩ := coords_steps al hne hra.1 hra.2 hca.1 hca.2
      hrb.1 hrb.2 hcb.1 hcb.2
    have hstep : stepTo (getRow a) (getRow b) ≠ 0 ∨ stepTo (getCol a) (getCol b) ≠ 0 := by
      rcases stepTo_cases (getRow a) (getRow b) with ⟨e1, h1⟩ | ⟨e1, h1⟩ | ⟨e1, h1⟩ <;>
      rcases stepTo_cases (getCol a) (getCol b) with ⟨e2, h2⟩ | ⟨e2, h2⟩ | ⟨e2, h2⟩ <;>
      rw [e1, e2] <;>
      omega
    have hcast : ((n - 1 : Nat) : Int) = (n : Int) - 1 := by omega
    have s1 : getRow a + stepTo (getRow a) (getRow b) =
        getRow b - ((n - 1 : Nat) : Int) * stepTo (getRow a) (getRow b) := by
      rw [hcast]; linear_combination (-1 : Int) * hr
    have s2 : getCol a + stepTo (getCol a) (getCol b) =
        getCol b - ((n - 1 : Nat) : Int) * stepTo (getCol a) (getCol b) := by
      rw [hcast]; linear_combination (-1 : Int) * hc
    have hrange := coords_range hr hc hra.1 hra.2 hca.1 hca.2 hrb.1 hrb.2 hcb.1 hcb.2
    obtain ⟨r, e, hiff⟩ := pathClearLoop_walk board (getRow b) (getCol b) _ _ hstep (n - 1)
      (n0 + 1) (by omega) (fun k _ h2 =>
        getIdx_range (hrange k (by omega)).1.1 (hrange k (by omega)).1.2
          (hrange k (by omega)).2.1 (hrange k (by omega)).2.2)
    rw [s1, s2]
    refine ⟨r, e, ?_⟩
    rw [hiff]
    constructor
    · intro h j hj
      obtain ⟨hj0, hjc⟩ := hj
      obtain ⟨k, k1, k2, k3, k4⟩ := (coords_between hn1 hr hc hne (getRow j) (getCol j)).mp hjc
      have := h k k1 k2
      rw [← k3, ← k4, getIdx_row_col hj0.1] at this
      exact this
    · intro h k k1 k2
      have hk := hrange k (by omega)
      apply h
      refine ⟨getIdx_range hk.1.1 hk.1.2 hk.2.1 hk.2.2, ?_⟩
      rw [getRow_getIdx hk.1.1 hk.2.1 hk.2.2, getCol_getIdx hk.1.1 hk.2.1 hk.2.2]
      exact (coords_between hn1 hr hc hne _ _).mpr ⟨k, k1, k2, rfl, rfl⟩

theorem pathClear_loop (board : Board) (a b : Int) :
    pathClear board a b =
      pathClearLoop board (getRow b) (getCol b) (stepTo (getRow a) (getRow b))
        (stepTo (getCol a) (getCol b)) 64 (getRow a + stepTo (getRow a) (getRow b))
        (getCol a + stepTo (getCol a) (getCol b)) := rfl

theorem strictlyBetween_ne {a j b : Int} (h : strictlyBetween a j b) : j ≠ a ∧ j ≠ b := by
  obtain ⟨_, h⟩ := h
  constructor <;>
  · rintro rfl
    omega

/-- The result of `pathClear` between two aligned squares of the board: it returns, and it
returns true exactly when every square strictly between the two is empty. -/
theorem pathClear_between (board : Board) {a b : Int} (ha0 : 0 ≤ a) (ha1 : a < 64)
    (hb0 : 0 ≤ b) (hb1 : b < 64) (al : aligned a b) :
    ∃ r, pathClear board a b = some r ∧
      (r = true ↔ ∀ j, strictlyBetween a j b → (board j).piece = Piece.EMPTY) := by
  rw [pathClear_loop]
  exact pathClearLoop_between board ha0 ha1 hb0 hb1 al 64 (by decide)

/-! ### C19: what pathClear returns -/

/-- C19. For every board and every two squares `a`, `b` in `0..63` on a common row, column or
diagonal: `pathClear(a, b)` returns, and it returns true exactly when every square strictly
between `a` and `b` on that line has piece `EMPTY`; a board that differs only on `a` and `b`
gives the same result; and `pathClear(a, a)` returns true. -/
theorem pathClear_correct (board : Board) (a b : Int) (ha0 : 0 ≤ a) (ha1 : a < 64)
    (hb0 : 0 ≤ b) (hb1 : b < 64) (al : aligned a b) :
    (∃ r, pathClear board a b = some r ∧
      (r = true ↔ ∀ j, strictlyBetween a j b → (board j).piece = Piece.EMPTY)) ∧
    (∀ board2 : Board, (∀ j, j ≠ a → j ≠ b → board2 j = board j) →
      pathClear board2 a b = pathClear board a b) ∧
    pathClear board a a = some true := by
  refine ⟨pathClear_between board ha0 ha1 hb0 hb1 al, ?_, ?_⟩
  · intro board2 hsame
    obtain ⟨r, e, h⟩ := pathClear_between board ha0 ha1 hb0 hb1 al
    obtain ⟨r2, e2, h2⟩ := pathClear_between board2 ha0 ha1 hb0 hb1 al
    rw [e, e2]
    have hiff : r2 = true ↔ r = true := by
      rw [h, h2]
      constructor
      · intro hh j hj
        rw [← hsame j (strictlyBetween_ne hj).1 (strictlyBetween_ne hj).2]
        exact hh j hj
      · intro hh j hj
        rw [hsame j (strictlyBetween_ne hj).1 (strictlyBetween_ne hj).2]
        exact hh j hj
    cases r <;> cases r2 <;> simp_all
  · obtain ⟨r, e, h⟩ := pathClear_between board ha0 ha1 ha0 ha1 (Or.inl rfl)
    rw [e]
    congr 1
    rw [h]
    intro j hj
    exact absurd hj (strictlyBetween_self a j)

/-- Witness of C19 in the starting position: from c1 (58) towards a3 (40) the pawn on b2 (49)
stands between, and `pathClear` returns false. -/
theorem pathClear_correct_witness :
    (∃ r, pathClear (boardOfText startPosition.rows) 58 40 = some r ∧
      (r = true ↔ ∀ j, strictlyBetween 58 j 40 →
        (boardOfText startPosition.rows j).piece = Piece.EMPTY)) ∧
    (∀ board2 : Board, (∀ j, j ≠ 58 → j ≠ 40 → board2 j = boardOfText startPosition.rows j) →
      pathClear board2 58 40 = pathClear (boardOfText startPosition.rows) 58 40) ∧
    pathClear (boardOfText startPosition.rows) 58 58 = some true :=
  pathClear_correct (boardOfText startPosition.rows) 58 40 (by decide) (by decide) (by decide)
    (by decide) (by decide)

/-! ### C18: kingInCheck against the geometry of the pieces -/

theorem pathClear_clearBetween (board : Board) {a b : Int} (ha0 : 0 ≤ a) (ha1 : a < 64)
    (hb0 : 0 ≤ b) (hb1 : b < 64) (al : aligned a b) :
    pathClear board a b = some true ↔ clearBetween board a b := by
  obtain ⟨r, e, h⟩ := pathClear_between board ha0 ha1 hb0 hb1 al
  rw [e]
  unfold clearBetween
  constructor
  · intro hr j _ hj
    exact h.mp (Option.some.inj hr) j hj
  · intro hc
    congr 1
    exact h.mpr (fun j hj => hc j ((mem_squares j).mpr hj.1) hj)

theorem isAttack_geometry (board : Board) {i k : Int} (hi0 : 0 ≤ i) (hi1 : i < 64)
    (hk0 : 0 ≤ k) (hk1 : k < 64)
    (hcol : (board i).color = Color.WHITE ∨ (board i).color = Color.BLACK) :
    isAttack board (board i).piece (board i).color i k = some true ↔
      attacksSquare board i k := by
  have hpc := fun al => pathClear_clearBetween board hi0 hi1 hk0 hk1 al
  have hsome := fun al => pathClear_between board hi0 hi1 hk0 hk1 al
  unfold isAttack attacksSquare
  simp only
  cases hp : (board i).piece with
  | EMPTY => simp
  | PAWN =>
    simp only [Option.some.injEq, decide_eq_true_eq]
    rcases hcol with h | h
    · simp only [h, if_true]
      constructor
      · rintro ⟨h1, h2⟩; exact ⟨Or.inl ⟨trivial, h2⟩, h1⟩
      · rintro ⟨h1 | h1, h2⟩
        · exact ⟨h2, h1.2⟩
        · exact absurd h1.1 (by decide)
    · simp only [h]
      constructor
      · rintro ⟨h1, h2⟩; exact ⟨Or.inr ⟨trivial, by simpa using h2⟩, h1⟩
      · rintro ⟨h1 | h1, h2⟩
        · exact absurd h1.1 (by decide)
        · exact ⟨h2, by simpa using h1.2⟩
  | KNIGHT =>
    simp only [Option.some.injEq, decide_eq_true_eq]
    constructor
    · rintro (h | h)
      · exact Or.inr h
      · exact Or.inl h
    · rintro (h | h)
      · exact Or.inr h
      · exact Or.inl h
  | KING => simp only [Option.some.injEq, decide_eq_true_eq]
  | ROOK =>
    by_cases g : getRow i = getRow k ∨ getCol i = getCol k
    · have al : aligned i k := by
        rcases g with g | g
        · exact Or.inl g
        · exact Or.inr (Or.inl g)
      rw [if_pos g, hpc al]
      constructor
      · intro h; exact ⟨by omega, h⟩
      · intro h; exact h.2
    · rw [if_neg g]
      constructor
      · intro h; cases h
      · rintro ⟨h, _⟩; exact absurd (by omega) g
  | BISHOP =>
    by_cases g : (getRow k - getRow i).natAbs = (getCol k - getCol i).natAbs
    · rw [if_pos g, hpc (Or.inr (Or.inr g))]
      constructor
      · intro h; exact ⟨g, h⟩
      · intro h; exact h.2
    · rw [if_neg g]
      constructor
      · intro h; cases h
      · rintro ⟨h, _⟩; exact absurd h g
  | QUEEN =>
    by_cases g : getRow i = getRow k ∨ getCol i = getCol k
    · have al : aligned i k := by
        rcases g with g | g
        · exact Or.inl g
        · exact Or.inr (Or.inl g)
      rw [if_pos g]
      obtain ⟨r, e, _⟩ := hsome al
      have hpc1 := hpc al
      rw [e] at hpc1 ⊢
      cases r with
      | true =>
        simp only [true_iff]
        exact ⟨by omega, hpc1.mp rfl⟩
      | false =>
        simp only
        by_cases g2 : (getRow k - getRow i).natAbs = (getCol k - getCol i).natAbs
        · rw [if_pos g2]
          constructor
          · intro h; cases h
          · rintro ⟨_, h⟩; exact hpc1.mpr h
        · rw [if_neg g2]
          constructor
          · intro h; cases h
          · rintro ⟨_, h⟩; exact hpc1.mpr h
    · rw [if_neg g]
      simp only
      by_cases g2 : (getRow k - getRow i).natAbs = (getCol k - getCol i).natAbs
      · rw [if_pos g2, hpc (Or.inr (Or.inr g2))]
        constructor
        · intro h; exact ⟨Or.inr (Or.inr g2), h⟩
        · intro h; exact h.2
      · rw [if_neg g2]
        constructor
        · intro h; cases h
        · rintro ⟨h, _⟩
          exfalso
          rcases h with h | h | h
          · exact g (by omega)
          · exact g (by omega)
          · exact g2 h

/-- C18. For every board, every colour `c` of a side (WHITE or BLACK) and every square `k`
of `0..63` that holds the only king of colour `c`: `kingInCheck(c)` returns, and it returns
true exactly when some square `i` of `0..63` holds a piece of the opposite colour that
attacks `k` by raw geometry (`attacksSquare`). -/
theorem kingInCheck_geometry (board : Board) (c : Color) (k : Int)
    (hc : c = Color.WHITE ∨ c = Color.BLACK) (hk : 0 ≤ k ∧ k < 64)
    (hking : (board k).piece = Piece.KING ∧ (board k).color = c)
    (hone : countKings board c = 1) :
    ∃ r, kingInCheck board c = some r ∧
      (r = true ↔ ∃ i, 0 ≤ i ∧ i < 64 ∧ (board i).color = opposite c ∧
        attacksSquare board i k) := by
  have hf : findKing board c = k :=
    findKing_unique board c hk.1 hk.2 hking (unique_of_count board c hk.1 hk.2 hking hone)
  refine ⟨_, kingInCheck_eq board c, ?_⟩
  rw [hf]
  have hne : k ≠ -1 := by omega
  simp only [decide_eq_true_eq, hne, ne_eq, not_false_eq_true, true_and, attacked, Attacks,
    mem_squares]
  have hopp : ∀ x : Color, (¬ x = Color.NONE ∧ ¬ x = c) ↔ x = opposite c := by
    intro x
    rcases hc with h | h <;> subst h <;> cases x <;> simp [opposite]
  constructor
  · rintro ⟨i, hi, h1, h2, h3⟩
    have ho := (hopp _).mp ⟨h1, h2⟩
    have hcol : (board i).color = Color.WHITE ∨ (board i).color = Color.BLACK := by
      rw [ho]
      rcases hc with h | h <;> subst h <;> simp [opposite]
    exact ⟨i, hi.1, hi.2, ho, (isAttack_geometry board hi.1 hi.2 hk.1 hk.2 hcol).mp h3⟩
  · rintro ⟨i, hi0, hi1, ho, h3⟩
    have hcol : (board i).color = Color.WHITE ∨ (board i).color = Color.BLACK := by
      rw [ho]
      rcases hc with h | h <;> subst h <;> simp [opposite]
    have hn := (hopp _).mpr ho
    exact ⟨i, ⟨hi0, hi1⟩, hn.1, hn.2,
      (isAttack_geometry board hi0 hi1 hk.1 hk.2 hcol).mpr h3⟩

/-- Witness of C18 on `checkedBoard`: the only White king stands on e1 (60), in the line of
the Black rook on e8 (4). -/
theorem kingInCheck_geometry_witness :
    ∃ r, kingInCheck checkedBoard Color.WHITE = some r ∧
      (r = true ↔ ∃ i, 0 ≤ i ∧ i < 64 ∧ (checkedBoard i).color = opposite Color.WHITE ∧
        attacksSquare checkedBoard i 60) :=
  kingInCheck_geometry checkedBoard Color.WHITE 60 (Or.inl rfl) (by decide) (by decide)
    (by decide)

/-! ### C20: the calls of pathClear -/

theorem pathClearChecked_eq (board : Board) (a b : Int) (ha0 : 0 ≤ a) (ha1 : a < 64)
    (hb0 : 0 ≤ b) (hb1 : b < 64) (al : aligned a b) :
    pathClearChecked board a b = pathClear board a b := by
  unfold pathClearChecked
  rw [if_pos ⟨ha0, ha1, hb0, hb1, al⟩]
  obtain ⟨r, e, h⟩ := pathClearLoop_between board ha0 ha1 hb0 hb1 al 7 (le_refl _)
  obtain ⟨r2, e2, h2⟩ := pathClear_between board ha0 ha1 hb0 hb1 al
  have e1 : pathClearFuel 7 board a b = some r := e
  rw [e1, e2]
  have hiff : r = true ↔ r2 = true := by rw [h, h2]
  cases r <;> cases r2 <;> simp_all

theorem isAttackWith_eq (pc : Board → Int → Int → Option Bool)
    (hpc : ∀ board a b, 0 ≤ a → a < 64 → 0 ≤ b → b < 64 → aligned a b →
      pc board a b = pathClear board a b)
    (board : Board) (p : Piece) (col : Color) {i k : Int}
    (hi0 : 0 ≤ i) (hi1 : i < 64) (hk0 : 0 ≤ k) (hk1 : k < 64) :
    isAttackWith pc board p col i k = isAttack board p col i k := by
  have h := fun al => hpc board i k hi0 hi1 hk0 hk1 al
  unfold isAttackWith isAttack
  simp only
  cases p with
  | EMPTY => rfl
  | PAWN => rfl
  | KNIGHT => rfl
  | KING => rfl
  | ROOK =>
    by_cases g : getRow i = getRow k ∨ getCol i = getCol k
    · have al : aligned i k := by
        rcases g with g | g
        · exact Or.inl g
        · exact Or.inr (Or.inl g)
      simp only [if_pos g, h al]
    · simp only [if_neg g]
  | BISHOP =>
    by_cases g : (getRow k - getRow i).natAbs = (getCol k - getCol i).natAbs
    · simp only [if_pos g, h (Or.inr (Or.inr g))]
    · simp only [if_neg g]
  | QUEEN =>
    by_cases g : getRow i = getRow k ∨ getCol i = getCol k
    · have al : aligned i k := by
        rcases g with g | g
        · exact Or.inl g
        · exact Or.inr (Or.inl g)
      simp only [if_pos g, h al]
    · by_cases g2 : (getRow k - getRow i).natAbs = (getCol k - getCol i).natAbs
      · simp only [if_neg g, if_pos g2, h (Or.inr (Or.inr g2))]
      · simp only [if_neg g, if_neg g2]

theorem attackLoopWith_eq (pc : Board → Int → Int → Option Bool)
    (hpc : ∀ board a b, 0 ≤ a → a < 64 → 0 ≤ b → b < 64 → aligned a b →
      pc board a b = pathClear board a b)
    (board : Board) (c : Color) {k : Int} (hk0 : 0 ≤ k) (hk1 : k < 64) :
    ∀ l : List Int, (∀ i ∈ l, 0 ≤ i ∧ i < 64) →
      attackLoopWith pc board c k l = attackLoop board c k l := by
  intro l
  induction l with
  | nil => intro _; rfl
  | cons i rest ih =>
    intro hl
    have hi := hl i (List.mem_cons_self _ _)
    have ih2 := ih (fun j hj => hl j (List.mem_cons_of_mem _ hj))
    unfold attackLoopWith attackLoop
    rw [isAttackWith_eq pc hpc board _ _ hi.1 hi.2 hk0 hk1, ih2]

theorem kingInCheckWith_eq (pc : Board → Int → Int → Option Bool)
    (hpc : ∀ board a b, 0 ≤ a → a < 64 → 0 ≤ b → b < 64 → aligned a b →
      pc board a b = pathClear board a b)
    (board : Board) (c : Color) :
    kingInCheckWith pc board c = kingInCheck board c := by
  unfold kingInCheckWith kingInCheck
  rcases findKing_spec board c with ⟨h, _⟩ | ⟨h0, h1, _⟩
  · simp only [h, if_true]
  · have hne : findKing board c ≠ -1 := by omega
    simp only [if_neg hne]
    exact attackLoopWith_eq pc hpc board c h0 h1 squares (fun i hi => (mem_squares i).mp hi)

theorem wouldCauseCheckWith_eq (pc : Board → Int → Int → Option Bool)
    (hpc : ∀ board a b, 0 ≤ a → a < 64 → 0 ≤ b → b < 64 → aligned a b →
      pc board a b = pathClear board a b)
    (board : Board) (f t : Int) :
    wouldCauseCheckWith pc board f t = wouldCauseCheck board f t := by
  unfold wouldCauseCheckWith wouldCauseCheck
  simp only [kingInCheckWith_eq pc hpc]

theorem castleLoopWith_eq (pc : Board → Int → Int → Option Bool)
    (hpc : ∀ board a b, 0 ≤ a → a < 64 → 0 ≤ b → b < 64 → aligned a b →
      pc board a b = pathClear board a b)
    (c : Color) (f fromRow : Int) :
    ∀ (l : List Int) (board : Board),
      castleLoopWith pc c f fromRow l board = castleLoop c f fromRow l board := by
  intro l
  induction l with
  | nil => intro board; rfl
  | cons col rest ih =>
    intro board
    unfold castleLoopWith castleLoop
    simp only [kingInCheckWith_eq pc hpc, ih]

theorem kingLegalWith_eq (pc : Board → Int → Int → Option Bool)
    (hpc : ∀ board a b, 0 ≤ a → a < 64 → 0 ≤ b → b < 64 → aligned a b →
      pc board a b = pathClear board a b)
    (g : Game) (c : Color) {f : Int} (hf0 : 0 ≤ f) (hf1 : f < 64) (t rowDiff colDiff : Int) :
    kingLegalWith pc g c f t (getRow f) (getCol f) rowDiff colDiff =
      kingLegal g c f t (getRow f) (getCol f) rowDiff colDiff := by
  have hr := getRow_range hf0 hf1
  have h7 := getIdx_range hr.1 hr.2 (c := 7) (by decide) (by decide)
  have h0 := getIdx_range hr.1 hr.2 (c := 0) (by decide) (by decide)
  have a7 : aligned f (getIdx (getRow f) 7) :=
    Or.inl (getRow_getIdx hr.1 (by decide) (by decide)).symm
  have a0 : aligned f (getIdx (getRow f) 0) :=
    Or.inl (getRow_getIdx hr.1 (by decide) (by decide)).symm
  unfold kingLegalWith kingLegal
  simp only [wouldCauseCheckWith_eq pc hpc, castleLoopWith_eq pc hpc,
    hpc g.board f _ hf0 hf1 h7.1 h7.2 a7, hpc g.board f _ hf0 hf1 h0.1 h0.2 a0]

theorem isMoveLegalWith_eq (pc : Board → Int → Int → Option Bool)
    (hpc : ∀ board a b, 0 ≤ a → a < 64 → 0 ≤ b → b < 64 → aligned a b →
      pc board a b = pathClear board a b)
    (g : Game) (f t : Int) :
    isMoveLegalWith pc g f t = isMoveLegal g f t := by
  unfold isMoveLegalWith isMoveLegal
  by_cases hr : f < 0 ∨ f ≥ BOARD_SIZE ∨ t < 0 ∨ t ≥ BOARD_SIZE
  · rw [if_pos hr, if_pos hr]
  · rw [if_neg hr, if_neg hr]
    have hf0 : 0 ≤ f := by omega
    have hf1 : f < 64 := by simp only [BOARD_SIZE] at hr; omega
    have ht0 : 0 ≤ t := by omega
    have ht1 : t < 64 := by simp only [BOARD_SIZE] at hr; omega
    have h := fun al => hpc g.board f t hf0 hf1 ht0 ht1 al
    simp only [readSq, BOARD_SIZE, hf0, hf1, ht0, ht1, and_self, if_true,
      kingLegalWith_eq pc hpc g _ hf0 hf1]
    by_cases g1 : getRow f = getRow t ∨ getCol f = getCol t
    · have al : aligned f t := by
        rcases g1 with g1 | g1
        · exact Or.inl g1
        · exact Or.inr (Or.inl g1)
      simp only [h al]
    · by_cases g2 : (getRow t - getRow f).natAbs = (getCol t - getCol f).natAbs
      · simp only [h (Or.inr (Or.inr g2))]
      · simp only [g1, g2, if_false, or_self]

/-- C20. `kingInCheckWith` and `isMoveLegalWith` are `kingInCheck` and `isMoveLegal` (and
all they call) with their calls of `pathClear` handed to a function given as a parameter:
with `pathClear` itself they are the two functions. With `pathClearChecked`, which has no
result unless both squares are in `0..63` on a common row, column or diagonal, the loop
reaches its target within six runs of its body and every index it reads is in `0..63`, they
return too, for every board, colour, game state and pair of integers, and the results are
the same. A call without result leaves the caller without result, so every call of
`pathClear` that the two functions make has its result under this watch. -/
theorem pathClear_calls_checked (board : Board) (c : Color) (g : Game) (fromIdx toIdx : Int) :
    kingInCheckWith pathClear board c = kingInCheck board c ∧
    isMoveLegalWith pathClear g fromIdx toIdx = isMoveLegal g fromIdx toIdx ∧
    (∃ r, kingInCheckWith pathClearChecked board c = some r ∧
      kingInCheck board c = some r) ∧
    (∃ r, isMoveLegalWith pathClearChecked g fromIdx toIdx = some (r, g.board) ∧
      isMoveLegal g fromIdx toIdx = some (r, g.board)) := by
  refine ⟨kingInCheckWith_eq _ (fun _ _ _ _ _ _ _ _ => rfl) board c,
    isMoveLegalWith_eq _ (fun _ _ _ _ _ _ _ _ => rfl) g fromIdx toIdx, ?_, ?_⟩
  · obtain ⟨r, hr⟩ := kingInCheck_isSome board c
    exact ⟨r, by rw [kingInCheckWith_eq _ pathClearChecked_eq, hr], hr⟩
  · obtain ⟨r, hr⟩ := isMoveLegal_frame g fromIdx toIdx
    exact ⟨r, by rw [isMoveLegalWith_eq _ pathClearChecked_eq, hr], hr⟩

/-! ### Pawn moves through the event loop -/

theorem pawnLegal_cases {g : Game} {c : Color} {toSquare : Square}
    {fromRow fromCol rowDiff colDiff t : Int}
    (h : pawnLegal g c toSquare fromRow fromCol rowDiff colDiff t = some true) :
    (colDiff = 0 ∧ rowDiff = (if c = Color.WHITE then -1 else 1)) ∨
    (colDiff = 0 ∧ rowDiff = 2 * (if c = Color.WHITE then -1 else 1) ∧
      fromRow = (if c = Color.WHITE then 6 else 1) ∧
      (g.board (getIdx (fromRow + (if c = Color.WHITE then -1 else 1)) fromCol)).piece =
        Piece.EMPTY) ∨
    (colDiff.natAbs = 1 ∧ rowDiff = (if c = Color.WHITE then -1 else 1)) := by
  unfold pawnLegal at h
  simp only at h
  by_cases hA : colDiff = 0 ∧ rowDiff = (if c = Color.WHITE then -1 else 1) ∧
      toSquare.piece = Piece.EMPTY
  · exact Or.inl ⟨hA.1, hA.2.1⟩
  · rw [if_neg hA] at h
    by_cases hB : colDiff = 0 ∧ rowDiff = 2 * (if c = Color.WHITE then -1 else 1) ∧
        fromRow = (if c = Color.WHITE then 6 else 1)
    · rw [if_pos hB] at h
      right; left
      refine ⟨hB.1, hB.2.1, hB.2.2, ?_⟩
      unfold readSq at h
      by_cases hr : 0 ≤ getIdx (fromRow + (if c = Color.WHITE then -1 else 1)) fromCol ∧
          getIdx (fromRow + (if c = Color.WHITE then -1 else 1)) fromCol < BOARD_SIZE
      · simp only [if_pos hr] at h
        by_cases hm : (g.board (getIdx (fromRow + (if c = Color.WHITE then -1 else 1))
            fromCol)).piece = Piece.EMPTY
        · exact hm
        · exfalso
          simp only [hm, false_and, decide_False] at h
          split_ifs at h <;> first | (have h0 := hB.1; omega) | cases h
      · simp only [if_neg hr] at h
        cases h
    · rw [if_neg hB] at h
      simp only at h
      right; right
      by_cases hC : colDiff.natAbs = 1 ∧ rowDiff = (if c = Color.WHITE then -1 else 1) ∧
          toSquare.color ≠ c ∧ toSquare.color ≠ Color.NONE
      · exact ⟨hC.1, hC.2.1⟩
      · rw [if_neg hC] at h
        by_cases hD : colDiff.natAbs = 1 ∧ rowDiff = (if c = Color.WHITE then -1 else 1) ∧
            t = g.enPassantIdx ∧ g.enPassantColor ≠ c
        · exact ⟨hD.1, hD.2.1⟩
        · rw [if_neg hD] at h
          simp at h

theorem returnsMove_pawn {s : Session} {f t : Int} (h : returnsMove s.game s.turn f t)
    (hp : (s.game.board f).piece = Piece.PAWN) :
    (0 ≤ f ∧ f < 64) ∧ (0 ≤ t ∧ t < 64) ∧ (s.game.board f).color = s.turn ∧
    ((getCol t - getCol f = 0 ∧
        getRow t - getRow f = (if s.turn = Color.WHITE then -1 else 1)) ∨
      (getCol t - getCol f = 0 ∧
        getRow t - getRow f = 2 * (if s.turn = Color.WHITE then -1 else 1) ∧
        getRow f = (if s.turn = Color.WHITE then 6 else 1) ∧
        (s.game.board (getIdx (getRow f + (if s.turn = Color.WHITE then -1 else 1))
          (getCol f))).piece = Piece.EMPTY) ∨
      ((getCol t - getCol f).natAbs = 1 ∧
        getRow t - getRow f = (if s.turn = Color.WHITE then -1 else 1))) := by
  obtain ⟨⟨hf0, hf1, hc⟩, ht, hl⟩ := (returnsMove_iff _ _ _ _).mp h
  have hleg := ((isFullyLegal_iff s.game f t).mp hl).1
  have := pawnLegal_cases (isLegal_pawn hleg hp)
  rw [hc] at this
  exact ⟨⟨hf0, hf1⟩, ht, hc, this⟩

theorem pawn_capture_on_empty (s : Session) {f t : Int}
    (h : returnsMove s.game s.turn f t) (hp : (s.game.board f).piece = Piece.PAWN)
    (hdiag : getCol t ≠ getCol f) (hempty : (s.game.board t).piece = Piece.EMPTY)
    (hrow : getRow t ≠ 0 ∧ getRow t ≠ 7) :
    ∃ s2, pressRelease s f t = some s2 ∧
      s2.game.board =
        setSq (setSq (setSq s.game.board f emptySquare) (getIdx (getRow f) (getCol t))
          emptySquare) t (s.game.board f) := by
  obtain ⟨hf, ht, hc, hcases⟩ := returnsMove_pawn h hp
  have hfr := getRow_range hf.1 hf.2
  have htr := getRow_range ht.1 ht.2
  have htc := getCol_range ht.1
  have hrd : getRow t - getRow f = (if s.turn = Color.WHITE then -1 else 1) := by
    rcases hcases with h1 | h1 | h1
    · exact absurd (by omega) hdiag
    · exact absurd (by omega) hdiag
    · exact h1.2
  have hn2 : ¬ (getRow t - getRow f).natAbs = 2 := by
    rw [hrd]; split <;> decide
  have hne : t ≠ f := fun e => hdiag (by rw [e])
  have hcap : (if (s.game.board f).color = Color.WHITE then getRow t + 1 else getRow t - 1) =
      getRow f := by
    rw [hc]
    split at hrd <;> simp only [*, if_true, if_false] <;> omega
  have hci := getIdx_range hfr.1 hfr.2 htc.1 htc.2
  rw [(pressRelease_legal s h).2.2.2, applyMove_eq]
  unfold applyMutations
  simp only [lifted, getIdx_row_col ht.1, applyPawn, hp, if_true, hn2, if_false, ne_eq, hdiag,
    not_false_eq_true, readSq, BOARD_SIZE, ht.1, ht.2, and_self, setSq_other _ _ hne, hempty,
    hcap, hfr.1, hfr.2, ge_iff_le, writeSq, hci.1, hci.2, Option.map_some', applyCastle,
    reduceCtorEq, false_and, applyFlags, applyPromotion, hrow.1, hrow.2, or_self, and_false]
  exact ⟨_, rfl, rfl⟩

theorem pawn_double_step (s : Session) {f t : Int}
    (h : returnsMove s.game s.turn f t) (hp : (s.game.board f).piece = Piece.PAWN)
    (hd : (getRow t - getRow f).natAbs = 2) :
    ∃ s1, pressRelease s f t = some s1 ∧
      s1.game.board = setSq (setSq s.game.board f emptySquare) t (s.game.board f) ∧
      s1.turn = (if s.turn = Color.WHITE then Color.BLACK else Color.WHITE) ∧
      getCol t = getCol f ∧
      getRow t - getRow f = 2 * (if s.turn = Color.WHITE then -1 else 1) ∧
      getRow f = (if s.turn = Color.WHITE then 6 else 1) ∧
      (s.game.board (getIdx (getRow f + (if s.turn = Color.WHITE then -1 else 1))
        (getCol f))).piece = Piece.EMPTY := by
  obtain ⟨hf, ht, hc, hcases⟩ := returnsMove_pawn h hp
  have hfacts : getCol t - getCol f = 0 ∧
      getRow t - getRow f = 2 * (if s.turn = Color.WHITE then -1 else 1) ∧
      getRow f = (if s.turn = Color.WHITE then 6 else 1) ∧
      (s.game.board (getIdx (getRow f + (if s.turn = Color.WHITE then -1 else 1))
        (getCol f))).piece = Piece.EMPTY := by
    rcases hcases with h1 | h1 | h1
    · exfalso
      have := h1.2
      split at this <;> omega
    · exact h1
    · exfalso
      have := h1.2
      split at this <;> omega
  obtain ⟨hcd, hrd, hstart, hmid⟩ := hfacts
  have hcol : getCol t = getCol f := by omega
  have hrow : ¬ (getRow t = 0 ∨ getRow t = 7) := by
    split at hrd <;> simp only [*, if_true, if_false] at hstart <;> omega
  rw [(pressRelease_legal s h).2.2.2, applyMove_eq]
  unfold applyMutations
  simp only [getIdx_row_col ht.1]
  simp only [lifted, applyPawn, hp, if_true, hd, ne_eq, hcol,
    not_true_eq_false, if_false, applyCastle, reduceCtorEq, false_and, writeSq, BOARD_SIZE,
    ht.1, ht.2, and_self, applyFlags, applyPromotion, hrow, and_false, Option.map_some']
  exact ⟨_, rfl, rfl, rfl, trivial, hrd, hstart, hmid⟩

/-! ### C17: an en-passant capture after a two-square advance -/

/-- C17. Let a pawn on `f1` make a two-square advance to `t1` that `computeLegalMoves`
returns for the side to move, let `s1` be the session after the press and the release, and
let a move of a pawn from `f2` to the skipped square `t2` (midway between `f1` and `t1`) in
another column than `f2` be returned by `computeLegalMoves` in `s1`. Then the skipped square
is empty in `s1`, the advanced pawn stands on `t1`, which is the square in the row of `f2`
and the column of `t2`, and the second press and release return and leave `t1` empty, the
capturing pawn on `t2`, `f2` empty and every other square as it was in `s1`. -/
theorem enPassant_capture (s : Session) (f1 t1 : Int) (s1 : Session) (f2 t2 : Int)
    (h1 : returnsMove s.game s.turn f1 t1) (hp1 : (s.game.board f1).piece = Piece.PAWN)
    (hd : (getRow t1 - getRow f1).natAbs = 2)
    (hs1 : pressRelease s f1 t1 = some s1)
    (h2 : returnsMove s1.game s1.turn f2 t2) (hp2 : (s1.game.board f2).piece = Piece.PAWN)
    (hskip : t2 + t2 = f1 + t1) (hdiag : getCol t2 ≠ getCol f2) :
    (s1.game.board t2).piece = Piece.EMPTY ∧
    s1.game.board t1 = s.game.board f1 ∧
    getIdx (getRow f2) (getCol t2) = t1 ∧
    ∃ s2, pressRelease s1 f2 t2 = some s2 ∧
      s2.game.board t1 = emptySquare ∧
      s2.game.board t2 = s1.game.board f2 ∧
      s2.game.board f2 = emptySquare ∧
      ∀ j, j ≠ t1 → j ≠ t2 → j ≠ f2 → s2.game.board j = s1.game.board j := by
  obtain ⟨x, hx, hb, hturn, hcol, hrd, hstart, hmid⟩ := pawn_double_step s h1 hp1 hd
  rw [hs1] at hx
  obtain rfl := Option.some.inj hx
  obtain ⟨⟨hf10, hf11⟩, ⟨ht10, ht11⟩, _, _⟩ := returnsMove_pawn h1 hp1
  obtain ⟨⟨hf20, hf21⟩, ⟨ht20, ht21⟩, _, hcases⟩ := returnsMove_pawn h2 hp2
  have hrd2 : getRow t2 - getRow f2 = (if s1.turn = Color.WHITE then -1 else 1) := by
    rcases hcases with h3 | h3 | h3
    · exact absurd (by omega) hdiag
    · exact absurd (by omega) hdiag
    · exact h3.2
  have hdiag2 := hdiag
  simp only [getRow_eq hf10, getCol_eq hf10, getRow_eq ht10, getCol_eq ht10, getRow_eq hf20,
    getCol_eq hf20, getRow_eq ht20, getCol_eq ht20] at hmid hstart hrd hcol hrd2 hdiag2
  have hgeo : t2 ≠ t1 ∧ t2 ≠ f1 ∧ t2 ≠ f2 ∧ f2 ≠ t1 ∧
      t2 = getIdx (f1 / 8 + (if s.turn = Color.WHITE then -1 else 1)) (f1 % 8) ∧
      getIdx (getRow f2) (getCol t2) = t1 ∧ getRow t2 ≠ 0 ∧ getRow t2 ≠ 7 := by
    rw [getRow_eq hf20, getRow_eq ht20, getCol_eq ht20]
    unfold getIdx
    by_cases hw : s.turn = Color.WHITE
    · simp only [hw, if_true] at hrd hstart hturn ⊢
      simp only [hturn, reduceCtorEq, if_false] at hrd2
      omega
    · simp only [hw, if_false] at hrd hstart hturn ⊢
      simp only [hturn, if_true] at hrd2
      omega
  obtain ⟨n1, n2, n3, n4, emid, ecap, r0, r7⟩ := hgeo
  have hempty : (s1.game.board t2).piece = Piece.EMPTY := by
    rw [hb, setSq_other _ _ n1, setSq_other _ _ n2, emid]
    exact hmid
  obtain ⟨s2, e2, hb2⟩ := pawn_capture_on_empty s1 h2 hp2 hdiag hempty ⟨r0, r7⟩
  refine ⟨hempty, ?_, ecap, s2, e2, ?_, ?_, ?_, ?_⟩
  · rw [hb, setSq_same]
  · rw [hb2, ecap, setSq_other _ _ (Ne.symm n1), setSq_same]
  · rw [hb2, setSq_same]
  · rw [hb2, ecap, setSq_other _ _ (Ne.symm n3), setSq_other _ _ n4, setSq_same]
  · intro j j1 j2 j3
    rw [hb2, ecap, setSq_other _ _ j2, setSq_other _ _ j1, setSq_other _ _ j3]

theorem pressRelease_getD (s : Session) {f t : Int} (h : returnsMove s.game s.turn f t) :
    pressRelease s f t = some ((pressRelease s f t).getD s) := by
  obtain ⟨⟨hf0, hf1⟩, ⟨ht0, ht1⟩, _, he⟩ := pressRelease_legal s h
  have hr := getRow_range ht0 ht1
  have hcl := getCol_range ht0
  obtain ⟨s2, e2, _⟩ := applyMove_spec (lifted s f) hr.1 hr.2 hcl.1 hcl.2
    (by simpa [lifted] using hf0)
  rw [he, e2]
  rfl

/-- Witness of C17 in `enPassantStart`: Black plays d7-d5 (11 to 27), White takes en passant
with e5xd6 (28 to 19). -/
theorem enPassant_capture_witness :
    returnsMove (positionSession enPassantStart).game (positionSession enPassantStart).turn
      11 27 ∧
    returnsMove enPassantAfter.game enPassantAfter.turn 28 19 ∧
    (enPassantAfter.game.board 19).piece = Piece.EMPTY ∧
    enPassantAfter.game.board 27 = (positionSession enPassantStart).game.board 11 ∧
    getIdx (getRow 28) (getCol 19) = 27 ∧
    ∃ s2, pressRelease enPassantAfter 28 19 = some s2 ∧
      s2.game.board 27 = emptySquare ∧
      s2.game.board 19 = enPassantAfter.game.board 28 ∧
      s2.game.board 28 = emptySquare ∧
      ∀ j, j ≠ 27 → j ≠ 19 → j ≠ 28 → s2.game.board j = enPassantAfter.game.board j :=
  ⟨by decide!, by decide!,
    enPassant_capture (positionSession enPassantStart) 11 27 enPassantAfter 28 19
      (by decide!) (by decide!) (by decide!)
      (pressRelease_getD (positionSession enPassantStart) (by decide!))
      (by decide!) (by decide!) (by decide) (by decide)⟩

/-! ### Legal captures against the attack geometry of kingInCheck -/

theorem pawnLegal_capture {g : Game} {c : Color} {toSquare : Square}
    {fromRow fromCol rowDiff colDiff t : Int}
    (h : pawnLegal g c toSquare fromRow fromCol rowDiff colDiff t = some true)
    (hne : toSquare.piece ≠ Piece.EMPTY) :
    colDiff.natAbs = 1 ∧ rowDiff = (if c = Color.WHITE then -1 else 1) := by
  unfold pawnLegal at h
  simp only at h
  have hA : ¬ (colDiff = 0 ∧ rowDiff = (if c = Color.WHITE then -1 else 1) ∧
      toSquare.piece = Piece.EMPTY) := fun e => hne e.2.2
  rw [if_neg hA] at h
  by_cases hC : colDiff.natAbs = 1 ∧ rowDiff = (if c = Color.WHITE then -1 else 1) ∧
      toSquare.color ≠ c ∧ toSquare.color ≠ Color.NONE
  · exact ⟨hC.1, hC.2.1⟩
  · by_cases hD : colDiff.natAbs = 1 ∧ rowDiff = (if c = Color.WHITE then -1 else 1) ∧
        t = g.enPassantIdx ∧ g.enPassantColor ≠ c
    · exact ⟨hD.1, hD.2.1⟩
    · exfalso
      rw [if_neg hC, if_neg hD] at h
      simp only [hne, and_false, decide_False] at h
      by_cases hB : colDiff = 0 ∧ rowDiff = 2 * (if c = Color.WHITE then -1 else 1) ∧
          fromRow = (if c = Color.WHITE then 6 else 1)
      · rw [if_pos hB] at h
        cases hr : readSq g.board (getIdx (fromRow + (if c = Color.WHITE then -1 else 1))
            fromCol) with
        | none => rw [hr] at h; simp at h
        | some m => rw [hr] at h; simp at h
      · rw [if_neg hB] at h
        simp at h

theorem legal_capture_attacks (g : Game) {f t : Int} (hl : isLegal g f t = true)
    (hne : (g.board t).piece ≠ Piece.EMPTY)
    (hadj : (g.board f).piece = Piece.KING →
      (getRow t - getRow f).natAbs ≤ 1 ∧ (getCol t - getCol f).natAbs ≤ 1) :
    isAttack g.board (g.board f).piece (g.board f).color f t = some true := by
  obtain ⟨hf0, hf1, ht0, ht1⟩ := isLegal_range hl
  have hr : ¬ (f < 0 ∨ f ≥ BOARD_SIZE ∨ t < 0 ∨ t ≥ BOARD_SIZE) := by
    simp only [BOARD_SIZE]; omega
  have h3 : isMoveLegal g f t = some (true, g.board) := by rw [isMoveLegal_eq, hl]
  unfold isMoveLegal at h3
  simp only [if_neg hr, readSq, hf0, hf1, ht0, ht1, and_self, if_true] at h3
  by_cases h1 : (g.board f).piece = Piece.EMPTY ∨ (g.board f).color = Color.NONE
  · rw [if_pos h1] at h3; simp at h3
  · rw [if_neg h1] at h3
    by_cases h2 : (g.board t).color = (g.board f).color
    · rw [if_pos h2] at h3; simp at h3
    · rw [if_neg h2] at h3
      unfold isAttack
      simp only
      cases hp : (g.board f).piece with
      | EMPTY => exact absurd (Or.inl hp) h1
      | PAWN =>
        simp only [hp] at h3
        cases hpl : pawnLegal g (g.board f).color (g.board t) (getRow f) (getCol f)
            (getRow t - getRow f) (getCol t - getCol f) t with
        | none => rw [hpl] at h3; simp at h3
        | some r =>
          rw [hpl] at h3
          simp only [Option.map_some', Option.some.injEq, Prod.mk.injEq, and_true] at h3
          rw [h3] at hpl
          have := pawnLegal_capture hpl hne
          simp only [this.1, this.2, and_self, decide_True]
      | KNIGHT =>
        simp only [hp, Option.some.injEq, Prod.mk.injEq, and_true] at h3
        simp only [h3]
      | KING =>
        have := hadj hp
        simp only [this.1, this.2, and_self, decide_True]
      | ROOK =>
        simp only [hp] at h3
        by_cases g1 : getRow f = getRow t ∨ getCol f = getCol t
        · rw [if_pos g1] at h3
          rw [if_pos g1]
          cases hpc : pathClear g.board f t with
          | none => rw [hpc] at h3; simp at h3
          | some r =>
            rw [hpc] at h3
            simp only [Option.map_some', Option.some.injEq, Prod.mk.injEq, and_true] at h3
            rw [h3]
        · rw [if_neg g1] at h3; simp at h3
      | BISHOP =>
        simp only [hp] at h3
        by_cases g1 : (getRow t - getRow f).natAbs = (getCol t - getCol f).natAbs
        · rw [if_pos g1] at h3
          rw [if_pos g1]
          cases hpc : pathClear g.board f t with
          | none => rw [hpc] at h3; simp at h3
          | some r =>
            rw [hpc] at h3
            simp only [Option.map_some', Option.some.injEq, Prod.mk.injEq, and_true] at h3
            rw [h3]
        · rw [if_neg g1] at h3; simp at h3
      | QUEEN =>
        simp only [hp] at h3
        by_cases g1 : (getRow f = getRow t ∨ getCol f = getCol t) ∨
            (getRow t - getRow f).natAbs = (getCol t - getCol f).natAbs
        · rw [if_pos g1] at h3
          cases hpc : pathClear g.board f t with
          | none => rw [hpc] at h3; simp at h3
          | some r =>
            rw [hpc] at h3
            simp only [Option.map_some', Option.some.injEq, Prod.mk.injEq, and_true] at h3
            subst h3
            by_cases g2 : getRow f = getRow t ∨ getCol f = getCol t
            · simp only [if_pos g2]
            · have g3 : (getRow t - getRow f).natAbs = (getCol t - getCol f).natAbs := by
                rcases g1 with g1 | g1
                · exact absurd g1 g2
                · exact g1
              simp only [if_neg g2, if_pos g3]
        · rw [if_neg g1] at h3; simp at h3

theorem isLegal_color {g : Game} {f t : Int} (h : isLegal g f t = true) :
    (g.board f).color ≠ Color.NONE ∧ (g.board t).color ≠ (g.board f).color := by
  obtain ⟨hf0, hf1, ht0, ht1⟩ := isLegal_range h
  have hr : ¬ (f < 0 ∨ f ≥ BOARD_SIZE ∨ t < 0 ∨ t ≥ BOARD_SIZE) := by
    simp only [BOARD_SIZE]; omega
  constructor
  · intro hc
    unfold isLegal isMoveLegal at h
    simp only [if_neg hr, readSq, hf0, hf1, ht0, ht1, and_self, if_true, hc, or_true] at h
    cases h
  · intro hc
    rw [isLegal_same_color g hc] at h
    cases h

theorem castling_target_empty (g : Game) (c : Color) {f t : Int} (hf : f = 60 ∨ f = 4)
    (ht0 : 0 ≤ t) (ht1 : t < 64) (h : kingLegalB g c f t = true)
    (hnadj : ¬ ((getRow t - getRow f).natAbs ≤ 1 ∧ (getCol t - getCol f).natAbs ≤ 1)) :
    (g.board t).piece = Piece.EMPTY := by
  have r60 : getRow 60 = 7 := by decide
  have c60 : getCol 60 = 4 := by decide
  have r4 : getRow 4 = 0 := by decide
  have c4 : getCol 4 = 4 := by decide
  have e1 := getRow_eq ht0
  have e2 := getCol_eq ht0
  unfold kingLegalB at h
  simp only [if_neg hnadj] at h
  by_cases hcond : (if c = Color.WHITE then g.whiteKingMoved else g.blackKingMoved) = false ∧
      getRow t - getRow f = 0 ∧ (getCol t - getCol f).natAbs = 2
  · rw [if_pos hcond] at h
    by_cases hd : getCol t - getCol f > 0
    · rw [if_pos hd] at h
      unfold castleB at h
      simp only [Bool.and_eq_true, List.all_eq_true, decide_eq_true_eq] at h
      apply h.2.1 t
      rcases hf with rfl | rfl
      · have : t = 62 := by omega
        subst this
        decide
      · have : t = 6 := by omega
        subst this
        decide
    · rw [if_neg hd] at h
      unfold castleB at h
      simp only [Bool.and_eq_true, List.all_eq_true, decide_eq_true_eq] at h
      apply h.2.1 t
      rcases hf with rfl | rfl
      · have : t = 58 := by omega
        subst this
        decide
      · have : t = 2 := by omega
        subst this
        decide
  · rw [if_neg hcond] at h
    cases h

/-! ### C21: a king can be taken only when it is in check -/

/-- C21. For every game state with exactly one king of each colour in which each king whose
moved flag is false stands on its home square (60 for White, 4 for Black): if
`isMoveLegal(from, to)` returns true and the square `to` holds the king of the colour
opposite to that of the piece on `from`, then `kingInCheck` of that king's colour returns
true. -/
theorem king_capture_needs_check (g : Game) (fromIdx toIdx : Int)
    (hw : countKings g.board Color.WHITE = 1) (hb : countKings g.board Color.BLACK = 1)
    (hwh : g.whiteKingMoved = false → g.board 60 = ⟨Piece.KING, Color.WHITE⟩)
    (hbh : g.blackKingMoved = false → g.board 4 = ⟨Piece.KING, Color.BLACK⟩)
    (hl : (isMoveLegal g fromIdx toIdx).map Prod.fst = some true)
    (hk : g.board toIdx = ⟨Piece.KING, opposite (g.board fromIdx).color⟩) :
    kingInCheck g.board (opposite (g.board fromIdx).color) = some true := by
  have hleg : isLegal g fromIdx toIdx = true := by
    rw [isMoveLegal_eq] at hl
    simpa using hl
  obtain ⟨hf0, hf1, ht0, ht1⟩ := isLegal_range hleg
  obtain ⟨hcn, hct⟩ := isLegal_color hleg
  have hcases : (g.board fromIdx).color = Color.WHITE ∨ (g.board fromIdx).color = Color.BLACK := by
    cases hc : (g.board fromIdx).color with
    | NONE => exact absurd hc hcn
    | WHITE => exact Or.inl rfl
    | BLACK => exact Or.inr rfl
  have hcount : countKings g.board (opposite (g.board fromIdx).color) = 1 := by
    rcases hcases with h | h <;> rw [h] <;> assumption
  have hkt : (g.board toIdx).piece = Piece.KING ∧
      (g.board toIdx).color = opposite (g.board fromIdx).color := by rw [hk]; exact ⟨rfl, rfl⟩
  have hfind : findKing g.board (opposite (g.board fromIdx).color) = toIdx :=
    findKing_unique g.board _ ht0 ht1 hkt (unique_of_count g.board _ ht0 ht1 hkt hcount)
  have hne : (g.board toIdx).piece ≠ Piece.EMPTY := by rw [hkt.1]; decide
  have hadj : (g.board fromIdx).piece = Piece.KING →
      (getRow toIdx - getRow fromIdx).natAbs ≤ 1 ∧
        (getCol toIdx - getCol fromIdx).natAbs ≤ 1 := by
    intro hp
    by_contra hnadj
    have hkf : g.board fromIdx = ⟨Piece.KING, (g.board fromIdx).color⟩ := by
      rw [← hp]
    have hkb := isLegal_king g _ hf0 hf1 ht0 ht1 hkf hcn hct
    rw [hleg] at hkb
    have hhome : fromIdx = 60 ∨ fromIdx = 4 := by
      have hkb2 := hkb.symm
      unfold kingLegalB at hkb2
      simp only [if_neg hnadj] at hkb2
      by_cases hcond : (if (g.board fromIdx).color = Color.WHITE then g.whiteKingMoved
          else g.blackKingMoved) = false ∧
          getRow toIdx - getRow fromIdx = 0 ∧ (getCol toIdx - getCol fromIdx).natAbs = 2
      · rcases hcases with h | h
        · left
          have hm : g.whiteKingMoved = false := by simpa [h] using hcond.1
          exact unique_of_count g.board Color.WHITE (by decide) (by decide)
            (by rw [hwh hm]; exact ⟨rfl, rfl⟩) hw fromIdx hf0 hf1 ⟨hp, h⟩
        · right
          have hm : g.blackKingMoved = false := by simpa [h] using hcond.1
          exact unique_of_count g.board Color.BLACK (by decide) (by decide)
            (by rw [hbh hm]; exact ⟨rfl, rfl⟩) hb fromIdx hf0 hf1 ⟨hp, h⟩
      · rw [if_neg hcond] at hkb2
        cases hkb2
    exact hne (castling_target_empty g _ hhome ht0 ht1 hkb.symm hnadj)
  have hatt := legal_capture_attacks g hleg hne hadj
  rw [kingInCheck_eq, hfind]
  congr 1
  rw [decide_eq_true_eq]
  refine ⟨by omega, fromIdx, (mem_squares _).mpr ⟨hf0, hf1⟩, hcn, ?_, hatt⟩
  rcases hcases with h | h <;> rw [h] <;> decide

/-- Witness of C21 in `openFilePosition`: the White rook on e4 (36) may move to e8 (4), where
the Black king stands, and Black is in check. -/
theorem king_capture_needs_check_witness :
    (isMoveLegal (positionSession openFilePosition).game 36 4).map Prod.fst = some true ∧
    kingInCheck (positionSession openFilePosition).game.board
      (opposite ((positionSession openFilePosition).game.board 36).color) = some true :=
  ⟨by decide!, king_capture_needs_check (positionSession openFilePosition).game 36 4
    (by decide!) (by decide!) (fun _ => by decide!) (fun _ => by decide!) (by decide!)
    (by decide!)⟩

end Chess
